import Mathlib

/-!
# chya: timeline model and export pipeline

A shallow embedding of the timeline queries, the scene and layer commands, the
timeline editing steps, the compositor, the export routine with its file names
and encoder command, the render button with its worker thread, the media
import, rename and thumbnail handling and the recent project list of
`src/main.cpp`, followed by theorems about them.

Conventions of the embedding.

* A project database is a value of `Db`: the rows of the tables `scenes`,
  `layers`, `media` and `movie_config`.  A `sqlite3*` handle is an `Option Db` (`none` is the null handle).
  Statements are taken to prepare and execute without engine errors.
* C++ `int` values are mathematical integers (`Int`); the development covers
  the executions in which no signed overflow (undefined in C++) occurs, except
  in `scale_rgba_to`, whose index arithmetic is taken with its 32-bit wrap
  (`int32`).
* `std::string` is `String`; the empty string is the "no image" result.
* A `double` is the rational number it holds (`ℚ`); the `float` arithmetic of
  the progress value rounds to single precision (`to_float`).
* The statements of `rename_media` may fail after the file has been renamed;
  elsewhere statements are taken to succeed.
* The render button and its workers form a step system (`ui_step`): a step is
  one pass of `draw_ui` or one atomic store of a worker.
-/

namespace Chya

/-! ## Stored tables -/

/-- Row of table `scenes(id, timeline_id, sort_order, name)`; `name` is nullable. -/
structure SceneRec where
  id : Int
  timeline_id : Int
  sort_order : Int
  name : Option String
  deriving DecidableEq, Repr

/-- Row of table `layers(id, scene_id, image_path, sort_order, frame_span)`.
The column `sort_order` stores the start frame; `frame_span` is read through
`COALESCE(frame_span, 1)`, so the stored value is kept as an optional one. -/
structure LayerRec where
  id : Int
  scene_id : Int
  image_path : String
  sort_order : Int
  frame_span : Option Int
  deriving DecidableEq, Repr

/-- Row of table `media(id, path)`. -/
structure MediaRec where
  id : Int
  path : String
  deriving DecidableEq, Repr

/-- The C++ `struct MovieConfig`, read from the row of table `movie_config`.  A
`double` is given by the rational number it holds. -/
structure MovieConfig where
  duration_sec : ℚ
  frame_rate : ℚ
  width : Int
  height : Int
  deriving DecidableEq, Repr

/-- Contents of the project database that the timeline model reads and writes. -/
structure Db where
  scenes : List SceneRec
  layers : List LayerRec
  media : List MediaRec := []
  /-- The row `id = 1` of table `movie_config`, when there is one. -/
  movie_config : Option MovieConfig := none
  deriving DecidableEq, Repr

/-! ## Query results -/

/-- The C++ `struct SceneRow`. -/
structure SceneRow where
  id : Int
  sort_order : Int
  name : String
  deriving DecidableEq, Repr

/-- The C++ `struct LayerRow`. -/
structure LayerRow where
  id : Int
  image_path : String
  start_frame : Int
  frame_span : Int
  deriving DecidableEq, Repr

/-- Comparison behind `ORDER BY sort_order, id`, on the pairs (sort_order, id). -/
def order_by (a b : Int × Int) : Prop :=
  a.1 < b.1 ∨ (a.1 = b.1 ∧ a.2 ≤ b.2)

instance order_by_decidable : DecidableRel order_by :=
  fun a b => by unfold order_by; exact inferInstance

/-- Sort key of a stored layer row. -/
def LayerRec.key (r : LayerRec) : Int × Int := (r.sort_order, r.id)

/-- Sort key of a stored scene row. -/
def SceneRec.key (r : SceneRec) : Int × Int := (r.sort_order, r.id)

/-- Order of two stored layers under `ORDER BY sort_order, id`. -/
def layer_order (a b : LayerRec) : Prop := order_by a.key b.key

instance layer_order_decidable : DecidableRel layer_order :=
  fun a b => by unfold layer_order; exact inferInstance

/-- Order of two stored scenes under `ORDER BY sort_order, id`. -/
def scene_order (a b : SceneRec) : Prop := order_by a.key b.key

instance scene_order_decidable : DecidableRel scene_order :=
  fun a b => by unfold scene_order; exact inferInstance

instance layer_order_total : IsTotal LayerRec layer_order :=
  ⟨fun a b => by unfold layer_order order_by; omega⟩

instance layer_order_trans : IsTrans LayerRec layer_order :=
  ⟨fun a b c h₁ h₂ => by unfold layer_order order_by at *; omega⟩

instance scene_order_total : IsTotal SceneRec scene_order :=
  ⟨fun a b => by unfold scene_order order_by; omega⟩

instance scene_order_trans : IsTrans SceneRec scene_order :=
  ⟨fun a b c h₁ h₂ => by unfold scene_order order_by at *; omega⟩

/-- One result row of `list_layers`: the column values, with a span below 1
raised to 1 (`if (r.frame_span < 1) r.frame_span = 1`). -/
def layer_row (r : LayerRec) : LayerRow :=
  let span := r.frame_span.getD 1
  { id := r.id
    image_path := r.image_path
    start_frame := r.sort_order
    frame_span := if span < 1 then 1 else span }

/-- `list_layers(db, scene_id)`:
`SELECT id, image_path, sort_order, COALESCE(frame_span, 1) FROM layers
 WHERE scene_id = ? ORDER BY sort_order, id`. -/
def list_layers (db : Option Db) (scene_id : Int) : List LayerRow :=
  match db with
  | none => []
  | some d =>
    ((d.layers.filter (fun r => r.scene_id = scene_id)).insertionSort layer_order).map layer_row

/-- One result row of `list_scenes`; the name column is
`COALESCE(name, 'Scene ' || id)`. -/
def scene_row (r : SceneRec) : SceneRow :=
  { id := r.id
    sort_order := r.sort_order
    name := r.name.getD ("Scene " ++ toString r.id) }

/-- `list_scenes(db)`:
`SELECT id, sort_order, COALESCE(name, 'Scene ' || id) FROM scenes
 ORDER BY sort_order, id`. -/
def list_scenes (db : Option Db) : List SceneRow :=
  match db with
  | none => []
  | some d => (d.scenes.insertionSort scene_order).map scene_row

/-! ## Frame resolution and used frame count -/

/-- The loop test of `get_image_at_frame`:
`frame >= L.start_frame && frame < L.start_frame + L.frame_span`. -/
def covers (L : LayerRow) (frame : Int) : Bool :=
  decide (frame ≥ L.start_frame) && decide (frame < L.start_frame + L.frame_span)

/-- `get_image_at_frame(db, scene_id, frame)`: scan all layers of the scene in
query order, overwriting `path` at every layer whose interval holds `frame`. -/
def get_image_at_frame (db : Option Db) (scene_id : Int) (frame : Int) : String :=
  (list_layers db scene_id).foldl
    (fun path L => if covers L frame then L.image_path else path) ""

/-- `get_scene_used_frame_count(db, scene_id)`: running maximum of
`start_frame + frame_span`, starting from 0. -/
def get_scene_used_frame_count (db : Option Db) (scene_id : Int) : Int :=
  (list_layers db scene_id).foldl
    (fun end_frame L =>
      let layer_end := L.start_frame + L.frame_span
      if layer_end > end_frame then layer_end else end_frame) 0

/-! ## Scene reordering -/

/-- First query of `move_scene_up` and `move_scene_down`:
`SELECT sort_order FROM scenes WHERE id = ?`, first row if any. -/
def scene_sort_order (d : Db) (scene_id : Int) : Option Int :=
  (d.scenes.find? (fun r => r.id = scene_id)).map (fun r => r.sort_order)

/-- Second query of `move_scene_up`:
`SELECT id FROM scenes WHERE sort_order < ? ORDER BY sort_order DESC LIMIT 1`.
Rows of equal sort order (an order SQL leaves open) come out in table order. -/
def select_lower (d : Db) (order : Int) : Option Int :=
  (((d.scenes.filter (fun r => r.sort_order < order)).insertionSort
      (fun a b => a.sort_order ≥ b.sort_order)).head?).map (fun r => r.id)

/-- Second query of `move_scene_down`:
`SELECT id FROM scenes WHERE sort_order > ? ORDER BY sort_order ASC LIMIT 1`.
Rows of equal sort order (an order SQL leaves open) come out in table order. -/
def select_higher (d : Db) (order : Int) : Option Int :=
  (((d.scenes.filter (fun r => r.sort_order > order)).insertionSort
      (fun a b => a.sort_order ≤ b.sort_order)).head?).map (fun r => r.id)

instance sort_order_ge_total : IsTotal SceneRec (fun a b => a.sort_order ≥ b.sort_order) :=
  ⟨fun a b => le_total b.sort_order a.sort_order⟩

instance sort_order_ge_trans : IsTrans SceneRec (fun a b => a.sort_order ≥ b.sort_order) :=
  ⟨fun _ _ _ h₁ h₂ => le_trans h₂ h₁⟩

instance sort_order_le_total : IsTotal SceneRec (fun a b => a.sort_order ≤ b.sort_order) :=
  ⟨fun a b => le_total a.sort_order b.sort_order⟩

instance sort_order_le_trans : IsTrans SceneRec (fun a b => a.sort_order ≤ b.sort_order) :=
  ⟨fun _ _ _ h₁ h₂ => le_trans h₁ h₂⟩

/-- The statement
`UPDATE scenes SET sort_order = CASE id WHEN a THEN va WHEN b THEN vb END
 WHERE id IN (a, b)`. -/
def update_sort_orders (d : Db) (a va b vb : Int) : Db :=
  { d with scenes := d.scenes.map (fun r =>
      if r.id = a then { r with sort_order := va }
      else if r.id = b then { r with sort_order := vb }
      else r) }

/-- `move_scene_up(db, scene_id)`: the returned flag and the database afterwards. -/
def move_scene_up (db : Option Db) (scene_id : Int) : Bool × Option Db :=
  match db with
  | none => (false, none)
  | some d =>
    match scene_sort_order d scene_id with
    | none => (false, some d)
    | some order =>
      match select_lower d order with
      | none => (false, some d)
      | some other_id =>
        (true, some (update_sort_orders d scene_id (order - 1) other_id order))

/-- `move_scene_down(db, scene_id)`: the returned flag and the database afterwards. -/
def move_scene_down (db : Option Db) (scene_id : Int) : Bool × Option Db :=
  match db with
  | none => (false, none)
  | some d =>
    match scene_sort_order d scene_id with
    | none => (false, some d)
    | some order =>
      match select_higher d order with
      | none => (false, some d)
      | some other_id =>
        (true, some (update_sort_orders d scene_id (order + 1) other_id order))

/-! ## Export -/

/-- What is found at `<project_root>/.render_frames` : nothing, a directory
with the listed entries, or something for which `fs::create_directories`
reports an error (a non-directory at that path, a parent that cannot be written). -/
inductive TmpDir where
  | absent
  | directory (entries : List String)
  | blocked
  deriving DecidableEq, Repr

/-- Outcomes of the calls that leave the program during one export. -/
structure Env where
  /-- State of the temporary directory path when the export starts. -/
  tmp : TmpDir
  /-- Result of the n-th call of `stbi_write_png` (counted from 0): true when
  it returns nonzero.  A failing call creates no file. -/
  write_ok : Nat → Bool
  /-- Value returned by `std::system` for the ffmpeg command. -/
  encoder_ret : Int

/-- Observable steps of an export, in program order. -/
inductive Event where
  /-- The call `fs::create_directories(tmp_dir, ec)`, with whether `ec` stayed clear. -/
  | create_dir (ok : Bool)
  /-- The store `progress->store(float(frame_idx) / float(total_frames))`. -/
  | store (frame_idx : Nat) (total_frames : Int)
  /-- The store `progress->store(1.f)`. -/
  | store_one
  /-- A call of `stbi_write_png` for the file of `frame_idx`, the buffer being
  filled from the image `src` (empty: black frame), with its result. -/
  | write_png (frame_idx : Nat) (src : String) (ok : Bool)
  /-- The call `std::system(ff_cmd)`. -/
  | run_encoder
  /-- A call `fs::remove(p, ec)` on a written frame file. -/
  | remove_file (name : String)
  /-- The call `fs::remove(tmp_dir, ec)`. -/
  | remove_dir
  deriving DecidableEq, Repr

/-- Decimal digits of `n`, zero-padded on the left to at least 5 characters (`%05d`). -/
def pad5 (n : Nat) : List Char :=
  let ds := Nat.toDigits 10 n
  List.replicate (5 - ds.length) '0' ++ ds

/-- File name `snprintf(fn, sizeof(fn), "frame_%05d.png", frame_idx)`. -/
def frame_file_name (frame_idx : Nat) : String :=
  "frame_" ++ String.mk (pad5 frame_idx) ++ ".png"

/-- Local state of the frame loops of `render_project_to_video`.  A file is
named by its name inside the temporary directory. -/
structure RenderState where
  frame_idx : Nat
  written : List String
  /-- Number of calls of `stbi_write_png` made so far. -/
  calls : Nat
  /-- Entries of the temporary directory. -/
  entries : List String
  trace : List Event

/-- Effect of a successful `stbi_write_png` on the directory entries. -/
def add_entry (name : String) (entries : List String) : List String :=
  if name ∈ entries then entries else entries ++ [name]

/-- The inner loop `for (int f = 0; f < frames_this_scene; f++)`, entered at
frame `f` with `n` iterations to go; a failed write leaves the loop (`break`). -/
def render_frames (env : Env) (db : Option Db) (scene_id : Int) (total_frames : Int)
    (progress : Bool) : Nat → Int → RenderState → RenderState
  | 0, _, st => st
  | n + 1, f, st =>
    let tr := if progress then st.trace ++ [Event.store st.frame_idx total_frames] else st.trace
    let rel := get_image_at_frame db scene_id f
    let fn := frame_file_name st.frame_idx
    if env.write_ok st.calls then
      render_frames env db scene_id total_frames progress n (f + 1)
        { frame_idx := st.frame_idx + 1
          written := st.written ++ [fn]
          calls := st.calls + 1
          entries := add_entry fn st.entries
          trace := tr ++ [Event.write_png st.frame_idx rel true] }
    else
      { st with
          calls := st.calls + 1
          trace := tr ++ [Event.write_png st.frame_idx rel false] }

/-- The outer loop `for (size_t s = 0; s < scenes.size(); s++)` over the scenes
paired with `scene_frame_counts`. -/
def render_scenes (env : Env) (db : Option Db) (total_frames : Int) (progress : Bool)
    (scenes : List (SceneRow × Int)) (st : RenderState) : RenderState :=
  scenes.foldl
    (fun st sc => render_frames env db sc.1.id total_frames progress sc.2.toNat 0 st) st

/-- The cleanup `for (const auto& p : written) fs::remove(p, ec);
fs::remove(tmp_dir, ec);` : entries after the file removals, then the state of
the directory, which is removed only when empty. -/
def cleanup_entries (written entries : List String) : List String :=
  written.foldl (fun es p => es.filter (fun e => e ≠ p)) entries

/-- Events of the cleanup. -/
def cleanup_events (written : List String) : List Event :=
  written.map Event.remove_file ++ [Event.remove_dir]

/-- Effect of `fs::remove(tmp_dir, ec)` on a directory with the given entries. -/
def remove_dir (entries : List String) : TmpDir :=
  if entries.isEmpty then TmpDir.absent else TmpDir.directory entries

/-- Entries of the temporary directory once `fs::create_directories` has
succeeded: those of a directory that was there already, none for a new one. -/
def entries_before (tmp : TmpDir) : List String :=
  match tmp with
  | TmpDir.directory es => es
  | _ => []

/-- What an export returns and leaves behind. -/
structure RenderResult where
  /-- The returned flag. -/
  ok : Bool
  trace : List Event
  /-- State of the temporary directory path on return. -/
  tmp : TmpDir

/-- The counts `scene_frame_counts` of `render_project_to_video`. -/
def scene_frame_counts (db : Option Db) (scenes : List SceneRow) : List Int :=
  scenes.map (fun scene => get_scene_used_frame_count db scene.id)

/-- `render_project_to_video(db, project_root, output_path, progress)`;
`progress` tells whether the progress pointer is non-null. -/
def render_project_to_video (env : Env) (db : Option Db) (project_root output_path : String)
    (progress : Bool) : RenderResult :=
  if db.isNone || project_root.isEmpty || output_path.isEmpty then
    { ok := false, trace := [], tmp := env.tmp }
  else
    let scenes := list_scenes db
    if scenes.isEmpty then { ok := false, trace := [], tmp := env.tmp }
    else
      let counts := scene_frame_counts db scenes
      let total_frames := counts.sum
      if total_frames ≤ 0 then { ok := false, trace := [], tmp := env.tmp }
      else
        match env.tmp with
        | TmpDir.blocked =>
          { ok := false, trace := [Event.create_dir false], tmp := env.tmp }
        | tmp0 =>
          let st := render_scenes env db total_frames progress (scenes.zip counts)
            { frame_idx := 0, written := [], calls := 0, entries := entries_before tmp0
              trace := [Event.create_dir true] }
          let tr := if progress then st.trace ++ [Event.store_one] else st.trace
          if st.written.length ≠ st.frame_idx then
            { ok := false
              trace := tr ++ cleanup_events st.written
              tmp := remove_dir (cleanup_entries st.written st.entries) }
          else
            { ok := decide (env.encoder_ret = 0)
              trace := tr ++ [Event.run_encoder] ++ cleanup_events st.written
              tmp := remove_dir (cleanup_entries st.written st.entries) }

/-- Key (start_frame, id) of a result row of `list_layers`. -/
def LayerRow.key (L : LayerRow) : Int × Int := (L.start_frame, L.id)

/-- The loop of `get_scene_used_frame_count` from a start value `e`. -/
def used_fold (l : List LayerRow) (e : Int) : Int :=
  l.foldl (fun end_frame L =>
    if L.start_frame + L.frame_span > end_frame then L.start_frame + L.frame_span
    else end_frame) e

/-! ## Layer commands -/

/-- The id SQLite gives to a row inserted into `layers` without one: one more
than the largest id in use, 1 for an empty table. -/
def next_layer_id (d : Db) : Int :=
  match (d.layers.map (fun r => r.id)).max? with
  | none => 1
  | some m => m + 1

/-- `add_layer_at_frame(db, scene_id, frame_index, image_path, frame_span)`:
the returned flag and the database afterwards.  The C++ default `frame_span = 1`
is passed by the caller here. -/
def add_layer_at_frame (db : Option Db) (scene_id frame_index : Int) (image_path : String)
    (frame_span : Int) : Bool × Option Db :=
  match db with
  | none => (false, none)
  | some d =>
    if frame_index < 0 ∨ frame_span < 1 then (false, some d)
    else
      (true, some { d with layers := d.layers ++
        [{ id := next_layer_id d, scene_id := scene_id, image_path := image_path
           sort_order := frame_index, frame_span := some frame_span }] })

/-- `update_layer_start_frame(db, layer_id, start_frame)`:
`UPDATE layers SET sort_order = start_frame WHERE id = layer_id`. -/
def update_layer_start_frame (db : Option Db) (layer_id start_frame : Int) :
    Bool × Option Db :=
  match db with
  | none => (false, none)
  | some d =>
    if start_frame < 0 then (false, some d)
    else
      (true, some { d with layers := d.layers.map (fun r =>
        if r.id = layer_id then { r with sort_order := start_frame } else r) })

/-- `update_layer_span(db, layer_id, frame_span)`:
`UPDATE layers SET frame_span = frame_span WHERE id = layer_id`. -/
def update_layer_span (db : Option Db) (layer_id frame_span : Int) : Bool × Option Db :=
  match db with
  | none => (false, none)
  | some d =>
    if frame_span < 1 then (false, some d)
    else
      (true, some { d with layers := d.layers.map (fun r =>
        if r.id = layer_id then { r with frame_span := some frame_span } else r) })

/-- `delete_layer(db, layer_id)`: `DELETE FROM layers WHERE id = layer_id`. -/
def delete_layer (db : Option Db) (layer_id : Int) : Bool × Option Db :=
  match db with
  | none => (false, none)
  | some d => (true, some { d with layers := d.layers.filter (fun r => r.id ≠ layer_id) })

/-! ## Timeline editing steps of `draw_ui` -/

/-- The lambda `frame_from_mouse` of `draw_ui`, from the integer `f` that the
cast `static_cast<int>(content_x / ppf)` yields:
`std::max(0, std::min(total_frames, f))`. -/
def frame_from_mouse (total_frames f : Int) : Int :=
  max 0 (min total_frames f)

/-- The statics `s_live_start`, `s_live_span` and the project database, as one
resize step reads and writes them. -/
structure ResizeState where
  live_start : Int
  live_span : Int
  db : Option Db

/-- The branch `if (s_resize_left)` of the resize step of `draw_ui` for the
layer `layer` and the mouse frame `frame`. -/
def resize_left (st : ResizeState) (layer : LayerRow) (frame : Int) : ResizeState :=
  let end_frame := layer.start_frame + layer.frame_span
  let new_start := max 0 (min frame (end_frame - 1))
  let new_span := end_frame - new_start
  if new_span ≥ 1 then
    { live_start := new_start
      live_span := new_span
      db := (update_layer_span (update_layer_start_frame st.db layer.id new_start).2
        layer.id new_span).2 }
  else st

/-- The `else` branch (resize from the right) of the resize step of `draw_ui`,
`total_frames` being the frame count of the movie. -/
def resize_right (st : ResizeState) (layer : LayerRow) (total_frames frame : Int) :
    ResizeState :=
  let new_span := max 1 (frame - layer.start_frame)
  if new_span ≤ total_frames - layer.start_frame then
    { st with
      live_span := new_span
      db := (update_layer_span st.db layer.id new_span).2 }
  else st

/-- The paste branch of `draw_ui` (Ctrl+V with a non-empty clipboard path): the
database afterwards.  `layers` is `list_layers` of the selected scene. -/
def paste (db : Option Db) (selected_scene_id selected_layer_id total_frames : Int)
    (clipboard_path : String) (clipboard_frame_span : Int) : Option Db :=
  if clipboard_path.isEmpty then db
  else
    let paste_at :=
      match (list_layers db selected_scene_id).find? (fun L => L.id = selected_layer_id) with
      | some L => L.start_frame + L.frame_span
      | none => 0
    if paste_at < total_frames then
      (add_layer_at_frame db selected_scene_id paste_at clipboard_path
        clipboard_frame_span).2
    else db

/-! ## Compositor -/

/-- The read `buf[i]` of a byte buffer.  An index outside the buffer (undefined
in C++) reads 0. -/
def buf_get (buf : List Nat) (i : Int) : Nat :=
  if i < 0 then 0 else buf.getD i.toNat 0

/-- The write `buf[i] = v` of a byte buffer.  An index outside the buffer
(undefined in C++) writes nothing. -/
def buf_set (buf : List Nat) (i : Int) (v : Nat) : List Nat :=
  if i < 0 then buf else buf.set i.toNat v

/-- The value held by a C++ `int` that is given the mathematical value `x`:
`x` itself when it fits 32 bits, its two's complement wrap otherwise (signed
overflow, undefined in C++, wraps on the machines the program is built for). -/
def int32 (x : Int) : Int :=
  (x + 2147483648) % 4294967296 - 2147483648

/-- `scale_rgba_to(src, sw, sh, dst, dw, dh)`: the destination buffer
afterwards.  Every `int` operation is followed by `int32`; the `/` of C++ on
`int` truncates, which is `Int.tdiv`. -/
def scale_rgba_to (src : List Nat) (sw sh : Int) (dst : List Nat) (dw dh : Int) : List Nat :=
  (List.range dh.toNat).foldl (fun (dst : List Nat) (y : Nat) =>
    let sy0 : Int :=
      if dh > 1 ∧ sh > 0 then
        Int.tdiv (int32 ((y : Int) * int32 (sh - 1))) (int32 (dh - 1))
      else 0
    let sy : Int := if sy0 ≥ sh then int32 (sh - 1) else sy0
    (List.range dw.toNat).foldl (fun (dst : List Nat) (x : Nat) =>
      let sx0 : Int :=
        if dw > 1 ∧ sw > 0 then
          Int.tdiv (int32 ((x : Int) * int32 (sw - 1))) (int32 (dw - 1))
        else 0
      let sx : Int := if sx0 ≥ sw then int32 (sw - 1) else sx0
      let si : Int := int32 (int32 (int32 (sy * sw) + sx) * 4)
      let di : Int := int32 (int32 (int32 ((y : Int) * dw) + (x : Int)) * 4)
      buf_set (buf_set (buf_set (buf_set dst di (buf_get src si))
        (int32 (di + 1)) (buf_get src (int32 (si + 1))))
        (int32 (di + 2)) (buf_get src (int32 (si + 2))))
        (int32 (di + 3)) (buf_get src (int32 (si + 3)))) dst) dst

/-- The source coordinate that `scale_rgba_to` picks for the destination
coordinate `k`, for a source extent `s` and a destination extent `d` (the
values `sx` and `sy` of the code, after the clamp). -/
def src_coord (s d : Int) (k : Nat) : Int :=
  if (if d > 1 ∧ s > 0 then Int.tdiv (int32 ((k : Int) * int32 (s - 1))) (int32 (d - 1))
      else 0) ≥ s then int32 (s - 1)
  else (if d > 1 ∧ s > 0 then Int.tdiv (int32 ((k : Int) * int32 (s - 1))) (int32 (d - 1))
      else 0)

/-- The value `si` of `scale_rgba_to` for the source coordinates `sx`, `sy`. -/
def src_index (sw sy sx : Int) : Int :=
  int32 (int32 (int32 (sy * sw) + sx) * 4)

/-- The value `di` of `scale_rgba_to` for the destination coordinates `x`, `y`. -/
def dst_index (dw : Int) (y x : Nat) : Int :=
  int32 (int32 (int32 ((y : Int) * dw) + (x : Int)) * 4)

/-- The four byte copies of the inner loop body of `scale_rgba_to`. -/
def copy_pixel (src dst : List Nat) (si di : Int) : List Nat :=
  buf_set (buf_set (buf_set (buf_set dst di (buf_get src si))
    (int32 (di + 1)) (buf_get src (int32 (si + 1))))
    (int32 (di + 2)) (buf_get src (int32 (si + 2))))
    (int32 (di + 3)) (buf_get src (int32 (si + 3)))

/-- The first `n` iterations of the inner loop of `scale_rgba_to` in row `y`,
for which the source row is `sy`. -/
def scale_row (src : List Nat) (sw : Int) (dst : List Nat) (dw sy : Int) (y n : Nat) :
    List Nat :=
  (List.range n).foldl (fun (dst : List Nat) (x : Nat) =>
    copy_pixel src dst (src_index sw sy (src_coord sw dw x)) (dst_index dw y x)) dst

/-- The first `n` iterations of the outer loop of `scale_rgba_to`. -/
def scale_rows (src : List Nat) (sw sh : Int) (dst : List Nat) (dw dh : Int) (n : Nat) :
    List Nat :=
  (List.range n).foldl (fun (dst : List Nat) (y : Nat) =>
    scale_row src sw dst dw (src_coord sh dh y) y dw.toNat) dst

/-- The byte copies `dst[di + c] = src[si + c]` that `scale_rgba_to` executes,
in program order, each as the pair of the destination index written and the
source index read. -/
def scale_accesses (sw sh dw dh : Int) : List (Int × Int) :=
  (List.range dh.toNat).flatMap (fun (y : Nat) =>
    let sy0 : Int :=
      if dh > 1 ∧ sh > 0 then
        Int.tdiv (int32 ((y : Int) * int32 (sh - 1))) (int32 (dh - 1))
      else 0
    let sy : Int := if sy0 ≥ sh then int32 (sh - 1) else sy0
    (List.range dw.toNat).flatMap (fun (x : Nat) =>
      let sx0 : Int :=
        if dw > 1 ∧ sw > 0 then
          Int.tdiv (int32 ((x : Int) * int32 (sw - 1))) (int32 (dw - 1))
        else 0
      let sx : Int := if sx0 ≥ sw then int32 (sw - 1) else sx0
      let si : Int := int32 (int32 (int32 (sy * sw) + sx) * 4)
      let di : Int := int32 (int32 (int32 ((y : Int) * dw) + (x : Int)) * 4)
      [(di, si), (int32 (di + 1), int32 (si + 1)), (int32 (di + 2), int32 (si + 2)),
       (int32 (di + 3), int32 (si + 3))]))

/-! ## Frame buffer of the export -/

/-- Outcome of `stbi_load(full, &iw, &ih, &ic, 4)`: the pixel bytes when the
returned pointer is not null, and the width and height it reports. -/
structure Loaded where
  img : Option (List Nat)
  iw : Int
  ih : Int

/-- Size of `out_buf`, `static_cast<size_t>(out_w) * out_h * 4` in 64-bit
unsigned arithmetic. -/
def out_buf_size (out_w out_h : Int) : Nat :=
  ((out_w % 2 ^ 64).toNat * (out_h % 2 ^ 64).toNat % 2 ^ 64 * 4) % 2 ^ 64

/-- The buffer `out_buf` as declared before the frame loops: all zero. -/
def out_buf_init (out_w out_h : Int) : List Nat :=
  List.replicate (out_buf_size out_w out_h) 0

/-- What the loop body of `render_project_to_video` does to `out_buf` between
the resolution of the frame's image `rel` and the call of `stbi_write_png`:
whether `scale_rgba_to` was called, and the buffer afterwards. -/
structure FrameFill where
  resampled : Bool
  buf : List Nat
  deriving DecidableEq, Repr

/-- The filling of `out_buf` for one frame, `loaded` being the outcome of
`stbi_load` for the image `rel` (not called when `rel` is empty);
`std::fill(out_buf.begin(), out_buf.end(), 0)` zeroes the buffer in place. -/
def fill_frame (out_w out_h : Int) (out_buf : List Nat) (rel : String) (loaded : Loaded) :
    FrameFill :=
  if ¬ rel.isEmpty then
    match loaded.img with
    | some img =>
      if loaded.iw > 0 ∧ loaded.ih > 0 then
        { resampled := true
          buf := scale_rgba_to img loaded.iw loaded.ih out_buf out_w out_h }
      else { resampled := false, buf := List.replicate out_buf.length 0 }
    | none => { resampled := false, buf := List.replicate out_buf.length 0 }
  else { resampled := false, buf := List.replicate out_buf.length 0 }

/-- The fillings of `out_buf` over the successive iterations of the frame loops,
from the buffer `out_buf` left by the iterations before; each iteration is given
by the image it resolves and the outcome of its `stbi_load`. -/
def frame_fills (out_w out_h : Int) : List Nat → List (String × Loaded) → List FrameFill
  | _, [] => []
  | out_buf, (rel, loaded) :: rest =>
    fill_frame out_w out_h out_buf rel loaded ::
      frame_fills out_w out_h (fill_frame out_w out_h out_buf rel loaded).buf rest

/-- The fillings of `out_buf` of one export, in the order of the frame writes. -/
def export_fills (out_w out_h : Int) (frames : List (String × Loaded)) : List FrameFill :=
  frame_fills out_w out_h (out_buf_init out_w out_h) frames

/-! ## Media rename -/

/-- The part of the file system under the project root that `rename_media`
looks at, paths being relative to the project root and compared as written. -/
structure MediaFs where
  /-- Paths of the regular files. -/
  files : List String
  /-- Paths of the other entries (directories and the like). -/
  others : List String
  deriving DecidableEq, Repr

/-- What `rename_media` returns and leaves behind. -/
structure RenameResult where
  ok : Bool
  db : Option Db
  fs : MediaFs
  deriving DecidableEq, Repr

/-- `rename_media(db, project_root, old_rel_path, new_filename)` on the file
system `fs`.  `rename_ok` tells whether `fs::rename` leaves `ec` clear;
`update_media_ok` and `update_layers_ok` tell whether the statement
`UPDATE media ...` and the statement `UPDATE layers ...` are built and executed
(`sql && run_sql(db, sql)`); a statement that fails changes no row. -/
def rename_media (fs : MediaFs) (rename_ok update_media_ok update_layers_ok : Bool)
    (db : Option Db) (project_root old_rel_path new_filename : String) : RenameResult :=
  match db with
  | none => { ok := false, db := none, fs := fs }
  | some d =>
    if project_root.isEmpty || old_rel_path.isEmpty || new_filename.isEmpty then
      { ok := false, db := some d, fs := fs }
    else if ¬ "media/".toList.isPrefixOf old_rel_path.toList then
      { ok := false, db := some d, fs := fs }
    else
      let new_rel := "media/" ++ new_filename
      if new_rel = old_rel_path then { ok := true, db := some d, fs := fs }
      else if old_rel_path ∉ fs.files then { ok := false, db := some d, fs := fs }
      else if new_rel ∈ fs.files ∨ new_rel ∈ fs.others then
        { ok := false, db := some d, fs := fs }
      else if ¬ rename_ok then { ok := false, db := some d, fs := fs }
      else if ¬ update_media_ok then
        { ok := false
          db := some d
          fs := { fs with
            files := fs.files.map (fun p => if p = old_rel_path then new_rel else p) } }
      else if ¬ update_layers_ok then
        { ok := false
          db := some { d with
            media := d.media.map (fun m =>
              if m.path = old_rel_path then { m with path := new_rel } else m) }
          fs := { fs with
            files := fs.files.map (fun p => if p = old_rel_path then new_rel else p) } }
      else
        { ok := true
          db := some { d with
            media := d.media.map (fun m =>
              if m.path = old_rel_path then { m with path := new_rel } else m)
            layers := d.layers.map (fun r =>
              if r.image_path = old_rel_path then { r with image_path := new_rel } else r) }
          fs := { fs with
            files := fs.files.map (fun p => if p = old_rel_path then new_rel else p) } }

/-! ## Thumbnail cache and the media handlers of `draw_ui` -/

/-- The C++ `struct ThumbEntry`. -/
structure ThumbEntry where
  tex : Nat
  w : Int
  h : Int
  deriving DecidableEq, Repr

/-- `delete_media(db, rel_path)`: `DELETE FROM media WHERE path = rel_path`. -/
def delete_media (db : Option Db) (rel_path : String) : Bool × Option Db :=
  match db with
  | none => (false, none)
  | some d =>
    if rel_path.isEmpty then (false, some d)
    else (true, some { d with media := d.media.filter (fun m => m.path ≠ rel_path) })

/-- The lookup `g_thumb_cache.find(key)` followed by `g_thumb_cache.erase(it)`
when the key is found.  The `std::map` is the list of its entries, which has one
entry per key at most. -/
def cache_erase (cache : List (String × ThumbEntry)) (key : String) :
    List (String × ThumbEntry) :=
  cache.filter (fun e => e.1 ≠ key)

/-- The globals and the statics of `draw_ui` that the media handlers and
`close_project` read and write. -/
structure App where
  /-- The handle `g_project.db`. -/
  db : Option Db
  /-- The project root `g_project.path`. -/
  path : String
  /-- The display name `g_project.name`. -/
  name : String
  /-- Whether `g_play_window` is open. -/
  play_window : Bool
  /-- The map `g_thumb_cache`. -/
  cache : List (String × ThumbEntry)
  selected_layer_id : Int
  selected_media_path : String
  deriving DecidableEq, Repr

/-- The body of the Delete / Backspace key handler of `draw_ui`. -/
def on_delete_key (app : App) : App :=
  if app.selected_layer_id ≠ 0 then
    { app with
      db := (delete_layer app.db app.selected_layer_id).2
      selected_layer_id := 0 }
  else if ¬ app.selected_media_path.isEmpty then
    if (delete_media app.db app.selected_media_path).1 then
      { app with
        db := (delete_media app.db app.selected_media_path).2
        cache := cache_erase app.cache (app.path ++ "/" ++ app.selected_media_path)
        selected_media_path := "" }
    else app
  else app

/-- The loop of the rename popup that drops the trailing blanks and newlines of
the typed name. -/
def trim_name (buf : String) : String :=
  String.mk ((buf.toList.reverse.dropWhile (fun c => c = ' ' ∨ c = '\n')).reverse)

/-- The body of the OK button of the "Rename media" popup of `draw_ui`, for
the typed name `buf`: the state afterwards and the files afterwards. -/
def on_rename_ok (fs : MediaFs) (rename_ok update_media_ok update_layers_ok : Bool)
    (app : App) (buf : String) : App × MediaFs :=
  let new_name := trim_name buf
  if new_name.isEmpty then (app, fs)
  else
    let res := rename_media fs rename_ok update_media_ok update_layers_ok app.db app.path
      app.selected_media_path new_name
    if res.ok then
      ({ app with
          db := res.db
          cache := cache_erase app.cache (app.path ++ "/" ++ app.selected_media_path)
          selected_media_path := "media/" ++ new_name }, res.fs)
    else ({ app with db := res.db }, res.fs)

/-- `close_project()`: the play window is destroyed, the thumbnail cache
cleared (`clear_thumbnail_cache`) and the project handle, path and name reset. -/
def close_project (app : App) : App :=
  { app with
    db := none
    path := ""
    name := ""
    play_window := false
    cache := [] }

/-! ## Recent projects -/

/-- The constant `kMaxRecentProjects`. -/
def kMaxRecentProjects : Nat := 10

/-- The inner loop of `load_recent_projects` that drops the trailing carriage
returns and newlines of a line. -/
def strip_line (line : String) : String :=
  String.mk ((line.toList.reverse.dropWhile (fun c => c = '\r' ∨ c = '\n')).reverse)

/-- The loop `while (out.size() < kMaxRecentProjects && std::getline(f, line))`
of `load_recent_projects`, over the lines that `std::getline` still yields. -/
def load_recent_loop : List String → List String → List String
  | [], out => out
  | line :: rest, out =>
    if out.length < kMaxRecentProjects then
      if ¬ (strip_line line).isEmpty then load_recent_loop rest (out ++ [strip_line line])
      else load_recent_loop rest out
    else out

/-- `load_recent_projects()`, the file `recent.txt` being given by the lines
that `std::getline` yields from it. -/
def load_recent_projects (file_lines : List String) : List String :=
  load_recent_loop file_lines []

/-- `push_recent_project(project_path)`: the lines written to `recent.txt`. -/
def push_recent_project (file_lines : List String) (project_path : String) : List String :=
  let recent := load_recent_projects file_lines
  let recent := recent.filter (fun q => q ≠ project_path)
  let recent := project_path :: recent
  if recent.length > kMaxRecentProjects then recent.take kMaxRecentProjects else recent

/-! ## Media import naming -/

/-- The candidate that the loop of `add_media_file` forms when its counter
becomes `n`: `stem + "_" + std::to_string(n) + ext`. -/
def numbered_name (stem ext : String) (n : Nat) : String :=
  stem ++ "_" ++ toString n ++ ext

/-- The loop `while (fs::exists(dest)) dest = dest_dir / (stem + "_" +
std::to_string(++n) + ext)` of `add_media_file`, entered with the counter `n`
and the candidate `dest`, `present` being the names in the media directory;
`fuel` bounds the number of tests of the loop condition. -/
def collision_loop (present : List String) (stem ext : String) :
    Nat → Nat → String → Option String
  | 0, _, _ => none
  | fuel + 1, n, dest =>
    if dest ∈ present then
      collision_loop present stem ext fuel (n + 1) (numbered_name stem ext (n + 1))
    else some dest

/-- The file name that `add_media_file` picks in the media directory for a
source file `stem + ext`: the loop entered with `n = 0` and `dest = stem + ext`. -/
def media_dest_name (present : List String) (stem ext : String) (fuel : Nat) :
    Option String :=
  collision_loop present stem ext fuel 0 (stem ++ ext)

/-- The `k`-th candidate of the loop of `add_media_file`: `stem + ext` before
the first turn, `stem + "_" + std::to_string(k) + ext` after `k` turns. -/
def candidate (stem ext : String) (k : Nat) : String :=
  if k = 0 then stem ++ ext else numbered_name stem ext k

/-! ## Decimal numerals -/

/-- The value of a decimal digit character. -/
def digit_value (c : Char) : Nat := c.toNat - 48

/-- The number that a string of decimal digits denotes. -/
def decimal_value (l : List Char) : Nat :=
  l.foldl (fun a c => a * 10 + digit_value c) 0

/-! ## Encoder command -/

/-- The id SQLite gives to a row inserted into `scenes` without one: one more
than the largest id in use, 1 for an empty table. -/
def next_scene_id (d : Db) : Int :=
  match (d.scenes.map (fun r => r.id)).max? with
  | none => 1
  | some m => m + 1

/-- The query of `create_scene`:
`SELECT COALESCE(MAX(sort_order), 0) + 1 FROM scenes WHERE timeline_id = 1`. -/
def next_sort_order (d : Db) : Int :=
  match ((d.scenes.filter (fun r => r.timeline_id = 1)).map (fun r => r.sort_order)).max? with
  | none => 0 + 1
  | some m => m + 1

/-- `create_scene(db)`: `INSERT INTO scenes(timeline_id, sort_order, name)
VALUES(1, next_order, 'Scene next_order')`. -/
def create_scene (db : Option Db) : Bool × Option Db :=
  match db with
  | none => (false, none)
  | some d =>
    (true, some { d with scenes := d.scenes ++
      [{ id := next_scene_id d, timeline_id := 1, sort_order := next_sort_order d
         name := some ("Scene " ++ toString (next_sort_order d)) }] })

/-- `rename_scene(db, id, name)`: `UPDATE scenes SET name = name WHERE id = id`. -/
def rename_scene (db : Option Db) (id : Int) (name : String) : Bool × Option Db :=
  match db with
  | none => (false, none)
  | some d =>
    if name.isEmpty then (false, some d)
    else
      (true, some { d with scenes := d.scenes.map (fun r =>
        if r.id = id then { r with name := some name } else r) })

/-- `delete_scene(db, id)`:
`DELETE FROM layers WHERE scene_id = id; DELETE FROM scenes WHERE id = id`. -/
def delete_scene (db : Option Db) (id : Int) : Bool × Option Db :=
  match db with
  | none => (false, none)
  | some d =>
    (true, some { d with
      layers := d.layers.filter (fun r => r.scene_id ≠ id)
      scenes := d.scenes.filter (fun r => r.id ≠ id) })

/-- A call of one of the five scene commands. -/
inductive SceneOp where
  | create
  | delete (id : Int)
  | rename (id : Int) (name : String)
  | move_up (id : Int)
  | move_down (id : Int)
  deriving DecidableEq, Repr

/-- The database after a call of a scene command. -/
def apply_scene_op (db : Option Db) (op : SceneOp) : Option Db :=
  match op with
  | SceneOp.create => (create_scene db).2
  | SceneOp.delete id => (delete_scene db id).2
  | SceneOp.rename id name => (rename_scene db id name).2
  | SceneOp.move_up id => (move_scene_up db id).2
  | SceneOp.move_down id => (move_scene_down db id).2

/-- The database after a sequence of calls of scene commands. -/
def run_scene_ops (db : Option Db) (ops : List SceneOp) : Option Db :=
  ops.foldl apply_scene_op db

/-! ## Render button and export worker -/

/-- Where a thread running `render_worker` stands. -/
inductive WorkerPc where
  /-- Started, before `sqlite3_open`. -/
  | started
  /-- In `render_project_to_video`, before the store of 1.0 that follows the
  frame loops. -/
  | frames
  /-- After that store: the encoder call and the cleanup. -/
  | encoding
  /-- After `render_project_to_video` has returned `ok`. -/
  | returned (ok : Bool)
  /-- After `done->store(ok ? 1 : -1)`. -/
  | done_stored
  /-- After the last statement of `render_worker`: the thread has ended. -/
  | finished
  deriving DecidableEq, Repr

/-- The statics of `draw_ui` behind the render button, and the worker threads
started so far. -/
structure RenderUi where
  /-- The atomic `s_render_progress`. -/
  progress : ℚ
  /-- The atomic `s_render_done`. -/
  done : Int
  /-- Whether `s_render_thread` holds a thread. -/
  thread : Bool
  workers : List WorkerPc
  /-- Whether `std::terminate` was called, which the destruction of a joinable
  `std::thread` does. -/
  aborted : Bool
  deriving DecidableEq, Repr

/-- A step of a worker thread. -/
inductive WorkerStep where
  /-- The call `sqlite3_open` succeeds. -/
  | open_ok
  /-- The call `sqlite3_open` fails: `done->store(-1)` and return. -/
  | open_fails
  /-- A store `progress->store(frame_idx / total_frames)` of the frame loops. -/
  | store_progress (v : ℚ)
  /-- The store `progress->store(1.f)` that follows the frame loops. -/
  | store_one
  /-- A return of `render_project_to_video` before the frame loops. -/
  | early_return
  /-- The encoder call returns, the cleanup is done, the function returns. -/
  | encoder_returns (ok : Bool)
  /-- The store `done->store(ok ? 1 : -1)` of `render_worker`. -/
  | store_done
  /-- The store `progress->store(1.f)` of `render_worker`. -/
  | store_final
  deriving DecidableEq, Repr

/-- A step of the system: a pass of `draw_ui` over the render button code, or a
step of the `i`-th worker. -/
inductive Action where
  /-- A pass of `draw_ui`: whether the render button is pressed, whether a
  project with scenes is open, whether `pick_save_file` gives a path. -/
  | ui_frame (clicked can_render picked : Bool)
  | worker (i : Nat) (w : WorkerStep)
  deriving DecidableEq, Repr

/-- A step of the `i`-th worker, none when the worker is not at that step. -/
def worker_step (s : RenderUi) (i : Nat) (w : WorkerStep) : Option RenderUi :=
  if s.aborted then none
  else
    match s.workers[i]?, w with
    | some WorkerPc.started, WorkerStep.open_ok =>
      some { s with workers := s.workers.set i WorkerPc.frames }
    | some WorkerPc.started, WorkerStep.open_fails =>
      some { s with done := -1, workers := s.workers.set i WorkerPc.finished }
    | some WorkerPc.frames, WorkerStep.store_progress v =>
      if 0 ≤ v ∧ v < 1 then some { s with progress := v } else none
    | some WorkerPc.frames, WorkerStep.store_one =>
      some { s with progress := 1, workers := s.workers.set i WorkerPc.encoding }
    | some WorkerPc.frames, WorkerStep.early_return =>
      some { s with workers := s.workers.set i (WorkerPc.returned false) }
    | some WorkerPc.encoding, WorkerStep.encoder_returns ok =>
      some { s with workers := s.workers.set i (WorkerPc.returned ok) }
    | some (WorkerPc.returned ok), WorkerStep.store_done =>
      some { s with
        done := if ok then 1 else -1
        workers := s.workers.set i WorkerPc.done_stored }
    | some WorkerPc.done_stored, WorkerStep.store_final =>
      some { s with progress := 1, workers := s.workers.set i WorkerPc.finished }
    | _, _ => none

/-- A pass of `draw_ui` over the code of the render button: the handling of
`s_render_done` (the join waits for the thread held to end), then the button. -/
def ui_frame (s : RenderUi) (clicked can_render picked : Bool) : Option RenderUi :=
  if s.aborted then none
  else if s.done ≠ 0 ∧ s.thread = true ∧ s.workers.getLast? ≠ some WorkerPc.finished then none
  else
    let s1 : RenderUi :=
      if s.done ≠ 0 then { s with thread := false, done := 0, progress := -1 } else s
    if clicked = true ∧ ¬ (0 ≤ s1.progress ∧ s1.progress < 1) ∧ can_render = true
        ∧ picked = true then
      some { progress := 0
             done := 0
             thread := true
             workers := s1.workers ++ [WorkerPc.started]
             aborted := s1.thread }
    else some s1

/-- One step of the system. -/
def ui_step (s : RenderUi) (a : Action) : Option RenderUi :=
  match a with
  | Action.ui_frame clicked can_render picked => ui_frame s clicked can_render picked
  | Action.worker i w => worker_step s i w

/-- The state after a sequence of steps, none when one of them cannot be taken. -/
def ui_run (s : RenderUi) (actions : List Action) : Option RenderUi :=
  actions.foldl (fun st a => st.bind (fun s => ui_step s a)) (some s)

/-- The state of the render button when the application starts. -/
def ui_init : RenderUi :=
  { progress := -1, done := 0, thread := false, workers := [], aborted := false }

/-- The number of workers whose thread has not ended. -/
def in_flight (s : RenderUi) : Nat :=
  (s.workers.filter (fun pc => pc ≠ WorkerPc.finished)).length

/-! ## Single precision -/

/-- The integer nearest to a rational, the even one of the two when it lies
half way between them. -/
def round_even (q : ℚ) : Int :=
  if q - ⌊q⌋ < 1 / 2 then ⌊q⌋
  else if 1 / 2 < q - ⌊q⌋ then ⌊q⌋ + 1
  else if ⌊q⌋ % 2 = 0 then ⌊q⌋ else ⌊q⌋ + 1

/-- The `float` nearest to a positive rational `x`: with `e` the exponent of
`x` (2^e ≤ x < 2^(e+1)), the multiple of 2^(e-23) nearest to `x`, ties going to
the even multiple (IEEE 754 binary32, round to nearest even).  The exponent
range is not bounded; the values of the program lie between 2^-31 and 2^31,
inside the normal range. -/
def float_mag (x : ℚ) : ℚ :=
  (round_even (x / 2 ^ (Int.log 2 x - 23)) : ℚ) * 2 ^ (Int.log 2 x - 23)

/-- The value of `static_cast<float>` and of a `float` operation whose exact
result is `x`. -/
def to_float (x : ℚ) : ℚ :=
  if x = 0 then 0 else if x < 0 then - float_mag (-x) else float_mag x

/-- The value of
`static_cast<float>(frame_idx) / static_cast<float>(total_frames)`: both
conversions and the division round to `float`. -/
def progress_quotient (frame_idx : Nat) (total_frames : Int) : ℚ :=
  to_float (to_float (frame_idx : ℚ) / to_float (total_frames : ℚ))

/-! ## Reading a trace -/

/-- Whether an event is one of the two steps of the frame loop body. -/
def Event.is_loop : Event → Bool
  | Event.store _ _ => true
  | Event.write_png _ _ _ => true
  | _ => false

/-- The calls of `stbi_write_png` of a trace, in order: frame index, source
image and result. -/
def writes (trace : List Event) : List (Nat × String × Bool) :=
  trace.filterMap (fun e =>
    match e with
    | Event.write_png i src ok => some (i, src, ok)
    | _ => none)

/-- Names of the frame files that a trace wrote successfully, in order. -/
def written_names (trace : List Event) : List String :=
  trace.filterMap (fun e =>
    match e with
    | Event.write_png i _ true => some (frame_file_name i)
    | _ => none)

/-- The value a progress store leaves in the sink, none for other events. -/
def progress_value : Event → Option ℚ
  | Event.store frame_idx total_frames => some (progress_quotient frame_idx total_frames)
  | Event.store_one => some 1
  | _ => none

/-- The sequence of values written to the progress sink by a trace. -/
def progress_values (trace : List Event) : List ℚ :=
  trace.filterMap progress_value

/-- The sum `total_frames` computed by `render_project_to_video`. -/
def total_frames (db : Option Db) : Int :=
  (scene_frame_counts db (list_scenes db)).sum

/-- The loop state of `render_project_to_video` when the two frame loops are left. -/
def loop_state (env : Env) (db : Option Db) (progress : Bool) : RenderState :=
  render_scenes env db (total_frames db) progress
    ((list_scenes db).zip (scene_frame_counts db (list_scenes db)))
    { frame_idx := 0, written := [], calls := 0, entries := entries_before env.tmp
      trace := [Event.create_dir true] }

/-! ## Loop invariant of the export -/

/-- Invariant of the two frame loops of `render_project_to_video`, for a
temporary directory that held `es0` when the loops were entered, a frame total
`T` and a bound `B` on the frame indices still to come. -/
structure LoopInv (es0 : List String) (T : Int) (B : Nat) (st : RenderState) : Prop where
  written_eq : st.written = written_names st.trace
  written_len : st.written.length = st.frame_idx
  entries_eq : st.entries.filter (fun e => decide (e ∉ st.written))
    = es0.filter (fun e => decide (e ∉ st.written))
  shape : ∃ evs, st.trace = Event.create_dir true :: evs ∧ ∀ e ∈ evs, e.is_loop = true
  stores : ∀ i t, Event.store i t ∈ st.trace → t = T ∧ i < B
  vals_sorted : (progress_values st.trace).Pairwise (fun a b => a ≤ b)
  vals_le : ∀ v ∈ progress_values st.trace, v ≤ progress_quotient st.frame_idx T

/-! ## Invariant of the scene table -/

/-- The rows of a database handle, none for a null handle. -/
def stored_scenes (db : Option Db) : List SceneRec :=
  match db with
  | none => []
  | some d => d.scenes

/-- Invariant of the table `scenes` under the scene commands: `id` is a key,
the sort orders are pairwise distinct and at least 1, and every scene is on
timeline 1. -/
def SceneInv (d : Db) : Prop :=
  (d.scenes.map (fun r => r.id)).Nodup ∧
  (d.scenes.map (fun r => r.sort_order)).Nodup ∧
  ∀ r ∈ d.scenes, 1 ≤ r.sort_order ∧ r.timeline_id = 1

/-! ## Concrete projects -/

/-- One scene with two overlapping layers A = [0,10) and B = [5,15), B having
the larger id. -/
def db_overlap : Db :=
  { scenes := [⟨1, 1, 1, none⟩]
    layers := [⟨1, 1, "A.png", 0, some 10⟩, ⟨2, 1, "B.png", 5, some 10⟩] }

/-- One scene with one layer covering [0,20). -/
def db_single : Db :=
  { scenes := [⟨1, 1, 1, none⟩]
    layers := [⟨1, 1, "a.png", 0, some 20⟩] }

/-- Two scenes, each with one layer covering [0,1). -/
def db_two_scenes : Db :=
  { scenes := [⟨1, 1, 1, none⟩, ⟨2, 1, 2, none⟩]
    layers := [⟨1, 1, "a.png", 0, some 1⟩, ⟨2, 2, "b.png", 0, some 1⟩] }

/-- An environment in which the temporary directory does not exist yet, every
frame write succeeds and the encoder returns 0. -/
def env_ok : Env :=
  { tmp := TmpDir.absent, write_ok := fun _ => true, encoder_ret := 0 }

/-- An environment in which the first frame write fails and all later ones
succeed, the encoder returning 0. -/
def env_first_write_fails : Env :=
  { tmp := TmpDir.absent, write_ok := fun n => decide (n ≠ 0), encoder_ret := 0 }

/-- An environment in which the temporary directory already exists and holds a
file that is not a frame of this export. -/
def env_stale_dir : Env :=
  { tmp := TmpDir.directory ["frame_00031.png"], write_ok := fun _ => true, encoder_ret := 0 }

/-- Scenes with sort orders 1 and 3 (the scene of sort order 2 was deleted). -/
def db_gap : Db :=
  { scenes := [⟨1, 1, 1, none⟩, ⟨3, 1, 3, none⟩]
    layers := [] }

/-- Scenes with sort orders 1, 2, 3. -/
def db_three : Db :=
  { scenes := [⟨1, 1, 1, none⟩, ⟨2, 1, 2, none⟩, ⟨3, 1, 3, none⟩]
    layers := [] }

/-- A media file `media/a.png` referenced by two layers of one scene, next to a
layer of another image. -/
def db_media : Db :=
  { scenes := [⟨1, 1, 1, none⟩]
    layers := [⟨1, 1, "media/a.png", 0, some 5⟩, ⟨2, 1, "media/b.png", 5, some 5⟩,
               ⟨3, 1, "media/a.png", 10, some 5⟩]
    media := [⟨1, "media/a.png"⟩, ⟨2, "media/b.png"⟩] }

/-- The media directory of `db_media` on disk. -/
def fs_media : MediaFs :=
  { files := ["media/a.png", "media/b.png"], others := ["media"] }

/-- A 2 by 2 RGBA image whose 16 bytes are all different. -/
def img_2x2 : List Nat :=
  [1, 2, 3, 4, 5, 6, 7, 8, 9, 10, 11, 12, 13, 14, 15, 16]

/-- Two frames of an export at resolution 1 by 1: one whose image decodes to a
single pixel, then one without image. -/
def frames_image_then_none : List (String × Loaded) :=
  [("a.png", { img := some [9, 8, 7, 6], iw := 1, ih := 1 }),
   ("", { img := none, iw := 0, ih := 0 })]

/-- An open project with thumbnails cached for two media files, the first of
which is selected. -/
def app_media : App :=
  { db := some db_media
    path := "/p"
    name := "p"
    play_window := false
    cache := [("/p/media/a.png", ⟨1, 80, 60⟩), ("/p/media/b.png", ⟨2, 80, 60⟩)]
    selected_layer_id := 0
    selected_media_path := "media/a.png" }

/-- One scene with one layer covering [0,100001). -/
def db_long : Db :=
  { scenes := [⟨1, 1, 1, none⟩]
    layers := [⟨1, 1, "a.png", 0, some 100001⟩] }

/-- A project without scenes. -/
def db_empty : Db :=
  { scenes := [], layers := [] }

/-- A project whose only scene has the id 2 and the sort order 1. -/
def db_renumbered : Db :=
  { scenes := [⟨2, 1, 1, none⟩], layers := [] }

/-- One scene with one layer covering [0,16777217), that is 2^24 + 1 frames. -/
def db_huge : Db :=
  { scenes := [⟨1, 1, 1, none⟩]
    layers := [⟨1, 1, "a.png", 0, some 16777217⟩] }

/-! ## Lemmas on the query order -/

theorem order_by_total (a b : Int × Int) : order_by a b ∨ order_by b a := by
  unfold order_by; omega

theorem order_by_trans {a b c : Int × Int} (h₁ : order_by a b) (h₂ : order_by b c) :
    order_by a c := by
  unfold order_by at *; omega

theorem order_by_antisymm {a b : Int × Int} (h₁ : order_by a b) (h₂ : order_by b a) :
    a = b := by
  unfold order_by at *
  exact Prod.ext (by omega) (by omega)

theorem layer_row_key (r : LayerRec) : (layer_row r).key = r.key := rfl

/-- The rows returned by `list_layers` are in ascending (start_frame, id) order. -/
theorem list_layers_pairwise (db : Option Db) (scene_id : Int) :
    (list_layers db scene_id).Pairwise (fun M L => order_by M.key L.key) := by
  cases db with
  | none => exact List.Pairwise.nil
  | some d =>
    have hs := List.sorted_insertionSort layer_order
      (d.layers.filter (fun r => r.scene_id = scene_id))
    unfold list_layers
    simp only
    rw [List.pairwise_map]
    exact hs

/-- The rows returned by `list_layers` are the stored rows of the scene. -/
theorem mem_list_layers {d : Db} {scene_id : Int} {L : LayerRow} :
    L ∈ list_layers (some d) scene_id ↔
      ∃ r ∈ d.layers, r.scene_id = scene_id ∧ layer_row r = L := by
  unfold list_layers
  simp only [List.mem_map]
  constructor
  · rintro ⟨r, hr, rfl⟩
    have hr2 := (List.perm_insertionSort layer_order _).mem_iff.1 hr
    simp only [List.mem_filter, decide_eq_true_eq] at hr2
    exact ⟨r, hr2.1, hr2.2, rfl⟩
  · rintro ⟨r, hr, hs, rfl⟩
    refine ⟨r, (List.perm_insertionSort layer_order _).mem_iff.2 ?_, rfl⟩
    simp only [List.mem_filter, decide_eq_true_eq]
    exact ⟨hr, hs⟩

/-- With `id` a primary key of `layers`, the ids returned by `list_layers` are distinct. -/
theorem list_layers_nodup (d : Db) (scene_id : Int)
    (hpk : (d.layers.map (fun r => r.id)).Nodup) :
    ((list_layers (some d) scene_id).map (fun L => L.id)).Nodup := by
  unfold list_layers
  simp only [List.map_map]
  have hperm := (List.perm_insertionSort layer_order
    (d.layers.filter (fun r => r.scene_id = scene_id))).map ((fun L => L.id) ∘ layer_row)
  rw [hperm.nodup_iff]
  have hsub : ((d.layers.filter (fun r => r.scene_id = scene_id)).map
      ((fun L => L.id) ∘ layer_row)).Sublist (d.layers.map (fun r => r.id)) :=
    (List.filter_sublist d.layers).map _
  exact hsub.nodup hpk

theorem covers_iff (L : LayerRow) (frame : Int) :
    covers L frame = true ↔ L.start_frame ≤ frame ∧ frame < L.start_frame + L.frame_span := by
  unfold covers
  simp

/-- The scan of `get_image_at_frame` over a list in ascending key order ends on
a covering row of greatest key, when some row covers the frame. -/
theorem scan_greatest (frame : Int) (l : List LayerRow) (init : String)
    (hs : l.Pairwise (fun M L => order_by M.key L.key))
    (hc : ∃ L ∈ l, covers L frame = true) :
    ∃ L ∈ l, covers L frame = true ∧
      (∀ M ∈ l, covers M frame = true → order_by M.key L.key) ∧
      l.foldl (fun path L => if covers L frame then L.image_path else path) init
        = L.image_path := by
  induction l using List.reverseRecOn with
  | nil => obtain ⟨L, hL, _⟩ := hc; simp at hL
  | append_singleton l x ih =>
    rw [List.foldl_append]
    simp only [List.foldl_cons, List.foldl_nil]
    rw [List.pairwise_append] at hs
    obtain ⟨hs₁, _, hs₃⟩ := hs
    by_cases hx : covers x frame = true
    · refine ⟨x, by simp, hx, ?_, by simp [hx]⟩
      intro M hM _
      rcases List.mem_append.1 hM with h | h
      · exact hs₃ M h x (by simp)
      · have : M = x := by simpa using h
        subst this
        rcases order_by_total M.key M.key with h | h <;> exact h
    · have hc2 : ∃ L ∈ l, covers L frame = true := by
        obtain ⟨L, hL, hLc⟩ := hc
        rcases List.mem_append.1 hL with h | h
        · exact ⟨L, h, hLc⟩
        · have : L = x := by simpa using h
          subst this
          exact absurd hLc hx
      obtain ⟨L, hL, hLc, hmax, hres⟩ := ih hs₁ hc2
      refine ⟨L, List.mem_append_left _ hL, hLc, ?_, by simp [hx, hres]⟩
      intro M hM hMc
      rcases List.mem_append.1 hM with h | h
      · exact hmax M h hMc
      · have : M = x := by simpa using h
        subst this
        exact absurd hMc hx

/-- The scan of `get_image_at_frame` keeps its start value when no row covers the frame. -/
theorem scan_none (frame : Int) (l : List LayerRow) (init : String)
    (hc : ∀ L ∈ l, covers L frame = false) :
    l.foldl (fun path L => if covers L frame then L.image_path else path) init = init := by
  induction l generalizing init with
  | nil => rfl
  | cons x l ih =>
    simp only [List.foldl_cons]
    rw [hc x (by simp)]
    exact ih init (fun L hL => hc L (List.mem_cons_of_mem _ hL))

/-- Two rows of a list with distinct ids are equal when their ids are. -/
theorem eq_of_id_eq {l : List LayerRow} (hnd : (l.map (fun L => L.id)).Nodup)
    {L M : LayerRow} (hL : L ∈ l) (hM : M ∈ l) (h : L.id = M.id) : L = M :=
  List.inj_on_of_nodup_map hnd hL hM h

theorem used_count_eq (db : Option Db) (scene_id : Int) :
    get_scene_used_frame_count db scene_id = used_fold (list_layers db scene_id) 0 := rfl

/-- The running maximum of `get_scene_used_frame_count`. -/
theorem used_scan (l : List LayerRow) (e : Int) :
    e ≤ used_fold l e ∧ (∀ L ∈ l, L.start_frame + L.frame_span ≤ used_fold l e) ∧
      (used_fold l e = e ∨ ∃ L ∈ l, used_fold l e = L.start_frame + L.frame_span) := by
  unfold used_fold
  induction l generalizing e with
  | nil => simp
  | cons x l ih =>
    simp only [List.foldl_cons]
    by_cases hx : x.start_frame + x.frame_span > e
    · simp only [hx, if_true]
      obtain ⟨h₁, h₂, h₃⟩ := ih (x.start_frame + x.frame_span)
      refine ⟨by omega, ?_, ?_⟩
      · intro L hL
        rcases List.mem_cons.1 hL with h | h
        · subst h; exact h₁
        · exact h₂ L h
      · right
        rcases h₃ with h | ⟨L, hL, h⟩
        · exact ⟨x, by simp, h⟩
        · exact ⟨L, List.mem_cons_of_mem _ hL, h⟩
    · simp only [hx, if_false]
      obtain ⟨h₁, h₂, h₃⟩ := ih e
      refine ⟨h₁, ?_, ?_⟩
      · intro L hL
        rcases List.mem_cons.1 hL with h | h
        · subst h; omega
        · exact h₂ L h
      · rcases h₃ with h | ⟨L, hL, h⟩
        · exact Or.inl h
        · exact Or.inr ⟨L, List.mem_cons_of_mem _ hL, h⟩

/-! ## Lemmas on single precision -/

theorem round_even_intCast (n : Int) : round_even (n : ℚ) = n := by
  unfold round_even
  simp

theorem round_even_bounds (q : ℚ) : ⌊q⌋ ≤ round_even q ∧ round_even q ≤ ⌊q⌋ + 1 := by
  unfold round_even
  split_ifs <;> omega

/-- Rounding to the nearest integer keeps the order. -/
theorem round_even_mono {q q' : ℚ} (h : q ≤ q') : round_even q ≤ round_even q' := by
  have hf : ⌊q⌋ ≤ ⌊q'⌋ := Int.floor_mono h
  rcases lt_or_eq_of_le hf with hlt | heq
  · have h₁ := (round_even_bounds q).2
    have h₂ := (round_even_bounds q').1
    omega
  · unfold round_even
    rw [← heq]
    have hr : q - ⌊q⌋ ≤ q' - ⌊q⌋ := by linarith
    split_ifs <;> first | omega | linarith

/-- The exponent of a positive rational is fixed by the two powers of 2 around
it. -/
theorem log_two_eq (x : ℚ) (e : Int) (h₁ : (2 : ℚ) ^ e ≤ x) (h₂ : x < (2 : ℚ) ^ (e + 1)) :
    Int.log 2 x = e := by
  have hx : 0 < x := lt_of_lt_of_le (zpow_pos (by norm_num) e) h₁
  have a := (Int.zpow_le_iff_le_log (b := 2) (by norm_num) (x := e) hx).1
    (by simpa using h₁)
  have b := (Int.lt_zpow_iff_log_lt (b := 2) (by norm_num) (x := e + 1) hx).1
    (by simpa using h₂)
  omega

theorem log_two_spec (x : ℚ) (hx : 0 < x) :
    (2 : ℚ) ^ (Int.log 2 x) ≤ x ∧ x < (2 : ℚ) ^ (Int.log 2 x + 1) := by
  have a := Int.zpow_log_le_self (b := 2) (by norm_num) hx
  have b := Int.lt_zpow_succ_log_self (b := 2) (by norm_num) x
  simp only [Nat.cast_ofNat] at a b
  exact ⟨a, b⟩

/-- Rounding to `float` does not leave the binade, its upper end included. -/
theorem float_mag_bounds (x : ℚ) (hx : 0 < x) :
    (2 : ℚ) ^ (Int.log 2 x) ≤ float_mag x ∧ float_mag x ≤ (2 : ℚ) ^ (Int.log 2 x + 1) := by
  obtain ⟨h₁, h₂⟩ := log_two_spec x hx
  have hu : (0 : ℚ) < 2 ^ (Int.log 2 x - 23) := zpow_pos (by norm_num) _
  have e₁ : (2 : ℚ) ^ (Int.log 2 x) = 8388608 * 2 ^ (Int.log 2 x - 23) := by
    rw [zpow_sub₀ (by norm_num)]
    norm_num
    ring
  have e₂ : (2 : ℚ) ^ (Int.log 2 x + 1) = 16777216 * 2 ^ (Int.log 2 x - 23) := by
    rw [zpow_sub₀ (by norm_num), zpow_add₀ (by norm_num)]
    norm_num
    ring
  have m₁ : ((8388608 : Int) : ℚ) ≤ x / 2 ^ (Int.log 2 x - 23) := by
    rw [le_div_iff₀ hu]
    push_cast
    rw [← e₁]; exact h₁
  have m₂ : x / 2 ^ (Int.log 2 x - 23) ≤ ((16777216 : Int) : ℚ) := by
    rw [div_le_iff₀ hu]
    push_cast
    rw [← e₂]; exact le_of_lt h₂
  have r₁ := round_even_mono m₁
  have r₂ := round_even_mono m₂
  rw [round_even_intCast] at r₁ r₂
  unfold float_mag
  rw [e₁, e₂]
  constructor
  · exact mul_le_mul_of_nonneg_right (by exact_mod_cast r₁) (le_of_lt hu)
  · exact mul_le_mul_of_nonneg_right (by exact_mod_cast r₂) (le_of_lt hu)

theorem to_float_pos (x : ℚ) (hx : 0 < x) : to_float x = float_mag x := by
  unfold to_float
  rw [if_neg (ne_of_gt hx), if_neg (not_lt.2 (le_of_lt hx))]

theorem to_float_nonneg (x : ℚ) (hx : 0 ≤ x) : 0 ≤ to_float x := by
  rcases eq_or_lt_of_le hx with h | h
  · rw [← h]; simp [to_float]
  · rw [to_float_pos x h]
    exact le_trans (le_of_lt (zpow_pos (by norm_num) _)) (float_mag_bounds x h).1

theorem to_float_pos_of_pos (x : ℚ) (hx : 0 < x) : 0 < to_float x := by
  rw [to_float_pos x hx]
  exact lt_of_lt_of_le (zpow_pos (by norm_num) _) (float_mag_bounds x hx).1

/-- Rounding to `float` keeps the order. -/
theorem to_float_mono {x y : ℚ} (hx : 0 ≤ x) (h : x ≤ y) : to_float x ≤ to_float y := by
  rcases eq_or_lt_of_le hx with h0 | h0
  · rw [← h0]
    have : to_float 0 = 0 := by simp [to_float]
    rw [this]
    exact to_float_nonneg y (le_trans hx h)
  · have hy : 0 < y := lt_of_lt_of_le h0 h
    rw [to_float_pos x h0, to_float_pos y hy]
    have hlog : Int.log 2 x ≤ Int.log 2 y := Int.log_mono_right h0 h
    rcases lt_or_eq_of_le hlog with hlt | heq
    · refine le_trans (float_mag_bounds x h0).2 (le_trans ?_ (float_mag_bounds y hy).1)
      exact zpow_le_zpow_right₀ (by norm_num) (by omega)
    · unfold float_mag
      rw [← heq]
      have hu : (0 : ℚ) < 2 ^ (Int.log 2 x - 23) := zpow_pos (by norm_num) _
      apply mul_le_mul_of_nonneg_right _ (le_of_lt hu)
      have : x / 2 ^ (Int.log 2 x - 23) ≤ y / 2 ^ (Int.log 2 x - 23) :=
        div_le_div_of_nonneg_right h (le_of_lt hu)
      exact_mod_cast round_even_mono this

/-- A value with a significand of 24 bits is a `float`. -/
theorem to_float_exact (n k : Int) (h₁ : 8388608 ≤ n) (h₂ : n < 16777216) :
    to_float ((n : ℚ) * 2 ^ k) = (n : ℚ) * 2 ^ k := by
  have hk : (0 : ℚ) < 2 ^ k := zpow_pos (by norm_num) _
  have hn : (0 : ℚ) < (n : ℚ) := by exact_mod_cast (by omega : (0 : Int) < n)
  have hx : (0 : ℚ) < (n : ℚ) * 2 ^ k := mul_pos hn hk
  have hlog : Int.log 2 ((n : ℚ) * 2 ^ k) = 23 + k := by
    apply log_two_eq
    · rw [zpow_add₀ (by norm_num)]
      apply mul_le_mul_of_nonneg_right _ (le_of_lt hk)
      have : ((8388608 : Int) : ℚ) ≤ (n : ℚ) := by exact_mod_cast h₁
      norm_num at this ⊢
      exact this
    · have e : (2 : ℚ) ^ (23 + k + 1) = 16777216 * 2 ^ k := by
        rw [show 23 + k + 1 = 24 + k by ring, zpow_add₀ (by norm_num)]
        norm_num
      rw [e]
      apply mul_lt_mul_of_pos_right _ hk
      have : (n : ℚ) < ((16777216 : Int) : ℚ) := by exact_mod_cast h₂
      norm_num at this ⊢
      exact this
  rw [to_float_pos _ hx]
  unfold float_mag
  rw [hlog, show 23 + k - 23 = k by ring, mul_div_assoc, div_self (ne_of_gt hk), mul_one,
    round_even_intCast]

theorem to_float_zero : to_float 0 = 0 := by simp [to_float]

theorem to_float_one : to_float 1 = 1 := by
  have h := to_float_exact 8388608 (-23) (by norm_num) (by norm_num)
  have e : ((8388608 : Int) : ℚ) * 2 ^ (-23 : Int) = 1 := by norm_num
  rw [e] at h
  exact h

/-- The largest `float` below 1. -/
theorem to_float_pred_one : to_float (1 - 1 / 16777216) = 1 - 1 / 16777216 := by
  have h := to_float_exact 16777215 (-24) (by norm_num) (by norm_num)
  have e : ((16777215 : Int) : ℚ) * 2 ^ (-24 : Int) = 1 - 1 / 16777216 := by norm_num
  rw [e] at h
  exact h

/-- The integers up to 2^24 are `float` values. -/
theorem to_float_natCast (i : Nat) (hi : i ≤ 16777216) : to_float (i : ℚ) = (i : ℚ) := by
  rcases Nat.eq_zero_or_pos i with h0 | hpos
  · subst h0; simpa using to_float_zero
  · rcases Nat.lt_or_ge i 16777216 with hlt | hge
    · have hle : 2 ^ Nat.log 2 i ≤ i := Nat.pow_log_le_self 2 (by omega)
      have hlt2 : i < 2 ^ (Nat.log 2 i + 1) := Nat.lt_pow_succ_log_self (by norm_num) i
      have he : Nat.log 2 i ≤ 23 := by
        by_contra hc
        have : 2 ^ 24 ≤ 2 ^ Nat.log 2 i := Nat.pow_le_pow_right (by norm_num) (by omega)
        omega
      have hsplit : 2 ^ Nat.log 2 i * 2 ^ (23 - Nat.log 2 i) = 2 ^ 23 := by
        rw [← pow_add]; congr 1; omega
      have hsplit2 : 2 ^ (Nat.log 2 i + 1) * 2 ^ (23 - Nat.log 2 i) = 2 ^ 24 := by
        rw [← pow_add]; congr 1; omega
      have hp : 0 < 2 ^ (23 - Nat.log 2 i) := Nat.pos_pow_of_pos _ (by norm_num)
      have n₁ : 8388608 ≤ i * 2 ^ (23 - Nat.log 2 i) := by
        have := Nat.mul_le_mul_right (2 ^ (23 - Nat.log 2 i)) hle
        rw [hsplit] at this
        norm_num at this
        exact this
      have n₂ : i * 2 ^ (23 - Nat.log 2 i) < 16777216 := by
        have := Nat.mul_lt_mul_of_pos_right hlt2 hp
        rw [hsplit2] at this
        norm_num at this
        exact this
      have h := to_float_exact ((i * 2 ^ (23 - Nat.log 2 i) : Nat) : Int)
        ((Nat.log 2 i : Int) - 23) (by exact_mod_cast n₁) (by exact_mod_cast n₂)
      have e : (((i * 2 ^ (23 - Nat.log 2 i) : Nat) : Int) : ℚ)
          * 2 ^ ((Nat.log 2 i : Int) - 23) = (i : ℚ) := by
        push_cast
        rw [mul_assoc, ← zpow_natCast, ← zpow_add₀ (by norm_num)]
        have : ((23 - Nat.log 2 i : Nat) : Int) + ((Nat.log 2 i : Int) - 23) = 0 := by
          omega
        rw [this]
        simp
      rw [e] at h
      exact h
    · have hi' : i = 16777216 := by omega
      subst hi'
      have h := to_float_exact 8388608 1 (by norm_num) (by norm_num)
      have e : ((8388608 : Int) : ℚ) * 2 ^ (1 : Int) = ((16777216 : Nat) : ℚ) := by norm_num
      rw [e] at h
      exact h

/-- The integer 2^24 + 1 is not a `float`: it lies half way between two of
them and is rounded to the even one, 2^24. -/
theorem to_float_16777217 : to_float 16777217 = 16777216 := by
  have hlog : Int.log 2 (16777217 : ℚ) = 24 := by
    apply log_two_eq <;> norm_num
  rw [to_float_pos _ (by norm_num)]
  unfold float_mag
  rw [hlog]
  have hfl : ⌊(16777217 : ℚ) / 2 ^ ((24 : Int) - 23)⌋ = 8388608 := by
    rw [Int.floor_eq_iff]
    norm_num
  unfold round_even
  rw [hfl]
  norm_num

theorem progress_quotient_nonneg (i : Nat) (t : Int) (ht : 0 < t) :
    0 ≤ progress_quotient i t := by
  unfold progress_quotient
  apply to_float_nonneg
  have h₁ : 0 ≤ to_float (i : ℚ) := to_float_nonneg _ (by positivity)
  have h₂ : 0 < to_float (t : ℚ) := to_float_pos_of_pos _ (by exact_mod_cast ht)
  exact div_nonneg h₁ (le_of_lt h₂)

theorem progress_quotient_mono (i j : Nat) (t : Int) (ht : 0 < t) (h : i ≤ j) :
    progress_quotient i t ≤ progress_quotient j t := by
  unfold progress_quotient
  have h₂ : 0 < to_float (t : ℚ) := to_float_pos_of_pos _ (by exact_mod_cast ht)
  have h₁ : to_float (i : ℚ) ≤ to_float (j : ℚ) :=
    to_float_mono (by positivity) (by exact_mod_cast h)
  apply to_float_mono
  · exact div_nonneg (to_float_nonneg _ (by positivity)) (le_of_lt h₂)
  · exact div_le_div_of_nonneg_right h₁ (le_of_lt h₂)

theorem progress_quotient_le_one (i : Nat) (t : Int) (ht : 0 < t) (h : (i : Int) ≤ t) :
    progress_quotient i t ≤ 1 := by
  unfold progress_quotient
  have h₂ : 0 < to_float (t : ℚ) := to_float_pos_of_pos _ (by exact_mod_cast ht)
  have h₁ : to_float (i : ℚ) ≤ to_float (t : ℚ) :=
    to_float_mono (by positivity) (by exact_mod_cast h)
  rw [← to_float_one]
  apply to_float_mono
  · exact div_nonneg (to_float_nonneg _ (by positivity)) (le_of_lt h₂)
  · exact (div_le_one h₂).2 h₁

theorem progress_quotient_lt_one (i : Nat) (t : Int) (h : (i : Int) < t)
    (ht : t ≤ 16777216) : progress_quotient i t < 1 := by
  unfold progress_quotient
  have hi : to_float (i : ℚ) = (i : ℚ) := to_float_natCast i (by omega)
  have htn : to_float (t : ℚ) = (t : ℚ) := by
    have := to_float_natCast t.toNat (by omega)
    have e : ((t.toNat : Nat) : ℚ) = (t : ℚ) := by
      have : ((t.toNat : Nat) : Int) = t := Int.toNat_of_nonneg (by omega)
      exact_mod_cast this
    rw [e] at this
    exact this
  rw [hi, htn]
  have htq : (0 : ℚ) < (t : ℚ) := by exact_mod_cast (by omega : (0 : Int) < t)
  have hq : (i : ℚ) / (t : ℚ) ≤ 1 - 1 / 16777216 := by
    rw [div_le_iff₀ htq]
    have h₁ : (i : ℚ) + 1 ≤ (t : ℚ) := by exact_mod_cast (by omega : (i : Int) + 1 ≤ t)
    have h₂ : (t : ℚ) ≤ 16777216 := by exact_mod_cast ht
    nlinarith
  have := to_float_mono (div_nonneg (by positivity) (le_of_lt htq)) hq
  rw [to_float_pred_one] at this
  linarith

/-- With 2^24 + 1 frames the value stored for the last frame is 1. -/
theorem progress_quotient_16777216 : progress_quotient 16777216 16777217 = 1 := by
  unfold progress_quotient
  have h₁ : to_float ((16777216 : Nat) : ℚ) = 16777216 := by
    have := to_float_natCast 16777216 (by norm_num)
    simpa using this
  have h₂ : to_float ((16777217 : Int) : ℚ) = 16777216 := by
    have := to_float_16777217
    simpa using this
  rw [h₁, h₂]
  norm_num
  exact to_float_one

/-! ## Lemmas on the export loops -/

theorem written_names_append (a b : List Event) :
    written_names (a ++ b) = written_names a ++ written_names b := by
  unfold written_names; exact List.filterMap_append _ _ _

theorem progress_values_append (a b : List Event) :
    progress_values (a ++ b) = progress_values a ++ progress_values b := by
  unfold progress_values; exact List.filterMap_append _ _ _

theorem writes_append (a b : List Event) : writes (a ++ b) = writes a ++ writes b := by
  unfold writes; exact List.filterMap_append _ _ _

theorem cleanup_entries_eq (written entries : List String) :
    cleanup_entries written entries = entries.filter (fun e => decide (e ∉ written)) := by
  unfold cleanup_entries
  induction written generalizing entries with
  | nil => simp
  | cons p w ih =>
    simp only [List.foldl_cons]
    rw [ih, List.filter_filter]
    apply List.filter_congr
    intro x _
    simp only [List.mem_cons, not_or, ne_eq, decide_not, Bool.and_eq_true,
      Bool.not_eq_true', decide_eq_false_iff_not, decide_eq_true_eq, Bool.decide_and]
    by_cases h₁ : x = p <;> by_cases h₂ : x ∈ w <;> simp [h₁, h₂]

theorem filter_add_entry (name : String) (entries : List String) (q : String → Bool)
    (hq : q name = false) : (add_entry name entries).filter q = entries.filter q := by
  unfold add_entry
  split
  · rfl
  · simp [List.filter_append, hq]

theorem inv_store {es0 : List String} {T : Int} {B : Nat} {st : RenderState}
    (hT : 0 < T) (h : LoopInv es0 T B st) (hB : st.frame_idx < B) :
    LoopInv es0 T B { st with trace := st.trace ++ [Event.store st.frame_idx T] } := by
  have hTq : (0 : ℚ) < (T : ℚ) := by exact_mod_cast hT
  refine ⟨?_, h.written_len, h.entries_eq, ?_, ?_, ?_, ?_⟩
  · simp only [written_names_append]
    rw [← h.written_eq]; simp [written_names]
  · obtain ⟨evs, he, hl⟩ := h.shape
    refine ⟨evs ++ [Event.store st.frame_idx T], by simp [he], ?_⟩
    intro e hm
    rcases List.mem_append.1 hm with hm | hm
    · exact hl e hm
    · have : e = Event.store st.frame_idx T := by simpa using hm
      subst this; rfl
  · intro i t hm
    rcases List.mem_append.1 hm with hm | hm
    · exact h.stores i t hm
    · simp only [List.mem_singleton, Event.store.injEq] at hm
      obtain ⟨rfl, rfl⟩ := hm
      exact ⟨rfl, hB⟩
  · simp only [progress_values_append]
    rw [List.pairwise_append]
    refine ⟨h.vals_sorted, by simp [progress_values, progress_value], ?_⟩
    intro a ha b hb
    have : b = progress_quotient st.frame_idx T := by
      simpa [progress_values, progress_value] using hb
    rw [this]; exact h.vals_le a ha
  · intro v hv
    simp only [progress_values_append] at hv
    rcases List.mem_append.1 hv with hv | hv
    · exact h.vals_le v hv
    · have : v = progress_quotient st.frame_idx T := by
        simpa [progress_values, progress_value] using hv
      rw [this]

theorem inv_write_fail {es0 : List String} {T : Int} {B : Nat} {st : RenderState}
    (h : LoopInv es0 T B st) (i : Nat) (rel : String) (c : Nat) :
    LoopInv es0 T B
      { st with calls := c, trace := st.trace ++ [Event.write_png i rel false] } := by
  refine ⟨?_, h.written_len, h.entries_eq, ?_, ?_, ?_, ?_⟩
  · simp only [written_names_append]
    rw [← h.written_eq]; simp [written_names]
  · obtain ⟨evs, he, hl⟩ := h.shape
    refine ⟨evs ++ [Event.write_png i rel false], by simp [he], ?_⟩
    intro e hm
    rcases List.mem_append.1 hm with hm | hm
    · exact hl e hm
    · have : e = Event.write_png i rel false := by simpa using hm
      subst this; rfl
  · intro j t hm
    rcases List.mem_append.1 hm with hm | hm
    · exact h.stores j t hm
    · simp at hm
  · simp only [progress_values_append]
    simpa [progress_values, progress_value] using h.vals_sorted
  · intro v hv
    simp only [progress_values_append] at hv
    have hv2 : v ∈ progress_values st.trace := by
      simpa [progress_values, progress_value] using hv
    exact h.vals_le v hv2

theorem inv_write_ok {es0 : List String} {T : Int} {B : Nat} {st : RenderState}
    (hT : 0 < T) (h : LoopInv es0 T B st) (rel : String) (c : Nat) :
    LoopInv es0 T B
      { frame_idx := st.frame_idx + 1
        written := st.written ++ [frame_file_name st.frame_idx]
        calls := c
        entries := add_entry (frame_file_name st.frame_idx) st.entries
        trace := st.trace ++ [Event.write_png st.frame_idx rel true] } := by
  have hTq : (0 : ℚ) < (T : ℚ) := by exact_mod_cast hT
  refine ⟨?_, ?_, ?_, ?_, ?_, ?_, ?_⟩
  · simp only [written_names_append]
    rw [← h.written_eq]; simp [written_names]
  · simp [h.written_len]
  · simp only
    rw [filter_add_entry _ _ _ (by simp)]
    have e₁ : ∀ l : List String,
        l.filter (fun e => decide (e ∉ st.written ++ [frame_file_name st.frame_idx]))
          = (l.filter (fun e => decide (e ∉ st.written))).filter
              (fun e => decide (e ≠ frame_file_name st.frame_idx)) := by
      intro l
      rw [List.filter_filter]
      apply List.filter_congr
      intro x _
      by_cases h₁ : x = frame_file_name st.frame_idx <;> by_cases h₂ : x ∈ st.written <;>
        simp [h₁, h₂]
    rw [e₁, e₁, h.entries_eq]
  · obtain ⟨evs, he, hl⟩ := h.shape
    refine ⟨evs ++ [Event.write_png st.frame_idx rel true], by simp [he], ?_⟩
    intro e hm
    rcases List.mem_append.1 hm with hm | hm
    · exact hl e hm
    · have : e = Event.write_png st.frame_idx rel true := by simpa using hm
      subst this; rfl
  · intro j t hm
    rcases List.mem_append.1 hm with hm | hm
    · exact h.stores j t hm
    · simp at hm
  · simp only [progress_values_append]
    simpa [progress_values, progress_value] using h.vals_sorted
  · intro v hv
    simp only [progress_values_append] at hv
    have hv2 : v ∈ progress_values st.trace := by
      simpa [progress_values, progress_value] using hv
    exact le_trans (h.vals_le v hv2)
      (progress_quotient_mono st.frame_idx (st.frame_idx + 1) T hT (by omega))

/-- The inner loop keeps the invariant and advances `frame_idx` by at most its
number of iterations. -/
theorem render_frames_inv (env : Env) (db : Option Db) (scene_id : Int) (T : Int)
    (progress : Bool) (es0 : List String) (B : Nat) (hT : 0 < T) :
    ∀ (n : Nat) (f : Int) (st : RenderState), LoopInv es0 T B st → st.frame_idx + n ≤ B →
      LoopInv es0 T B (render_frames env db scene_id T progress n f st) ∧
      (render_frames env db scene_id T progress n f st).frame_idx ≤ st.frame_idx + n := by
  intro n
  induction n with
  | zero => intro f st h _; exact ⟨h, le_refl _⟩
  | succ n ih =>
    intro f st h hB
    have hlt : st.frame_idx < B := by omega
    cases progress with
    | false =>
      by_cases hw : env.write_ok st.calls = true
      · have h1 := inv_write_ok hT h (get_image_at_frame db scene_id f) (st.calls + 1)
        have := ih (f + 1) _ h1 (by simp only; omega)
        simp only [render_frames, hw, if_true, Bool.false_eq_true, if_false]
        exact ⟨this.1, by have := this.2; simp only at this; omega⟩
      · have h1 := inv_write_fail h st.frame_idx (get_image_at_frame db scene_id f)
          (st.calls + 1)
        simp only [render_frames, hw, if_false, Bool.false_eq_true]
        exact ⟨h1, by simp⟩
    | true =>
      have h0 := inv_store hT h hlt
      by_cases hw : env.write_ok st.calls = true
      · have h1 := inv_write_ok hT h0 (get_image_at_frame db scene_id f) (st.calls + 1)
        have := ih (f + 1) _ h1 (by simp only; omega)
        simp only [render_frames, hw, if_true]
        exact ⟨this.1, by have := this.2; simp only at this; omega⟩
      · have h1 := inv_write_fail h0 st.frame_idx (get_image_at_frame db scene_id f)
          (st.calls + 1)
        simp only [render_frames, hw, if_false, if_true]
        exact ⟨h1, by simp⟩

/-- The outer loop keeps the invariant when the frame counts still to come fit
under the bound. -/
theorem render_scenes_inv (env : Env) (db : Option Db) (T : Int) (progress : Bool)
    (es0 : List String) (B : Nat) (hT : 0 < T) :
    ∀ (scenes : List (SceneRow × Int)) (st : RenderState), LoopInv es0 T B st →
      st.frame_idx + (scenes.map (fun sc => sc.2.toNat)).sum ≤ B →
      LoopInv es0 T B (render_scenes env db T progress scenes st) := by
  intro scenes
  induction scenes with
  | nil => intro st h _; exact h
  | cons sc rest ih =>
    intro st h hB
    simp only [List.map_cons, List.sum_cons] at hB
    have h1 := render_frames_inv env db sc.1.id T progress es0 B hT sc.2.toNat 0 st h
      (by omega)
    have := ih (render_frames env db sc.1.id T progress sc.2.toNat 0 st) h1.1
      (by have := h1.2; omega)
    simpa [render_scenes] using this

/-- Used frame counts are never negative. -/
theorem used_count_nonneg (db : Option Db) (scene_id : Int) :
    0 ≤ get_scene_used_frame_count db scene_id := by
  rw [used_count_eq]; exact (used_scan _ 0).1

theorem zip_map_self {α β : Type} (l : List α) (g : α → β) :
    l.zip (l.map g) = l.map (fun x => (x, g x)) := by
  induction l with
  | nil => rfl
  | cons x l ih => simp [ih]

/-- The frame counts paired with the scenes sum to `total_frames`. -/
theorem sum_toNat_counts (db : Option Db) (l : List SceneRow) :
    ((l.zip (scene_frame_counts db l)).map (fun sc => sc.2.toNat)).sum
      = ((scene_frame_counts db l).sum).toNat := by
  unfold scene_frame_counts
  rw [zip_map_self]
  induction l with
  | nil => rfl
  | cons x l ih =>
    simp only [List.map_cons, List.sum_cons, List.map_map] at ih ⊢
    rw [ih]
    have h₁ := used_count_nonneg db x.id
    have h₂ : 0 ≤ (List.map (fun scene => get_scene_used_frame_count db scene.id) l).sum :=
      List.sum_nonneg (by
        intro v hv
        obtain ⟨y, _, rfl⟩ := List.mem_map.1 hv
        exact used_count_nonneg db y.id)
    omega

/-- The loop state on entry of the frame loops satisfies the invariant. -/
theorem inv_init (es0 : List String) (T : Int) (B : Nat) (hT : 0 < T) :
    LoopInv es0 T B
      { frame_idx := 0, written := [], calls := 0, entries := es0
        trace := [Event.create_dir true] } := by
  have hTq : (0 : ℚ) < (T : ℚ) := by exact_mod_cast hT
  refine ⟨by simp [written_names], rfl, rfl, ⟨[], rfl, by simp⟩, ?_, ?_, ?_⟩
  · intro i t hm; simp at hm
  · simp [progress_values, progress_value]
  · intro v hv; simp [progress_values, progress_value] at hv

/-- The invariant holds when the frame loops are left. -/
theorem loop_state_inv (env : Env) (db : Option Db) (progress : Bool)
    (hT : 0 < total_frames db) :
    LoopInv (entries_before env.tmp) (total_frames db) (total_frames db).toNat
      (loop_state env db progress) := by
  unfold loop_state
  apply render_scenes_inv env db (total_frames db) progress _ _ hT _ _
    (inv_init _ _ _ hT)
  rw [sum_toNat_counts]
  simp [total_frames]

/-- The three ways in which `render_project_to_video` returns: before the
temporary directory is asked for, on the failure of its creation, or after the
frame loops, the encoder call and the cleanup. -/
theorem render_cases (env : Env) (db : Option Db) (project_root output_path : String)
    (progress : Bool) :
    (((db.isNone || project_root.isEmpty || output_path.isEmpty) = true ∨
        list_scenes db = [] ∨ total_frames db ≤ 0) ∧
      (render_project_to_video env db project_root output_path progress).ok = false ∧
      (render_project_to_video env db project_root output_path progress).trace = [] ∧
      (render_project_to_video env db project_root output_path progress).tmp = env.tmp) ∨
    (env.tmp = TmpDir.blocked ∧
      (render_project_to_video env db project_root output_path progress).ok = false ∧
      (render_project_to_video env db project_root output_path progress).trace
        = [Event.create_dir false] ∧
      (render_project_to_video env db project_root output_path progress).tmp = env.tmp) ∨
    ((db.isNone || project_root.isEmpty || output_path.isEmpty) = false ∧
      list_scenes db ≠ [] ∧ 0 < total_frames db ∧ env.tmp ≠ TmpDir.blocked ∧
      (render_project_to_video env db project_root output_path progress).ok
        = decide (env.encoder_ret = 0) ∧
      (render_project_to_video env db project_root output_path progress).trace
        = (if progress then (loop_state env db progress).trace ++ [Event.store_one]
            else (loop_state env db progress).trace) ++ [Event.run_encoder]
          ++ cleanup_events (loop_state env db progress).written ∧
      (render_project_to_video env db project_root output_path progress).tmp
        = remove_dir (cleanup_entries (loop_state env db progress).written
            (loop_state env db progress).entries)) := by
  by_cases h₁ : (db.isNone || project_root.isEmpty || output_path.isEmpty) = true
  · left
    refine ⟨Or.inl h₁, ?_⟩
    simp [render_project_to_video, h₁]
  · by_cases h₂ : list_scenes db = []
    · left
      refine ⟨Or.inr (Or.inl h₂), ?_⟩
      simp [render_project_to_video, h₁, h₂]
    · by_cases h₃ : total_frames db ≤ 0
      · left
        refine ⟨Or.inr (Or.inr h₃), ?_⟩
        have h₃' : (scene_frame_counts db (list_scenes db)).sum ≤ 0 := h₃
        simp [render_project_to_video, h₁, h₂, h₃']
      · have h₃' : ¬ (scene_frame_counts db (list_scenes db)).sum ≤ 0 := h₃
        have hT : 0 < total_frames db := by omega
        have hlen := (loop_state_inv env db progress hT).written_len
        unfold loop_state total_frames at hlen
        by_cases h₄ : env.tmp = TmpDir.blocked
        · right; left
          refine ⟨h₄, ?_⟩
          simp [render_project_to_video, h₁, h₂, h₃', h₄]
        · right; right
          refine ⟨Bool.eq_false_iff.2 h₁, h₂, hT, h₄, ?_⟩
          unfold loop_state total_frames
          cases htmp : env.tmp with
          | blocked => exact absurd htmp h₄
          | absent =>
            rw [htmp] at hlen
            simp [render_project_to_video, h₁, h₂, h₃', htmp, hlen]
          | directory es =>
            rw [htmp] at hlen
            simp [render_project_to_video, h₁, h₂, h₃', htmp, hlen]

/-- Events outside the loop body contribute no frame file and no write. -/
theorem no_writes_of_not_loop (l : List Event) (h : ∀ e ∈ l, e.is_loop = false) :
    written_names l = [] ∧ writes l = [] := by
  induction l with
  | nil => exact ⟨rfl, rfl⟩
  | cons e l ih =>
    obtain ⟨h₁, h₂⟩ := ih (fun x hx => h x (List.mem_cons_of_mem _ hx))
    have he := h e (by simp)
    cases e <;> simp_all [written_names, writes, Event.is_loop]

theorem cleanup_events_not_loop (w : List String) :
    ∀ e ∈ cleanup_events w, e.is_loop = false ∧ progress_value e = none := by
  intro e he
  unfold cleanup_events at he
  rcases List.mem_append.1 he with h | h
  · obtain ⟨n, _, rfl⟩ := List.mem_map.1 h
    exact ⟨rfl, rfl⟩
  · have : e = Event.remove_dir := by simpa using h
    subst this
    exact ⟨rfl, rfl⟩

/-- The events that follow the frame loops. -/
theorem tail_not_loop (progress : Bool) (w : List String) :
    ∀ e ∈ (if progress then [Event.store_one] else []) ++ [Event.run_encoder]
        ++ cleanup_events w, e.is_loop = false := by
  intro e he
  rcases List.mem_append.1 he with h | h
  · rcases List.mem_append.1 h with h | h
    · cases progress
      · simp at h
      · have : e = Event.store_one := by simpa using h
        subst this; rfl
    · have : e = Event.run_encoder := by simpa using h
      subst this; rfl
  · exact (cleanup_events_not_loop w e h).1

/-- The trace of an export that went through the frame loops, split at their end. -/
theorem trace_split (env : Env) (db : Option Db) (progress : Bool) :
    (if progress then (loop_state env db progress).trace ++ [Event.store_one]
        else (loop_state env db progress).trace) ++ [Event.run_encoder]
        ++ cleanup_events (loop_state env db progress).written
      = (loop_state env db progress).trace ++
        ((if progress then [Event.store_one] else []) ++ [Event.run_encoder]
          ++ cleanup_events (loop_state env db progress).written) := by
  cases progress <;> simp

theorem progress_values_nil_of_none (l : List Event)
    (h : ∀ e ∈ l, progress_value e = none) : progress_values l = [] := by
  induction l with
  | nil => rfl
  | cons e l ih =>
    have he := h e (by simp)
    have := ih (fun x hx => h x (List.mem_cons_of_mem _ hx))
    unfold progress_values at this ⊢
    simp [List.filterMap_cons, he, this]

/-- Inside the frame loops every stored value lies between 0 and 1, and below 1
when the frame total is at most 2^24. -/
theorem loop_values_le_one {es0 : List String} {T : Int} {st : RenderState}
    (hT : 0 < T) (h : LoopInv es0 T T.toNat st) :
    ∀ v ∈ progress_values st.trace, 0 ≤ v ∧ v ≤ 1 ∧ (T ≤ 16777216 → v < 1) := by
  intro v hv
  unfold progress_values at hv
  obtain ⟨e, he, hev⟩ := List.mem_filterMap.1 hv
  cases e with
  | store i t =>
    obtain ⟨rfl, hi⟩ := h.stores i t he
    have hi' : (i : Int) < t := by omega
    simp only [progress_value, Option.some.injEq] at hev
    subst hev
    exact ⟨progress_quotient_nonneg i t hT, progress_quotient_le_one i t hT (by omega),
      fun h24 => progress_quotient_lt_one i t hi' h24⟩
  | store_one =>
    obtain ⟨evs, hevs, hl⟩ := h.shape
    rw [hevs] at he
    rcases List.mem_cons.1 he with h' | h'
    · cases h'
    · have := hl _ h'
      simp [Event.is_loop] at this
  | create_dir ok => simp [progress_value] at hev
  | write_png i src ok => simp [progress_value] at hev
  | run_encoder => simp [progress_value] at hev
  | remove_file n => simp [progress_value] at hev
  | remove_dir => simp [progress_value] at hev

/-- When every write succeeds the inner loop runs all its iterations: frame
`f + k` of the scene is written under the index `frame_idx + k`. -/
theorem render_frames_all_ok (env : Env) (db : Option Db) (scene_id : Int) (T : Int)
    (progress : Bool) (hall : ∀ k, env.write_ok k = true) :
    ∀ (n : Nat) (f : Int) (st : RenderState),
      (render_frames env db scene_id T progress n f st).frame_idx = st.frame_idx + n ∧
      writes (render_frames env db scene_id T progress n f st).trace
        = writes st.trace ++ (List.range n).map (fun k =>
            (st.frame_idx + k, get_image_at_frame db scene_id (f + (k : Int)), true)) := by
  intro n
  induction n with
  | zero => intro f st; simp [render_frames]
  | succ n ih =>
    intro f st
    have hw := hall st.calls
    have hstep : ∀ tr : List Event, writes tr = writes st.trace →
        (render_frames env db scene_id T progress n (f + 1)
          { frame_idx := st.frame_idx + 1
            written := st.written ++ [frame_file_name st.frame_idx]
            calls := st.calls + 1
            entries := add_entry (frame_file_name st.frame_idx) st.entries
            trace := tr ++ [Event.write_png st.frame_idx
              (get_image_at_frame db scene_id f) true] }).frame_idx
          = st.frame_idx + (n + 1) ∧
        writes (render_frames env db scene_id T progress n (f + 1)
          { frame_idx := st.frame_idx + 1
            written := st.written ++ [frame_file_name st.frame_idx]
            calls := st.calls + 1
            entries := add_entry (frame_file_name st.frame_idx) st.entries
            trace := tr ++ [Event.write_png st.frame_idx
              (get_image_at_frame db scene_id f) true] }).trace
          = writes st.trace ++ (List.range (n + 1)).map (fun k =>
            (st.frame_idx + k, get_image_at_frame db scene_id (f + (k : Int)), true)) := by
      intro tr htr
      obtain ⟨h₁, h₂⟩ := ih (f + 1)
        { frame_idx := st.frame_idx + 1
          written := st.written ++ [frame_file_name st.frame_idx]
          calls := st.calls + 1
          entries := add_entry (frame_file_name st.frame_idx) st.entries
          trace := tr ++ [Event.write_png st.frame_idx
            (get_image_at_frame db scene_id f) true] }
      refine ⟨by rw [h₁]; simp only; omega, ?_⟩
      rw [h₂]
      simp only [writes_append, htr]
      rw [List.range_succ_eq_map]
      simp only [List.map_cons, List.map_map, List.append_assoc]
      congr 1
      simp only [writes, List.filterMap_cons, List.filterMap_nil, List.singleton_append,
        Nat.cast_zero, add_zero, Nat.add_zero]
      congr 1
      apply List.map_congr_left
      intro k _
      simp only [Function.comp, Nat.succ_eq_add_one, Nat.cast_add, Nat.cast_one]
      have e₁ : st.frame_idx + 1 + k = st.frame_idx + (k + 1) := by omega
      have e₂ : f + 1 + (k : Int) = f + ((k : Int) + 1) := by omega
      rw [e₁, e₂]
    cases progress with
    | false =>
      simp only [render_frames, hw, if_true, Bool.false_eq_true, if_false]
      exact hstep st.trace rfl
    | true =>
      simp only [render_frames, hw, if_true]
      exact hstep (st.trace ++ [Event.store st.frame_idx T]) (by simp [writes])

/-- When every write succeeds, the outer loop over scenes `pre ++ sc :: post`
writes frame `f` of `sc` at the position and under the index given by the
frame counts of `pre`. -/
theorem render_scenes_all_ok (env : Env) (db : Option Db) (T : Int) (progress : Bool)
    (hall : ∀ k, env.write_ok k = true) :
    ∀ (scenes : List (SceneRow × Int)) (st : RenderState),
      (render_scenes env db T progress scenes st).frame_idx
        = st.frame_idx + (scenes.map (fun sc => sc.2.toNat)).sum ∧
      ∃ W, writes (render_scenes env db T progress scenes st).trace = writes st.trace ++ W ∧
        W.length = (scenes.map (fun sc => sc.2.toNat)).sum ∧
        W.map (fun w => w.1)
          = List.range' st.frame_idx (scenes.map (fun sc => sc.2.toNat)).sum ∧
        ∀ w ∈ W, w.2.2 = true := by
  intro scenes
  induction scenes with
  | nil =>
    intro st
    exact ⟨by simp [render_scenes], [], by simp [render_scenes], rfl, rfl, by simp⟩
  | cons sc rest ih =>
    intro st
    obtain ⟨h₁, h₂⟩ := render_frames_all_ok env db sc.1.id T progress hall sc.2.toNat 0 st
    obtain ⟨h₃, W, hW, hlen, hidx, hok⟩ :=
      ih (render_frames env db sc.1.id T progress sc.2.toNat 0 st)
    have hfold : render_scenes env db T progress (sc :: rest) st
        = render_scenes env db T progress rest
            (render_frames env db sc.1.id T progress sc.2.toNat 0 st) := rfl
    rw [hfold]
    simp only [List.map_cons, List.sum_cons]
    refine ⟨by rw [h₃, h₁]; omega, ?_⟩
    refine ⟨(List.range sc.2.toNat).map (fun k =>
      (st.frame_idx + k, get_image_at_frame db sc.1.id (0 + (k : Int)), true)) ++ W,
      ?_, ?_, ?_, ?_⟩
    · rw [hW, h₂, List.append_assoc]
    · simp [hlen]
    rotate_left
    · intro w hw
      rcases List.mem_append.1 hw with h | h
      · obtain ⟨k, _, rfl⟩ := List.mem_map.1 h
        rfl
      · exact hok w h
    · rw [List.map_append, hidx, h₁, List.map_map]
      rw [Nat.add_comm sc.2.toNat, ← List.range'_append_1 st.frame_idx sc.2.toNat,
        List.range'_eq_map_range st.frame_idx sc.2.toNat]
      rfl

/-- When every write succeeds, frame `f` of the scene `sc` of a scene list
`pre ++ sc :: post` is written after the frames of `pre`. -/
theorem render_scenes_at (env : Env) (db : Option Db) (T : Int) (progress : Bool)
    (hall : ∀ k, env.write_ok k = true) (pre post : List (SceneRow × Int))
    (sc : SceneRow × Int) (st : RenderState) (f : Nat) (hf : f < sc.2.toNat) :
    (writes (render_scenes env db T progress (pre ++ sc :: post) st).trace)[
        (writes st.trace).length + (pre.map (fun sc => sc.2.toNat)).sum + f]?
      = some (st.frame_idx + (pre.map (fun sc => sc.2.toNat)).sum + f,
          get_image_at_frame db sc.1.id f, true) := by
  have hsplit : render_scenes env db T progress (pre ++ sc :: post) st
      = render_scenes env db T progress post
          (render_frames env db sc.1.id T progress sc.2.toNat 0
            (render_scenes env db T progress pre st)) := by
    simp [render_scenes, List.foldl_append]
  obtain ⟨h₁, W₁, hW₁, hlen₁, _, _⟩ := render_scenes_all_ok env db T progress hall pre st
  obtain ⟨_, h₂⟩ := render_frames_all_ok env db sc.1.id T progress hall sc.2.toNat 0
    (render_scenes env db T progress pre st)
  obtain ⟨_, W₃, hW₃, _, _, _⟩ := render_scenes_all_ok env db T progress hall post
    (render_frames env db sc.1.id T progress sc.2.toNat 0
      (render_scenes env db T progress pre st))
  rw [hsplit, hW₃, h₂, hW₁, h₁]
  rw [List.getElem?_append_left (by simp [hlen₁]; omega)]
  rw [List.getElem?_append_right (by simp [hlen₁])]
  have hi : (writes st.trace).length + (pre.map (fun sc => sc.2.toNat)).sum + f
      - (writes st.trace ++ W₁).length = f := by
    simp [hlen₁]
  rw [hi]
  simp [hf]

/-- The frame files of a trace are those of its successful writes. -/
theorem written_names_eq_writes (l : List Event) :
    written_names l
      = ((writes l).filter (fun w => w.2.2)).map (fun w => frame_file_name w.1) := by
  induction l with
  | nil => rfl
  | cons e l ih =>
    have hc : written_names (e :: l) = written_names [e] ++ written_names l :=
      written_names_append [e] l
    have hw : writes (e :: l) = writes [e] ++ writes l := writes_append [e] l
    rw [hc, hw, ih, List.filter_append, List.map_append]
    congr 1
    cases e with
    | write_png i src ok => cases ok <;> rfl
    | _ => rfl

/-! ## Lemmas on scene reordering -/

/-- The first element of a sorted rearrangement of a nonempty list is one of
its elements and is related to all of them. -/
theorem head_of_sorted (R : SceneRec → SceneRec → Prop) [DecidableRel R] [IsTotal SceneRec R]
    [IsTrans SceneRec R] (F : List SceneRec) (hne : F ≠ []) :
    ∃ r0 ∈ F, (F.insertionSort R).head? = some r0 ∧ ∀ r ∈ F, R r0 r := by
  have hperm := List.perm_insertionSort R F
  have hsorted := List.sorted_insertionSort R F
  cases hL : F.insertionSort R with
  | nil =>
    rw [hL] at hperm
    exact absurd (List.Perm.nil_eq hperm).symm hne
  | cons r0 tl =>
    rw [hL] at hperm hsorted
    refine ⟨r0, hperm.mem_iff.1 (by simp), rfl, ?_⟩
    intro r hr
    have hr' : r ∈ r0 :: tl := hperm.mem_iff.2 hr
    rcases List.mem_cons.1 hr' with h | h
    · subst h
      rcases IsTotal.total (r := R) r r with h | h <;> exact h
    · exact List.rel_of_sorted_cons hsorted r h

/-- The row picked by the second query of `move_scene_up` has a sort order
below `order`, and the greatest such. -/
theorem select_lower_spec (d : Db) (order : Int)
    (h : ∃ r ∈ d.scenes, r.sort_order < order) :
    ∃ r0 ∈ d.scenes, select_lower d order = some r0.id ∧ r0.sort_order < order ∧
      ∀ r ∈ d.scenes, r.sort_order < order → r.sort_order ≤ r0.sort_order := by
  obtain ⟨x, hx, hxo⟩ := h
  have hne : d.scenes.filter (fun r => r.sort_order < order) ≠ [] := by
    intro he
    have : x ∈ d.scenes.filter (fun r => r.sort_order < order) := by
      simp [List.mem_filter, hx, hxo]
    rw [he] at this
    simp at this
  obtain ⟨r0, hr0, hhead, hrel⟩ :=
    head_of_sorted (fun a b => a.sort_order ≥ b.sort_order) _ hne
  simp only [List.mem_filter, decide_eq_true_eq] at hr0
  refine ⟨r0, hr0.1, by simp [select_lower, hhead], hr0.2, ?_⟩
  intro r hr hro
  exact hrel r (by simp [List.mem_filter, hr, hro])

/-- The row picked by the second query of `move_scene_down` has a sort order
above `order`, and the least such. -/
theorem select_higher_spec (d : Db) (order : Int)
    (h : ∃ r ∈ d.scenes, r.sort_order > order) :
    ∃ r0 ∈ d.scenes, select_higher d order = some r0.id ∧ r0.sort_order > order ∧
      ∀ r ∈ d.scenes, r.sort_order > order → r0.sort_order ≤ r.sort_order := by
  obtain ⟨x, hx, hxo⟩ := h
  have hne : d.scenes.filter (fun r => r.sort_order > order) ≠ [] := by
    intro he
    have : x ∈ d.scenes.filter (fun r => r.sort_order > order) := by
      simp [List.mem_filter, hx, hxo]
    rw [he] at this
    simp at this
  obtain ⟨r0, hr0, hhead, hrel⟩ :=
    head_of_sorted (fun a b => a.sort_order ≤ b.sort_order) _ hne
  simp only [List.mem_filter, decide_eq_true_eq] at hr0
  refine ⟨r0, hr0.1, by simp [select_higher, hhead], hr0.2, ?_⟩
  intro r hr hro
  exact hrel r (by simp [List.mem_filter, hr, hro])

/-- With `id` a primary key of `scenes`, the first query finds the row of a given id. -/
theorem scene_sort_order_of_mem (d : Db) (hpk : (d.scenes.map (fun r => r.id)).Nodup)
    (r : SceneRec) (hr : r ∈ d.scenes) : scene_sort_order d r.id = some r.sort_order := by
  unfold scene_sort_order
  have : d.scenes.find? (fun x => decide (x.id = r.id)) = some r := by
    generalize d.scenes = l at hpk hr
    induction l with
    | nil => simp at hr
    | cons y l ih =>
      simp only [List.map_cons, List.nodup_cons] at hpk
      rcases List.mem_cons.1 hr with h | h
      · subst h; simp
      · have hne : y.id ≠ r.id := by
          intro he
          exact hpk.1 (List.mem_map.2 ⟨r, h, he.symm⟩)
        simp only [List.find?_cons, hne, decide_False]
        exact ih hpk.2 h
  rw [this]; rfl

/-- The first query finds a row of the table carrying the id asked for. -/
theorem mem_of_scene_sort_order (d : Db) (scene_id order : Int)
    (h : scene_sort_order d scene_id = some order) :
    ∃ r ∈ d.scenes, r.id = scene_id ∧ r.sort_order = order := by
  unfold scene_sort_order at h
  cases hf : d.scenes.find? (fun r => decide (r.id = scene_id)) with
  | none => rw [hf] at h; simp at h
  | some r =>
    rw [hf] at h
    have hm := List.mem_of_find?_eq_some hf
    have hp := List.find?_some hf
    simp only [decide_eq_true_eq] at hp
    simp only [Option.map_some', Option.some.injEq] at h
    exact ⟨r, hm, hp, h⟩

/-- Sort order of a scene after the `UPDATE` of the two moves. -/
theorem scene_sort_order_update (d : Db) (a va b vb x : Int) :
    scene_sort_order (update_sort_orders d a va b vb) x
      = (scene_sort_order d x).map
          (fun o => if x = a then va else if x = b then vb else o) := by
  unfold scene_sort_order update_sort_orders
  simp only
  rw [List.find?_map, Option.map_map, Option.map_map]
  have hp : ((fun r : SceneRec => decide (r.id = x)) ∘ fun r : SceneRec =>
        if r.id = a then { r with sort_order := va }
        else if r.id = b then { r with sort_order := vb }
        else r) = fun r => decide (r.id = x) := by
    funext r
    simp only [Function.comp]
    split_ifs <;> rfl
  rw [hp]
  cases hf : d.scenes.find? (fun r => decide (r.id = x)) with
  | none => rfl
  | some r =>
    have hr := List.find?_some hf
    simp only [decide_eq_true_eq] at hr
    subst hr
    simp only [Option.map_some', Function.comp]
    split_ifs <;> rfl

theorem move_scene_up_eq (d : Db) (scene_id order other_id : Int)
    (ho : scene_sort_order d scene_id = some order)
    (hsel : select_lower d order = some other_id) :
    move_scene_up (some d) scene_id
      = (true, some (update_sort_orders d scene_id (order - 1) other_id order)) := by
  simp [move_scene_up, ho, hsel]

theorem move_scene_down_eq (d : Db) (scene_id order other_id : Int)
    (ho : scene_sort_order d scene_id = some order)
    (hsel : select_higher d order = some other_id) :
    move_scene_down (some d) scene_id
      = (true, some (update_sort_orders d scene_id (order + 1) other_id order)) := by
  simp [move_scene_down, ho, hsel]

/-- Rows of a table with a primary key are equal when their ids are. -/
theorem scene_eq_of_id_eq {l : List SceneRec} (hpk : (l.map (fun r => r.id)).Nodup)
    {r r' : SceneRec} (hr : r ∈ l) (hr' : r' ∈ l) (h : r.id = r'.id) : r = r' :=
  List.inj_on_of_nodup_map hpk hr hr' h

/-- Undoing the `UPDATE` of a move: when the target row holds `order` and the
other row holds `other_order`, setting them to (`other_order`, `order`) and then
back gives the table back. -/
theorem update_round_trip (d : Db) (rt r0 : SceneRec)
    (hpk : (d.scenes.map (fun r => r.id)).Nodup)
    (hrt : rt ∈ d.scenes) (hr0 : r0 ∈ d.scenes) (hne : r0.id ≠ rt.id) :
    update_sort_orders
        (update_sort_orders d rt.id r0.sort_order r0.id rt.sort_order)
        rt.id rt.sort_order r0.id r0.sort_order = d := by
  cases d with
  | mk scenes layers media movie_config =>
    simp only [update_sort_orders, List.map_map, Db.mk.injEq, and_true]
    conv_rhs => rw [← List.map_id scenes]
    apply List.map_congr_left
    intro r hr
    simp only [Function.comp, id]
    by_cases h₁ : r.id = rt.id
    · have : r = rt := scene_eq_of_id_eq hpk hr hrt h₁
      subst this
      simp
    · by_cases h₂ : r.id = r0.id
      · have : r = r0 := scene_eq_of_id_eq hpk hr hr0 h₂
        subst this
        simp [h₁]
      · simp [h₁, h₂]

/-- Rows of the table after the `UPDATE` of a move. -/
theorem mem_update_sort_orders (d : Db) (a va b vb : Int) (r' : SceneRec)
    (h : r' ∈ (update_sort_orders d a va b vb).scenes) :
    ∃ r ∈ d.scenes, r'.id = r.id ∧
      r'.sort_order = if r.id = a then va else if r.id = b then vb else r.sort_order := by
  simp only [update_sort_orders, List.mem_map] at h
  obtain ⟨r, hr, rfl⟩ := h
  refine ⟨r, hr, ?_, ?_⟩ <;> split_ifs <;> rfl

/-- A row of the table has its image in the table after the `UPDATE` of a move. -/
theorem update_sort_orders_mem (d : Db) (a va b vb : Int) (r : SceneRec) (h : r ∈ d.scenes) :
    ∃ r' ∈ (update_sort_orders d a va b vb).scenes, r'.id = r.id ∧
      r'.sort_order = if r.id = a then va else if r.id = b then vb else r.sort_order := by
  refine ⟨if r.id = a then { r with sort_order := va }
      else if r.id = b then { r with sort_order := vb } else r, ?_, ?_, ?_⟩
  · simp only [update_sort_orders, List.mem_map]
    exact ⟨r, h, rfl⟩
  · split_ifs <;> rfl
  · split_ifs <;> rfl

/-! ## Lemmas on layer commands -/

/-- Rows of `list_layers` after a change of the stored rows that keeps their
scene. -/
theorem mem_list_layers_map (d : Db) (f : LayerRec → LayerRec)
    (hf : ∀ r, (f r).scene_id = r.scene_id) (scene_id : Int) (L : LayerRow) :
    L ∈ list_layers (some { d with layers := d.layers.map f }) scene_id ↔
      ∃ r ∈ d.layers, r.scene_id = scene_id ∧ layer_row (f r) = L := by
  rw [mem_list_layers]
  simp only [List.mem_map]
  constructor
  · rintro ⟨r', ⟨r, hr, rfl⟩, hs, hl⟩
    exact ⟨r, hr, by rw [← hf r]; exact hs, hl⟩
  · rintro ⟨r, hr, hs, hl⟩
    exact ⟨f r, ⟨r, hr, rfl⟩, by rw [hf r]; exact hs, hl⟩

/-- The database after a resize from the left that stores `new_start` and
`new_span`. -/
theorem resize_left_db (d : Db) (live_start live_span : Int) (L : LayerRow) (frame : Int)
    (h0 : 0 ≤ L.start_frame) (h1 : 1 ≤ L.frame_span) :
    resize_left ⟨live_start, live_span, some d⟩ L frame
      = { live_start := max 0 (min frame (L.start_frame + L.frame_span - 1))
          live_span := L.start_frame + L.frame_span
            - max 0 (min frame (L.start_frame + L.frame_span - 1))
          db := some { d with layers := d.layers.map (fun r =>
            if r.id = L.id then
              { r with
                sort_order := max 0 (min frame (L.start_frame + L.frame_span - 1))
                frame_span := some (L.start_frame + L.frame_span
                  - max 0 (min frame (L.start_frame + L.frame_span - 1))) }
            else r) } } := by
  have hs : L.start_frame + L.frame_span
      - max 0 (min frame (L.start_frame + L.frame_span - 1)) ≥ 1 := by omega
  have hn : ¬ (max 0 (min frame (L.start_frame + L.frame_span - 1)) < 0) := by omega
  have hs' : ¬ (L.start_frame + L.frame_span
      - max 0 (min frame (L.start_frame + L.frame_span - 1)) < 1) := by omega
  simp only [resize_left, hs, if_true, update_layer_start_frame, hn, if_false,
    update_layer_span, hs', List.map_map]
  congr 3
  apply List.map_congr_left
  intro r _
  simp only [Function.comp]
  split_ifs <;> rfl

/-- Every row returned by `list_layers` has a span of at least 1. -/
theorem list_layers_span_pos (db : Option Db) (scene_id : Int) :
    ∀ L ∈ list_layers db scene_id, 1 ≤ L.frame_span := by
  intro L hL
  cases db with
  | none => simp [list_layers] at hL
  | some d =>
    obtain ⟨r, _, _, rfl⟩ := mem_list_layers.1 hL
    simp only [layer_row]
    split_ifs <;> omega

/-- In a list of rows with distinct ids, the search by id finds the row. -/
theorem find_layer_by_id (l : List LayerRow) (hnd : (l.map (fun L => L.id)).Nodup)
    (L : LayerRow) (hL : L ∈ l) : l.find? (fun M => decide (M.id = L.id)) = some L := by
  induction l with
  | nil => simp at hL
  | cons y l ih =>
    simp only [List.map_cons, List.nodup_cons] at hnd
    rcases List.mem_cons.1 hL with h | h
    · subst h; simp
    · have hne : y.id ≠ L.id := by
        intro he
        exact hnd.1 (List.mem_map.2 ⟨L, h, he.symm⟩)
      simp only [List.find?_cons, hne, decide_False]
      exact ih hnd.2 h

/-- Rows of `list_layers` after the insertion of a row. -/
theorem mem_list_layers_append (d : Db) (r0 : LayerRec) (scene_id : Int) (L : LayerRow) :
    L ∈ list_layers (some { d with layers := d.layers ++ [r0] }) scene_id ↔
      L ∈ list_layers (some d) scene_id ∨ (r0.scene_id = scene_id ∧ layer_row r0 = L) := by
  rw [mem_list_layers, mem_list_layers]
  simp only [List.mem_append, List.mem_singleton]
  constructor
  · rintro ⟨r, hr | hr, hs, hl⟩
    · exact Or.inl ⟨r, hr, hs, hl⟩
    · subst hr; exact Or.inr ⟨hs, hl⟩
  · rintro (⟨r, hr, hs, hl⟩ | ⟨hs, hl⟩)
    · exact ⟨r, Or.inl hr, hs, hl⟩
    · exact ⟨r0, Or.inr rfl, hs, hl⟩

/-- The used frame count does not decrease when rows are added to the scan. -/
theorem used_fold_mono (l l' : List LayerRow) (h : ∀ L ∈ l, L ∈ l') :
    used_fold l 0 ≤ used_fold l' 0 := by
  obtain ⟨_, _, h₃⟩ := used_scan l 0
  obtain ⟨h₁', h₂', _⟩ := used_scan l' 0
  rcases h₃ with h0 | ⟨L, hL, hr⟩
  · rw [h0]; exact h₁'
  · rw [hr]; exact h₂' L (h L hL)

/-! ## Lemmas on the compositor -/

theorem scale_rgba_to_eq_rows (src : List Nat) (sw sh : Int) (dst : List Nat) (dw dh : Int) :
    scale_rgba_to src sw sh dst dw dh = scale_rows src sw sh dst dw dh dh.toNat := by
  unfold scale_rgba_to scale_rows scale_row src_coord src_index dst_index copy_pixel
  rfl

/-- A value that fits 32 bits is held as it is. -/
theorem int32_eq (x : Int) (h0 : -2147483648 ≤ x) (h1 : x < 2147483648) : int32 x = x := by
  unfold int32; omega

theorem int32_range (x : Int) : -2147483648 ≤ int32 x ∧ int32 x < 2147483648 := by
  unfold int32; omega

theorem int32_idem (x : Int) : int32 (int32 x + 0) = int32 x := by
  unfold int32; omega

/-- The destination index of a pixel whose bytes lie below 2^31. -/
theorem dst_index_eq (dw : Int) (y x : Nat) (h0 : 0 ≤ dw)
    (h : ((y : Int) * dw + (x : Int)) * 4 < 2147483648) :
    dst_index dw y x = ((y : Int) * dw + (x : Int)) * 4 := by
  have hy : 0 ≤ (y : Int) * dw := Int.mul_nonneg (by omega) h0
  unfold dst_index
  rw [int32_eq ((y : Int) * dw) (by omega) (by omega),
    int32_eq ((y : Int) * dw + (x : Int)) (by omega) (by omega),
    int32_eq (((y : Int) * dw + (x : Int)) * 4) (by omega) h]

theorem buf_set_length (b : List Nat) (i : Int) (v : Nat) :
    (buf_set b i v).length = b.length := by
  unfold buf_set
  split_ifs <;> simp

theorem buf_get_set (b : List Nat) (i j : Int) (v : Nat) :
    buf_get (buf_set b i v) j
      = if i = j ∧ 0 ≤ i ∧ i < (b.length : Int) then v else buf_get b j := by
  unfold buf_get buf_set
  by_cases hi : i < 0
  · have : ¬ (i = j ∧ 0 ≤ i ∧ i < (b.length : Int)) := by omega
    simp [hi, this]
  · by_cases hj : j < 0
    · have : ¬ (i = j ∧ 0 ≤ i ∧ i < (b.length : Int)) := by omega
      simp [hi, hj, this]
    · simp only [hi, hj, if_false, List.getD_eq_getElem?_getD, List.getElem?_set]
      by_cases hij : i = j
      · subst hij
        by_cases hlt : i < (b.length : Int)
        · have h₁ : i.toNat < b.length := by omega
          have h₂ : i = i ∧ 0 ≤ i ∧ i < (b.length : Int) := ⟨rfl, by omega, hlt⟩
          simp [h₁, h₂]
        · have h₁ : ¬ i.toNat < b.length := by omega
          have h₂ : ¬ (0 ≤ i ∧ i < (b.length : Int)) := by omega
          have h₃ : b.length ≤ i.toNat := by omega
          simp [h₁, h₂, List.getElem?_eq_none h₃]
      · have h₁ : ¬ i.toNat = j.toNat := by omega
        have h₂ : ¬ (i = j ∧ 0 ≤ i ∧ i < (b.length : Int)) := by omega
        simp [h₁, h₂]

theorem copy_pixel_length (src dst : List Nat) (si di : Int) :
    (copy_pixel src dst si di).length = dst.length := by
  simp [copy_pixel, buf_set_length]

/-- Bytes of the destination after the copy of one pixel that lies in a
destination of at most 2^31 bytes. -/
theorem copy_pixel_get (src dst : List Nat) (si di j : Int) (h0 : 0 ≤ di)
    (hlen : di + 4 ≤ (dst.length : Int)) (hlim : (dst.length : Int) ≤ 2147483648)
    (hsi0 : -2147483648 ≤ si) (hsi1 : si < 2147483648) :
    buf_get (copy_pixel src dst si di) j
      = if di ≤ j ∧ j < di + 4 then buf_get src (int32 (si + (j - di)))
        else buf_get dst j := by
  have d₁ : int32 (di + 1) = di + 1 := int32_eq _ (by omega) (by omega)
  have d₂ : int32 (di + 2) = di + 2 := int32_eq _ (by omega) (by omega)
  have d₃ : int32 (di + 3) = di + 3 := int32_eq _ (by omega) (by omega)
  simp only [copy_pixel, d₁, d₂, d₃, buf_get_set, buf_set_length]
  by_cases h₀ : j = di
  · subst h₀
    have e : int32 si = si := int32_eq _ hsi0 hsi1
    simp [e]
    omega
  · by_cases h₁ : j = di + 1
    · subst h₁
      have e : si + (di + 1 - di) = si + 1 := by omega
      simp [e]
      omega
    · by_cases h₂ : j = di + 2
      · subst h₂
        have e : si + (di + 2 - di) = si + 2 := by omega
        simp [e]
        omega
      · by_cases h₃ : j = di + 3
        · subst h₃
          have e : si + (di + 3 - di) = si + 3 := by omega
          simp [e]
          omega
        · have x₀ : ¬ (di = j ∧ 0 ≤ di ∧ di < (dst.length : Int)) := by omega
          have x₁ : ¬ (di + 1 = j ∧ 0 ≤ di + 1 ∧ di + 1 < (dst.length : Int)) := by omega
          have x₂ : ¬ (di + 2 = j ∧ 0 ≤ di + 2 ∧ di + 2 < (dst.length : Int)) := by omega
          have x₃ : ¬ (di + 3 = j ∧ 0 ≤ di + 3 ∧ di + 3 < (dst.length : Int)) := by omega
          have x₄ : ¬ (di ≤ j ∧ j < di + 4) := by omega
          simp [x₀, x₁, x₂, x₃, x₄]

theorem scale_row_succ (src : List Nat) (sw : Int) (dst : List Nat) (dw sy : Int)
    (y n : Nat) :
    scale_row src sw dst dw sy y (n + 1)
      = copy_pixel src (scale_row src sw dst dw sy y n)
          (src_index sw sy (src_coord sw dw n)) (dst_index dw y n) := by
  simp [scale_row, List.range_succ, List.foldl_append]

theorem scale_rows_succ (src : List Nat) (sw sh : Int) (dst : List Nat) (dw dh : Int)
    (n : Nat) :
    scale_rows src sw sh dst dw dh (n + 1)
      = scale_row src sw (scale_rows src sw sh dst dw dh n) dw (src_coord sh dh n) n
          dw.toNat := by
  simp [scale_rows, List.range_succ, List.foldl_append]

theorem scale_row_length (src : List Nat) (sw : Int) (dst : List Nat) (dw sy : Int)
    (y n : Nat) : (scale_row src sw dst dw sy y n).length = dst.length := by
  induction n with
  | zero => simp [scale_row]
  | succ n ih => rw [scale_row_succ, copy_pixel_length, ih]

theorem scale_rows_length (src : List Nat) (sw sh : Int) (dst : List Nat) (dw dh : Int)
    (n : Nat) : (scale_rows src sw sh dst dw dh n).length = dst.length := by
  induction n with
  | zero => simp [scale_rows]
  | succ n ih => rw [scale_rows_succ, scale_row_length, ih]

/-- The inner loop of `scale_rgba_to` writes its pixels and leaves the bytes
outside the part of the row that it has gone through as they were, in a
destination of at most 2^31 bytes. -/
theorem scale_row_spec (src : List Nat) (sw : Int) (dst : List Nat) (dw sy : Int) (y : Nat)
    (hdw : 0 ≤ dw) (hlim : (dst.length : Int) ≤ 2147483648) (n : Nat)
    (hlen : ((y : Int) * dw + (n : Int)) * 4 ≤ (dst.length : Int)) :
    (∀ x : Nat, x < n → ∀ c : Int, 0 ≤ c → c < 4 →
      buf_get (scale_row src sw dst dw sy y n) (((y : Int) * dw + (x : Int)) * 4 + c)
        = buf_get src (int32 (src_index sw sy (src_coord sw dw x) + c))) ∧
    (∀ j : Int, (j < ((y : Int) * dw) * 4 ∨ ((y : Int) * dw + (n : Int)) * 4 ≤ j) →
      buf_get (scale_row src sw dst dw sy y n) j = buf_get dst j) := by
  have hy : 0 ≤ (y : Int) * dw := Int.mul_nonneg (by omega) hdw
  induction n with
  | zero =>
    refine ⟨fun x hx => absurd hx (by omega), fun j _ => by simp [scale_row]⟩
  | succ n ih =>
    have hlen' : ((y : Int) * dw + (n : Int)) * 4 ≤ (dst.length : Int) := by
      push_cast at hlen; omega
    obtain ⟨ih₁, ih₂⟩ := ih hlen'
    have hl : (scale_row src sw dst dw sy y n).length = dst.length := scale_row_length _ _ _ _ _ _ _
    have hdi : dst_index dw y n = ((y : Int) * dw + (n : Int)) * 4 :=
      dst_index_eq dw y n hdw (by push_cast at hlen; omega)
    have hsi := int32_range (int32 (int32 (sy * sw) + src_coord sw dw n) * 4)
    have hget := fun j => copy_pixel_get src (scale_row src sw dst dw sy y n)
      (src_index sw sy (src_coord sw dw n)) (((y : Int) * dw + (n : Int)) * 4) j
      (by omega) (by rw [hl]; push_cast at hlen; omega) (by rw [hl]; exact hlim)
      hsi.1 hsi.2
    constructor
    · intro x hx c hc0 hc4
      rw [scale_row_succ, hdi, hget]
      by_cases hxn : x = n
      · subst hxn
        have h₁ : ((y : Int) * dw + (x : Int)) * 4 ≤ ((y : Int) * dw + (x : Int)) * 4 + c ∧
            ((y : Int) * dw + (x : Int)) * 4 + c < ((y : Int) * dw + (x : Int)) * 4 + 4 := by
          omega
        rw [if_pos h₁]
        congr 2
        omega
      · have hx' : x < n := by omega
        have h₁ : ¬ (((y : Int) * dw + (n : Int)) * 4 ≤ ((y : Int) * dw + (x : Int)) * 4 + c ∧
            ((y : Int) * dw + (x : Int)) * 4 + c < ((y : Int) * dw + (n : Int)) * 4 + 4) := by
          omega
        rw [if_neg h₁]
        exact ih₁ x hx' c hc0 hc4
    · intro j hj
      rw [scale_row_succ, hdi, hget]
      have h₁ : ¬ (((y : Int) * dw + (n : Int)) * 4 ≤ j ∧
          j < ((y : Int) * dw + (n : Int)) * 4 + 4) := by
        push_cast at hj; omega
      rw [if_neg h₁]
      exact ih₂ j (by push_cast at hj; omega)

/-- The outer loop of `scale_rgba_to` leaves in every pixel of the rows it has
gone through the bytes read at the source index computed for it, in a
destination of at most 2^31 bytes. -/
theorem scale_rows_spec (src : List Nat) (sw sh : Int) (dst : List Nat) (dw dh : Int)
    (hdw : 0 ≤ dw) (hdst : (dst.length : Int) = dw * dh * 4)
    (hlim : dw * dh * 4 ≤ 2147483648) (n : Nat) (hn : (n : Int) ≤ dh) :
    ∀ y : Nat, y < n → ∀ x : Nat, (x : Int) < dw → ∀ c : Int, 0 ≤ c → c < 4 →
      buf_get (scale_rows src sw sh dst dw dh n) (((y : Int) * dw + (x : Int)) * 4 + c)
        = buf_get src
            (int32 (src_index sw (src_coord sh dh y) (src_coord sw dw x) + c)) := by
  induction n with
  | zero => intro y hy; exact absurd hy (by omega)
  | succ n ih =>
    have hn' : (n : Int) ≤ dh := by push_cast at hn; omega
    have ih' := ih hn'
    have hl : (scale_rows src sw sh dst dw dh n).length = dst.length :=
      scale_rows_length _ _ _ _ _ _ _
    have hmul : ((n : Int) + 1) * dw ≤ dh * dw :=
      Int.mul_le_mul_of_nonneg_right (by push_cast at hn; omega) hdw
    have hcomm : dw * dh = dh * dw := Int.mul_comm _ _
    have hexp : ((n : Int) + 1) * dw = (n : Int) * dw + dw := by ring
    have htoNat : ((dw.toNat : Nat) : Int) = dw := Int.toNat_of_nonneg hdw
    obtain ⟨hrow₁, hrow₂⟩ := scale_row_spec src sw (scale_rows src sw sh dst dw dh n) dw
      (src_coord sh dh n) n hdw (by rw [hl, hdst]; exact hlim) dw.toNat
      (by rw [hl, htoNat, hdst]; omega)
    intro y hy x hx c hc0 hc4
    rw [scale_rows_succ]
    by_cases hyn : y = n
    · subst hyn
      exact hrow₁ x (by omega) c hc0 hc4
    · have hy' : y < n := by omega
      have hmul₂ : ((y : Int) + 1) * dw ≤ (n : Int) * dw :=
        Int.mul_le_mul_of_nonneg_right (by omega) hdw
      have hexp₂ : ((y : Int) + 1) * dw = (y : Int) * dw + dw := by ring
      rw [hrow₂ _ (Or.inl (by omega))]
      exact ih' y hy' x hx c hc0 hc4

/-- The source coordinate picked for a destination coordinate, without the
clamp and with the floor division, for extents of at least 1 and a product
`k * (s - 1)` that fits 32 bits. -/
theorem src_coord_eq (s d : Int) (k : Nat) (hs : 1 ≤ s) (hk : (k : Int) < d)
    (hs31 : s ≤ 2147483648) (hd31 : d ≤ 2147483648)
    (hprod : (k : Int) * (s - 1) < 2147483648) :
    src_coord s d k = (if d > 1 then ((k : Int) * (s - 1)) / (d - 1) else 0) ∧
      0 ≤ src_coord s d k ∧ src_coord s d k < s := by
  have hnum : 0 ≤ (k : Int) * (s - 1) := Int.mul_nonneg (by omega) (by omega)
  have e₁ : int32 (s - 1) = s - 1 := int32_eq _ (by omega) (by omega)
  have e₂ : int32 (d - 1) = d - 1 := int32_eq _ (by omega) (by omega)
  have e₃ : int32 ((k : Int) * (s - 1)) = (k : Int) * (s - 1) := int32_eq _ (by omega) hprod
  unfold src_coord
  rw [e₁, e₂, e₃]
  by_cases hd : d > 1
  · have hs0 : s > 0 := by omega
    have hdiv : Int.tdiv ((k : Int) * (s - 1)) (d - 1) = ((k : Int) * (s - 1)) / (d - 1) :=
      Int.tdiv_eq_ediv hnum (by omega)
    have hle : ((k : Int) * (s - 1)) / (d - 1) ≤ s - 1 := by
      apply Int.ediv_le_of_le_mul (by omega)
      rw [Int.mul_comm (s - 1) (d - 1)]
      exact Int.mul_le_mul_of_nonneg_right (by omega) (by omega)
    have hge : 0 ≤ ((k : Int) * (s - 1)) / (d - 1) := Int.ediv_nonneg hnum (by omega)
    have hcl : ¬ (((k : Int) * (s - 1)) / (d - 1) ≥ s) := by omega
    simp only [hd, hs0, and_self, if_true, hdiv, hcl, if_false]
    exact ⟨trivial, hge, by omega⟩
  · have hcl : ¬ ((0 : Int) ≥ s) := by omega
    simp only [hd, false_and, if_false, hcl]
    exact ⟨trivial, le_refl _, by omega⟩

/-- The source index of a pixel of a source of at most 2^31 bytes, and of its
channels. -/
theorem src_index_eq (sw sh sy sx c : Int) (hx0 : 0 ≤ sx) (hx1 : sx < sw) (hy0 : 0 ≤ sy)
    (hy1 : sy < sh) (hlim : sw * sh * 4 ≤ 2147483648) (hc0 : 0 ≤ c) (hc4 : c < 4) :
    int32 (src_index sw sy sx + c) = (sy * sw + sx) * 4 + c ∧
      0 ≤ (sy * sw + sx) * 4 + c ∧ (sy * sw + sx) * 4 + c < sw * sh * 4 := by
  have hmul : (sy + 1) * sw ≤ sh * sw :=
    Int.mul_le_mul_of_nonneg_right (by omega) (by omega)
  have hexp : (sy + 1) * sw = sy * sw + sw := by ring
  have hcomm : sw * sh = sh * sw := Int.mul_comm _ _
  have hnn : 0 ≤ sy * sw := Int.mul_nonneg hy0 (by omega)
  unfold src_index
  rw [int32_eq (sy * sw) (by omega) (by omega),
    int32_eq (sy * sw + sx) (by omega) (by omega),
    int32_eq ((sy * sw + sx) * 4) (by omega) (by omega),
    int32_eq ((sy * sw + sx) * 4 + c) (by omega) (by omega)]
  exact ⟨rfl, by omega, by omega⟩

/-- The bytes that `scale_rgba_to` leaves in a pixel of a destination of at
most 2^31 bytes: those read at the source index computed for it. -/
theorem scale_byte (src : List Nat) (sw sh : Int) (dst : List Nat) (dw dh : Int)
    (hdw : 0 ≤ dw) (hdh : 0 ≤ dh) (hdst : (dst.length : Int) = dw * dh * 4)
    (hlim : dw * dh * 4 ≤ 2147483648)
    (x y : Nat) (hx : (x : Int) < dw) (hy : (y : Int) < dh) (c : Int) (hc0 : 0 ≤ c)
    (hc4 : c < 4) :
    buf_get (scale_rgba_to src sw sh dst dw dh) (((y : Int) * dw + (x : Int)) * 4 + c)
      = buf_get src
          (int32 (src_index sw (src_coord sh dh y) (src_coord sw dw x) + c)) := by
  rw [scale_rgba_to_eq_rows]
  exact scale_rows_spec src sw sh dst dw dh hdw hdst hlim dh.toNat
    (by rw [Int.toNat_of_nonneg hdh]) y (by omega) x hx c hc0 hc4

theorem src_coord_same (s : Int) (k : Nat) (hs : 1 ≤ s) (hk : (k : Int) < s)
    (hs31 : s ≤ 2147483648) (hprod : (k : Int) * (s - 1) < 2147483648) :
    src_coord s s k = (k : Int) := by
  rw [(src_coord_eq s s k hs hk hs31 hs31 hprod).1]
  by_cases h : s > 1
  · rw [if_pos h]
    exact Int.mul_ediv_cancel _ (by omega)
  · rw [if_neg h]; omega

theorem buf_get_eq_getElem (b : List Nat) (i : Nat) (h : i < b.length) :
    buf_get b (i : Int) = b[i] := by
  have h0 : ¬ ((i : Int) < 0) := by omega
  simp [buf_get, h0, List.getD_eq_getElem?_getD, List.getElem?_eq_getElem h]

/-- A byte index below `w * h * 4` is the index of a channel of a pixel of a
`w` by `h` image. -/
theorem byte_index_split (w h : Int) (hw : 1 ≤ w) (hh : 1 ≤ h) (i : Nat)
    (hi : (i : Int) < w * h * 4) :
    ∃ (x y : Nat) (c : Int), (x : Int) < w ∧ (y : Int) < h ∧ 0 ≤ c ∧ c < 4 ∧
      (i : Int) = ((y : Int) * w + (x : Int)) * 4 + c := by
  have hwN : ((w.toNat : Nat) : Int) = w := Int.toNat_of_nonneg (by omega)
  have hhN : ((h.toNat : Nat) : Int) = h := Int.toNat_of_nonneg (by omega)
  have hWpos : 0 < w.toNat := by omega
  have hiN : i < 4 * (w.toNat * h.toNat) := by
    have : ((i : Nat) : Int) < ((4 * (w.toNat * h.toNat) : Nat) : Int) := by
      push_cast; rw [hwN, hhN]; linarith
    exact_mod_cast this
  have hp : i / 4 < w.toNat * h.toNat := Nat.div_lt_of_lt_mul hiN
  have hy : i / 4 / w.toNat < h.toNat := Nat.div_lt_of_lt_mul hp
  have hx : i / 4 % w.toNat < w.toNat := Nat.mod_lt _ hWpos
  have e₁ : 4 * (i / 4) + i % 4 = i := Nat.div_add_mod i 4
  have e₂ : w.toNat * (i / 4 / w.toNat) + i / 4 % w.toNat = i / 4 := Nat.div_add_mod _ _
  refine ⟨i / 4 % w.toNat, i / 4 / w.toNat, ((i % 4 : Nat) : Int), by omega, by omega,
    by omega, by omega, ?_⟩
  have e₁' : (4 : Int) * ((i / 4 : Nat) : Int) + ((i % 4 : Nat) : Int) = (i : Int) := by
    exact_mod_cast e₁
  have e₂' : w * ((i / 4 / w.toNat : Nat) : Int) + ((i / 4 % w.toNat : Nat) : Int)
      = ((i / 4 : Nat) : Int) := by
    have : ((w.toNat : Nat) : Int) * ((i / 4 / w.toNat : Nat) : Int)
        + ((i / 4 % w.toNat : Nat) : Int) = ((i / 4 : Nat) : Int) := by
      exact_mod_cast e₂
    rwa [hwN] at this
  rw [← e₁', ← e₂']
  ring

/-- The size of `out_buf` for a non-negative output resolution. -/
theorem out_buf_size_eq (out_w out_h : Int) (hw0 : 0 ≤ out_w) (hw : out_w < 2 ^ 31)
    (hh0 : 0 ≤ out_h) (hh : out_h < 2 ^ 31) :
    out_buf_size out_w out_h = (out_w * out_h * 4).toNat := by
  unfold out_buf_size
  have e₁ : out_w % 2 ^ 64 = out_w := Int.emod_eq_of_lt hw0 (by omega)
  have e₂ : out_h % 2 ^ 64 = out_h := Int.emod_eq_of_lt hh0 (by omega)
  rw [e₁, e₂]
  have hwN : out_w.toNat < 2 ^ 31 := by omega
  have hhN : out_h.toNat < 2 ^ 31 := by omega
  have hprod : out_w.toNat * out_h.toNat < 2 ^ 31 * 2 ^ 31 := by
    rcases Nat.eq_zero_or_pos out_h.toNat with h0 | hpos
    · rw [h0]; simp
    · calc out_w.toNat * out_h.toNat < 2 ^ 31 * out_h.toNat :=
            Nat.mul_lt_mul_of_pos_right hwN hpos
        _ ≤ 2 ^ 31 * 2 ^ 31 := Nat.mul_le_mul_left _ (le_of_lt hhN)
  have m₁ : out_w.toNat * out_h.toNat % 2 ^ 64 = out_w.toNat * out_h.toNat :=
    Nat.mod_eq_of_lt (by omega)
  rw [m₁, Nat.mod_eq_of_lt (by omega)]
  have : ((out_w.toNat * out_h.toNat * 4 : Nat) : Int) = out_w * out_h * 4 := by
    push_cast
    rw [Int.toNat_of_nonneg hw0, Int.toNat_of_nonneg hh0]
  omega

theorem scale_rgba_to_length (src : List Nat) (sw sh : Int) (dst : List Nat) (dw dh : Int) :
    (scale_rgba_to src sw sh dst dw dh).length = dst.length := by
  rw [scale_rgba_to_eq_rows]; exact scale_rows_length _ _ _ _ _ _ _

theorem fill_frame_length (out_w out_h : Int) (out_buf : List Nat) (rel : String)
    (loaded : Loaded) : (fill_frame out_w out_h out_buf rel loaded).buf.length
      = out_buf.length := by
  unfold fill_frame
  by_cases hr : rel.isEmpty = true
  · simp [hr]
  · cases himg : loaded.img with
    | none => simp [hr]
    | some img =>
      by_cases hd : loaded.iw > 0 ∧ loaded.ih > 0
      · simp [hr, hd, scale_rgba_to_length]
      · simp [hr, hd]

/-- A frame without a usable image gets a zeroed buffer and no resample. -/
theorem fill_frame_missing (out_w out_h : Int) (out_buf : List Nat) (rel : String)
    (loaded : Loaded)
    (hmiss : rel.isEmpty = true ∨ loaded.img = none ∨ loaded.iw ≤ 0 ∨ loaded.ih ≤ 0) :
    fill_frame out_w out_h out_buf rel loaded
      = { resampled := false, buf := List.replicate out_buf.length 0 } := by
  unfold fill_frame
  by_cases hr : rel.isEmpty = true
  · simp [hr]
  · cases himg : loaded.img with
    | none => simp [hr]
    | some img =>
      have hd : ¬ (loaded.iw > 0 ∧ loaded.ih > 0) := by
        rcases hmiss with h | h | h | h
        · exact absurd h hr
        · rw [himg] at h; simp at h
        · omega
        · omega
      simp [hr, hd]

/-- The fillings of the frame loops, from a buffer of `n` bytes: a frame
without a usable image gets `n` zero bytes. -/
theorem frame_fills_missing (out_w out_h : Int) (frames : List (String × Loaded)) :
    ∀ (out_buf : List Nat) (k : Nat) (rel : String) (loaded : Loaded),
      frames[k]? = some (rel, loaded) →
      (rel.isEmpty = true ∨ loaded.img = none ∨ loaded.iw ≤ 0 ∨ loaded.ih ≤ 0) →
      (frame_fills out_w out_h out_buf frames)[k]?
        = some { resampled := false, buf := List.replicate out_buf.length 0 } := by
  induction frames with
  | nil => intro _ k _ _ hk; simp at hk
  | cons fr rest ih =>
    intro out_buf k rel loaded hk hmiss
    obtain ⟨rel0, loaded0⟩ := fr
    cases k with
    | zero =>
      simp only [List.getElem?_cons_zero, Option.some.injEq, Prod.mk.injEq] at hk
      obtain ⟨rfl, rfl⟩ := hk
      simp only [frame_fills, List.getElem?_cons_zero]
      rw [fill_frame_missing out_w out_h out_buf rel0 loaded0 hmiss]
    | succ k =>
      simp only [List.getElem?_cons_succ] at hk
      simp only [frame_fills, List.getElem?_cons_succ]
      rw [ih _ k rel loaded hk hmiss, fill_frame_length]

/-! ## Lemmas on decimal numerals -/

theorem digit_value_digitChar (k : Nat) (h : k < 10) :
    digit_value (Nat.digitChar k) = k := by
  interval_cases k <;> rfl

/-- The digits that `Nat.toDigitsCore` puts in front of its accumulator denote
the number it is given. -/
theorem toDigitsCore_spec (fuel : Nat) :
    ∀ (n : Nat) (ds : List Char), n < fuel →
      ∃ L : List Char, Nat.toDigitsCore 10 fuel n ds = L ++ ds ∧ L ≠ [] ∧
        (∀ a : Nat, L.foldl (fun a c => a * 10 + digit_value c) a
          = a * 10 ^ L.length + n) ∧
        ∀ c ∈ L, ∃ k, k < 10 ∧ c = Nat.digitChar k := by
  induction fuel with
  | zero => intro n ds h; exact absurd h (by omega)
  | succ fuel ih =>
    intro n ds hn
    have hmod : n % 10 < 10 := Nat.mod_lt _ (by omega)
    by_cases h : n / 10 = 0
    · refine ⟨[Nat.digitChar (n % 10)], by simp [Nat.toDigitsCore, h], by simp, ?_, ?_⟩
      · intro a
        simp only [List.foldl_cons, List.foldl_nil, List.length_singleton, pow_one,
          digit_value_digitChar _ hmod]
        omega
      · intro c hc
        exact ⟨n % 10, hmod, by simpa using hc⟩
    · obtain ⟨L, hL, _, hval, hdig⟩ := ih (n / 10) (Nat.digitChar (n % 10) :: ds) (by omega)
      refine ⟨L ++ [Nat.digitChar (n % 10)], ?_, by simp, ?_, ?_⟩
      · simp [Nat.toDigitsCore, h, hL]
      · intro a
        rw [List.foldl_append, hval a]
        simp only [List.foldl_cons, List.foldl_nil, List.length_append,
          List.length_singleton, digit_value_digitChar _ hmod, pow_succ]
        have := Nat.div_add_mod n 10
        rw [← Nat.mul_assoc]
        omega
      · intro c hc
        rcases List.mem_append.1 hc with h' | h'
        · exact hdig c h'
        · exact ⟨n % 10, hmod, by simpa using h'⟩

theorem decimal_value_toDigits (n : Nat) : decimal_value (Nat.toDigits 10 n) = n := by
  obtain ⟨L, hL, _, hval, _⟩ := toDigitsCore_spec (n + 1) n [] (by omega)
  unfold decimal_value Nat.toDigits
  rw [hL, List.append_nil, hval 0]
  omega

theorem toString_nat_injective (a b : Nat) (h : toString a = toString b) : a = b := by
  have h' : (Nat.toDigits 10 a).asString = (Nat.toDigits 10 b).asString := h
  have h'' : Nat.toDigits 10 a = Nat.toDigits 10 b := by
    have := congrArg String.data h'
    simpa [List.asString] using this
  rw [← decimal_value_toDigits a, ← decimal_value_toDigits b, h'']

/-! ## Lemmas on media import naming -/

theorem numbered_name_injective (stem ext : String) (a b : Nat)
    (h : numbered_name stem ext a = numbered_name stem ext b) : a = b := by
  unfold numbered_name at h
  have h₁ := congrArg String.data h
  simp only [String.data_append, List.append_assoc] at h₁
  have h₂ := List.append_cancel_left (List.append_cancel_left h₁)
  have h₃ := List.append_cancel_right h₂
  exact toString_nat_injective a b (String.ext h₃)

/-- Among the names numbered 1 to `present.length + 1` one is not present. -/
theorem exists_free_number (present : List String) (stem ext : String) :
    ∃ k, 1 ≤ k ∧ k ≤ present.length + 1 ∧ numbered_name stem ext k ∉ present := by
  by_contra hcon
  have hall : ∀ k, 1 ≤ k → k ≤ present.length + 1 → numbered_name stem ext k ∈ present := by
    intro k h₁ h₂
    by_contra hk
    exact hcon ⟨k, h₁, h₂, hk⟩
  have hnd : ((List.range (present.length + 1)).map
      (fun k => numbered_name stem ext (k + 1))).Nodup := by
    apply List.Nodup.map _ (List.nodup_range _)
    intro a b hab
    have := numbered_name_injective stem ext (a + 1) (b + 1) hab
    omega
  have hsub : (List.range (present.length + 1)).map
      (fun k => numbered_name stem ext (k + 1)) ⊆ present := by
    intro x hx
    obtain ⟨k, hk, rfl⟩ := List.mem_map.1 hx
    exact hall (k + 1) (by omega) (by have := List.mem_range.1 hk; omega)
  have hlen := (List.subperm_of_subset hnd hsub).length_le
  simp at hlen

/-- The loop of `add_media_file` stops at the first candidate that is not
present, when there is one within its fuel. -/
theorem collision_loop_first_free (present : List String) (stem ext : String) :
    ∀ (fuel n : Nat), (∃ k, n ≤ k ∧ k < n + fuel ∧ candidate stem ext k ∉ present) →
      ∃ k, n ≤ k ∧ candidate stem ext k ∉ present ∧
        (∀ j, n ≤ j → j < k → candidate stem ext j ∈ present) ∧
        collision_loop present stem ext fuel n (candidate stem ext n)
          = some (candidate stem ext k) := by
  intro fuel
  induction fuel with
  | zero => rintro n ⟨k, h₁, h₂, _⟩; exact absurd h₂ (by omega)
  | succ fuel ih =>
    rintro n ⟨k, h₁, h₂, h₃⟩
    by_cases hn : candidate stem ext n ∈ present
    · have hk : n + 1 ≤ k := by
        rcases Nat.eq_or_lt_of_le h₁ with h | h
        · subst h; exact absurd hn h₃
        · exact h
      obtain ⟨k', hk₁, hk₂, hk₃, hk₄⟩ := ih (n + 1) ⟨k, hk, by omega, h₃⟩
      refine ⟨k', by omega, hk₂, ?_, ?_⟩
      · intro j hj₁ hj₂
        rcases Nat.eq_or_lt_of_le hj₁ with h | h
        · subst h; exact hn
        · exact hk₃ j h hj₂
      · have hc : candidate stem ext (n + 1) = numbered_name stem ext (n + 1) := by
          simp [candidate]
        simp only [collision_loop, hn, if_true]
        rw [← hc]
        exact hk₄
    · refine ⟨n, le_refl _, hn, fun j h₁ h₂ => absurd h₂ (by omega), ?_⟩
      simp [collision_loop, hn]

/-! ## Lemmas on frame file names -/

theorem decimal_value_zeros (k : Nat) (l : List Char) :
    decimal_value (List.replicate k '0' ++ l) = decimal_value l := by
  unfold decimal_value
  rw [List.foldl_append]
  congr 1
  induction k with
  | zero => rfl
  | succ k ih =>
    rw [List.replicate_succ, List.foldl_cons]
    exact ih

/-- A string of decimal digits denotes a number below 10 to the power of its
length. -/
theorem decimal_value_lt (l : List Char) (hd : ∀ c ∈ l, ∃ k, k < 10 ∧ c = Nat.digitChar k) :
    ∀ a : Nat, l.foldl (fun a c => a * 10 + digit_value c) a < (a + 1) * 10 ^ l.length := by
  induction l with
  | nil => intro a; simp
  | cons c l ih =>
    intro a
    obtain ⟨k, hk, rfl⟩ := hd c (by simp)
    rw [List.foldl_cons, digit_value_digitChar k hk]
    have h₁ := ih (fun c hc => hd c (List.mem_cons_of_mem _ hc)) (a * 10 + k)
    have h₂ : (a * 10 + k + 1) * 10 ^ l.length ≤ ((a + 1) * 10) * 10 ^ l.length :=
      Nat.mul_le_mul_right _ (by omega)
    rw [List.length_cons, pow_succ, Nat.mul_comm (10 ^ l.length) 10, ← Nat.mul_assoc]
    omega

theorem toDigits_digits (n : Nat) :
    ∀ c ∈ Nat.toDigits 10 n, ∃ k, k < 10 ∧ c = Nat.digitChar k := by
  obtain ⟨L, hL, _, _, hdig⟩ := toDigitsCore_spec (n + 1) n [] (by omega)
  unfold Nat.toDigits
  rw [hL, List.append_nil]
  exact hdig

theorem toDigits_length_le (n : Nat) (h : n < 100000) : (Nat.toDigits 10 n).length ≤ 5 :=
  Nat.toDigitsCore_length 10 (by omega) (n + 1) n 5 (by omega) (by omega)

theorem toDigits_length_gt (n : Nat) (h : 100000 ≤ n) : 5 < (Nat.toDigits 10 n).length := by
  by_contra hle
  have hlt := decimal_value_lt (Nat.toDigits 10 n) (toDigits_digits n) 0
  have hv : decimal_value (Nat.toDigits 10 n) = n := decimal_value_toDigits n
  unfold decimal_value at hv
  rw [hv] at hlt
  have hpow : 10 ^ (Nat.toDigits 10 n).length ≤ 10 ^ 5 :=
    Nat.pow_le_pow_right (by omega) (by omega)
  omega

theorem pad5_digits (n : Nat) : ∀ c ∈ pad5 n, ∃ k, k < 10 ∧ c = Nat.digitChar k := by
  intro c hc
  unfold pad5 at hc
  rcases List.mem_append.1 hc with h | h
  · exact ⟨0, by omega, by rw [(List.mem_replicate.1 h).2]; rfl⟩
  · exact toDigits_digits n c h

theorem decimal_value_pad5 (n : Nat) : decimal_value (pad5 n) = n := by
  unfold pad5
  rw [decimal_value_zeros, decimal_value_toDigits]

theorem frame_file_name_injective (i j : Nat) (h : frame_file_name i = frame_file_name j) :
    i = j := by
  unfold frame_file_name at h
  have h₁ := congrArg String.data h
  simp only [String.data_append, List.append_assoc] at h₁
  have h₂ := List.append_cancel_right (List.append_cancel_left h₁)
  rw [← decimal_value_pad5 i, ← decimal_value_pad5 j, h₂]

/-- When every write succeeds, an export that reaches the frame loops writes
frame `f` of a scene under the index given by the frame counts of the scenes
before it. -/
theorem render_write_at (env : Env) (db : Option Db) (project_root output_path : String)
    (progress : Bool) (hroot : project_root.isEmpty = false)
    (hout : output_path.isEmpty = false) (htotal : 0 < total_frames db)
    (htmp : env.tmp ≠ TmpDir.blocked) (hall : ∀ k, env.write_ok k = true)
    (pre post : List SceneRow) (sc : SceneRow) (hl : list_scenes db = pre ++ sc :: post)
    (f : Nat) (hf : (f : Int) < get_scene_used_frame_count db sc.id) :
    (writes (render_project_to_video env db project_root output_path progress).trace)[
        ((scene_frame_counts db pre).sum).toNat + f]?
      = some (((scene_frame_counts db pre).sum).toNat + f,
          get_image_at_frame db sc.id f, true) := by
  have hscenes : list_scenes db ≠ [] := by rw [hl]; simp
  rcases render_cases env db project_root output_path progress with
    ⟨hg, _⟩ | ⟨hb, _⟩ | ⟨_, _, hT, _, _, ht, _⟩
  · exfalso
    rcases hg with hg | hg | hg
    · cases db with
      | none => exact hscenes rfl
      | some d => simp [hroot, hout] at hg
    · exact hscenes hg
    · omega
  · exact absurd hb htmp
  · have hwr : writes (render_project_to_video env db project_root output_path progress).trace
        = writes (loop_state env db progress).trace := by
      rw [ht, trace_split, writes_append,
        (no_writes_of_not_loop _ (tail_not_loop progress _)).2, List.append_nil]
    have hz : (list_scenes db).zip (scene_frame_counts db (list_scenes db))
        = pre.zip (scene_frame_counts db pre)
          ++ (sc, get_scene_used_frame_count db sc.id)
            :: post.zip (scene_frame_counts db post) := by
      unfold scene_frame_counts
      rw [zip_map_self, zip_map_self, zip_map_self, hl]
      simp
    have := render_scenes_at env db (total_frames db) progress hall
      (pre.zip (scene_frame_counts db pre)) (post.zip (scene_frame_counts db post))
      (sc, get_scene_used_frame_count db sc.id)
      { frame_idx := 0, written := [], calls := 0, entries := entries_before env.tmp
        trace := [Event.create_dir true] } f (by simp only; omega)
    rw [sum_toNat_counts, ← hz] at this
    rw [hwr]
    unfold loop_state
    simpa [writes] using this

/-- With a progress sink the inner loop stores the progress of a frame before
it writes the frame. -/
theorem render_frames_store (env : Env) (db : Option Db) (scene_id : Int) (T : Int) :
    ∀ (n : Nat) (f : Int) (st : RenderState),
      (∀ i src ok, Event.write_png i src ok ∈ st.trace → Event.store i T ∈ st.trace) →
      ∀ i src ok,
        Event.write_png i src ok ∈ (render_frames env db scene_id T true n f st).trace →
        Event.store i T ∈ (render_frames env db scene_id T true n f st).trace := by
  intro n
  induction n with
  | zero => intro f st h; exact h
  | succ n ih =>
    intro f st h
    have hstep : ∀ ok₀ : Bool, ∀ i src ok,
        Event.write_png i src ok ∈ (st.trace ++ [Event.store st.frame_idx T])
            ++ [Event.write_png st.frame_idx (get_image_at_frame db scene_id f) ok₀] →
        Event.store i T ∈ (st.trace ++ [Event.store st.frame_idx T])
            ++ [Event.write_png st.frame_idx (get_image_at_frame db scene_id f) ok₀] := by
      intro ok₀ i src ok hm
      rcases List.mem_append.1 hm with hm | hm
      · rcases List.mem_append.1 hm with hm | hm
        · exact List.mem_append_left _ (List.mem_append_left _ (h i src ok hm))
        · simp at hm
      · simp only [List.mem_singleton, Event.write_png.injEq] at hm
        obtain ⟨rfl, -, -⟩ := hm
        exact List.mem_append_left _ (List.mem_append_right _ (by simp))
    by_cases hw : env.write_ok st.calls = true
    · simp only [render_frames, hw, if_true]
      exact ih (f + 1) _ (hstep true)
    · simp only [render_frames, hw, if_false, if_true]
      exact hstep false

/-- With a progress sink, every frame write of an export is preceded by the
store of the progress of its frame. -/
theorem store_before_write (env : Env) (db : Option Db) (project_root output_path : String)
    (i : Nat) (src : String) (ok : Bool)
    (h : Event.write_png i src ok
      ∈ (render_project_to_video env db project_root output_path true).trace) :
    Event.store i (total_frames db)
      ∈ (render_project_to_video env db project_root output_path true).trace := by
  rcases render_cases env db project_root output_path true with
    ⟨_, _, ht, _⟩ | ⟨_, _, ht, _⟩ | ⟨_, _, _, _, _, ht, _⟩
  · rw [ht] at h; simp at h
  · rw [ht] at h; simp at h
  · rw [ht, trace_split] at h ⊢
    have hloop : ∀ (scenes : List (SceneRow × Int)) (st : RenderState),
        (∀ i src ok, Event.write_png i src ok ∈ st.trace →
          Event.store i (total_frames db) ∈ st.trace) →
        ∀ i src ok,
          Event.write_png i src ok
            ∈ (render_scenes env db (total_frames db) true scenes st).trace →
          Event.store i (total_frames db)
            ∈ (render_scenes env db (total_frames db) true scenes st).trace := by
      intro scenes
      induction scenes with
      | nil => intro st hst; exact hst
      | cons sc rest ih =>
        intro st hst
        have h1 := render_frames_store env db sc.1.id (total_frames db) sc.2.toNat 0 st hst
        have := ih _ h1
        simpa [render_scenes] using this
    rcases List.mem_append.1 h with hm | hm
    · apply List.mem_append_left
      unfold loop_state at hm ⊢
      exact hloop _ _ (by intro i src ok hx; simp at hx) i src ok hm
    · have := tail_not_loop true _ _ hm
      simp [Event.is_loop] at this

/-! ## Lemmas on the encoder command -/

/-- The value of `MAX` bounds every value of the column. -/
theorem le_of_max?_eq_some {l : List Int} {m : Int} (h : l.max? = some m) :
    ∀ x ∈ l, x ≤ m :=
  (List.max?_le_iff (fun _ _ _ => max_le_iff) h).1 (le_refl m)

/-- The id given to a new scene is above every id in use. -/
theorem lt_next_scene_id (d : Db) (r : SceneRec) (hr : r ∈ d.scenes) :
    r.id < next_scene_id d := by
  unfold next_scene_id
  cases hm : (d.scenes.map (fun r => r.id)).max? with
  | none =>
    rw [List.max?_eq_none_iff] at hm
    have : r.id ∈ d.scenes.map (fun r => r.id) := List.mem_map.2 ⟨r, hr, rfl⟩
    rw [hm] at this
    simp at this
  | some m =>
    have := le_of_max?_eq_some hm r.id (List.mem_map.2 ⟨r, hr, rfl⟩)
    simp only
    omega

/-- The sort order given to a new scene is at least 1 and above the sort order
of every scene of timeline 1. -/
theorem lt_next_sort_order (d : Db) :
    (∀ r ∈ d.scenes, r.timeline_id = 1 → r.sort_order < next_sort_order d) ∧
    ((∀ r ∈ d.scenes, 1 ≤ r.sort_order) → 1 ≤ next_sort_order d) := by
  unfold next_sort_order
  cases hm : ((d.scenes.filter (fun r => r.timeline_id = 1)).map
      (fun r => r.sort_order)).max? with
  | none =>
    rw [List.max?_eq_none_iff] at hm
    refine ⟨?_, fun _ => by simp⟩
    intro r hr ht
    have : r.sort_order ∈ (d.scenes.filter (fun r => r.timeline_id = 1)).map
        (fun r => r.sort_order) :=
      List.mem_map.2 ⟨r, by simp [List.mem_filter, hr, ht], rfl⟩
    rw [hm] at this
    simp at this
  | some m =>
    refine ⟨?_, ?_⟩
    · intro r hr ht
      have := le_of_max?_eq_some hm r.sort_order
        (List.mem_map.2 ⟨r, by simp [List.mem_filter, hr, ht], rfl⟩)
      simp only
      omega
    · intro h1
      have hmem := List.max?_mem (fun a b => max_choice a b) hm
      obtain ⟨r, hr, hrm⟩ := List.mem_map.1 hmem
      have := h1 r (List.mem_of_mem_filter hr)
      simp only
      omega

/-- A row picked by the second query of `move_scene_up`. -/
theorem select_lower_some (d : Db) (order other_id : Int)
    (h : select_lower d order = some other_id) :
    ∃ r0 ∈ d.scenes, r0.id = other_id ∧ r0.sort_order < order ∧
      ∀ r ∈ d.scenes, r.sort_order < order → r.sort_order ≤ r0.sort_order := by
  have hex : ∃ r ∈ d.scenes, r.sort_order < order := by
    by_contra hno
    have he : d.scenes.filter (fun r => r.sort_order < order) = [] := by
      rw [List.filter_eq_nil_iff]
      intro r hr hlt
      exact hno ⟨r, hr, by simpa using hlt⟩
    simp [select_lower, he] at h
  obtain ⟨r0, hr0, hsel, hlt, hmax⟩ := select_lower_spec d order hex
  rw [hsel] at h
  exact ⟨r0, hr0, by simpa using h, hlt, hmax⟩

/-- A row picked by the second query of `move_scene_down`. -/
theorem select_higher_some (d : Db) (order other_id : Int)
    (h : select_higher d order = some other_id) :
    ∃ r0 ∈ d.scenes, r0.id = other_id ∧ r0.sort_order > order ∧
      ∀ r ∈ d.scenes, r.sort_order > order → r0.sort_order ≤ r.sort_order := by
  have hex : ∃ r ∈ d.scenes, r.sort_order > order := by
    by_contra hno
    have he : d.scenes.filter (fun r => r.sort_order > order) = [] := by
      rw [List.filter_eq_nil_iff]
      intro r hr hlt
      exact hno ⟨r, hr, by simpa using hlt⟩
    simp [select_higher, he] at h
  obtain ⟨r0, hr0, hsel, hlt, hmin⟩ := select_higher_spec d order hex
  rw [hsel] at h
  exact ⟨r0, hr0, by simpa using h, hlt, hmin⟩

/-- The `UPDATE` of a move keeps the invariant of the table when the value given
to the target is at least 1 and held by no row but the other one. -/
theorem update_keeps_inv (d : Db) (t o : SceneRec) (v : Int) (hinv : SceneInv d)
    (ht : t ∈ d.scenes) (ho : o ∈ d.scenes) (hne : o.sort_order ≠ t.sort_order)
    (hv : 1 ≤ v) (hvt : v ≠ t.sort_order)
    (hfree : ∀ r ∈ d.scenes, r.sort_order = v → r = o) :
    SceneInv (update_sort_orders d t.id v o.id t.sort_order) := by
  obtain ⟨hpk, hso, hrest⟩ := hinv
  have hinj : ∀ r ∈ d.scenes, ∀ r' ∈ d.scenes, r.sort_order = r'.sort_order → r = r' :=
    fun r hr r' hr' h => List.inj_on_of_nodup_map hso hr hr' h
  have hid : ∀ r ∈ d.scenes, ∀ r' ∈ d.scenes, r.id = r'.id → r = r' :=
    fun r hr r' hr' h => scene_eq_of_id_eq hpk hr hr' h
  have hnd : d.scenes.Nodup := List.Nodup.of_map _ hpk
  have hot : o.id ≠ t.id := fun h => hne (congrArg SceneRec.sort_order (hid o ho t ht h))
  refine ⟨?_, ?_, ?_⟩
  · have : (update_sort_orders d t.id v o.id t.sort_order).scenes.map (fun r => r.id)
        = d.scenes.map (fun r => r.id) := by
      simp only [update_sort_orders, List.map_map]
      apply List.map_congr_left
      intro r _
      simp only [Function.comp]
      split_ifs <;> rfl
    rw [this]; exact hpk
  · simp only [update_sort_orders, List.map_map]
    apply List.Nodup.map_on _ hnd
    intro r hr r' hr' h
    simp only [Function.comp] at h
    by_cases h1 : r.id = t.id
    · have e1 := hid r hr t ht h1
      by_cases h1' : r'.id = t.id
      · rw [e1, hid r' hr' t ht h1']
      · by_cases h2' : r'.id = o.id
        · simp only [h1, h1', h2', hot, if_true, if_false] at h
          exact absurd h hvt
        · simp only [h1, h1', h2', hot, if_true, if_false] at h
          have := hfree r' hr' h.symm
          exact absurd (congrArg SceneRec.id this) h2'
    · by_cases h2 : r.id = o.id
      · have e2 := hid r hr o ho h2
        by_cases h1' : r'.id = t.id
        · simp only [h1, h2, h1', hot, if_true, if_false] at h
          exact absurd h.symm hvt
        · by_cases h2' : r'.id = o.id
          · rw [e2, hid r' hr' o ho h2']
          · simp only [h1, h2, h1', h2', hot, if_true, if_false] at h
            have := hinj t ht r' hr' h
            exact absurd (congrArg SceneRec.id this.symm) h1'
      · by_cases h1' : r'.id = t.id
        · simp only [h1, h2, h1', hot, if_true, if_false] at h
          have := hfree r hr h
          exact absurd (congrArg SceneRec.id this) h2
        · by_cases h2' : r'.id = o.id
          · simp only [h1, h2, h1', h2', hot, if_true, if_false] at h
            have := hinj r hr t ht h
            exact absurd (congrArg SceneRec.id this) h1
          · simp only [h1, h2, h1', h2', hot, if_false] at h
            exact hinj r hr r' hr' h
  · intro r' hr'
    simp only [update_sort_orders, List.mem_map] at hr'
    obtain ⟨r, hr, rfl⟩ := hr'
    have h1 := hrest r hr
    have h2 := hrest t ht
    split_ifs
    · exact ⟨hv, h1.2⟩
    · exact ⟨h2.1, h1.2⟩
    · exact h1

/-- The command `create_scene` keeps the invariant of the table. -/
theorem create_scene_inv (d : Db) (hinv : SceneInv d) :
    ∃ d', (create_scene (some d)).2 = some d' ∧ SceneInv d' := by
  obtain ⟨hpk, hso, hrest⟩ := hinv
  refine ⟨_, rfl, ?_, ?_, ?_⟩
  · simp only [List.map_append, List.map_cons, List.map_nil]
    rw [List.nodup_append]
    refine ⟨hpk, by simp, ?_⟩
    intro a ha hb
    obtain ⟨r, hr, rfl⟩ := List.mem_map.1 ha
    have := lt_next_scene_id d r hr
    simp at hb
    omega
  · simp only [List.map_append, List.map_cons, List.map_nil]
    rw [List.nodup_append]
    refine ⟨hso, by simp, ?_⟩
    intro a ha hb
    obtain ⟨r, hr, rfl⟩ := List.mem_map.1 ha
    have := (lt_next_sort_order d).1 r hr (hrest r hr).2
    simp at hb
    omega
  · intro r hr
    rcases List.mem_append.1 hr with h | h
    · exact hrest r h
    · simp only [List.mem_singleton] at h
      subst h
      exact ⟨(lt_next_sort_order d).2 (fun r hr => (hrest r hr).1), rfl⟩

/-- The command `delete_scene` keeps the invariant of the table. -/
theorem delete_scene_inv (d : Db) (id : Int) (hinv : SceneInv d) :
    ∃ d', (delete_scene (some d) id).2 = some d' ∧ SceneInv d' := by
  obtain ⟨hpk, hso, hrest⟩ := hinv
  refine ⟨_, rfl, ?_, ?_, ?_⟩
  · exact (List.filter_sublist _).map _ |>.nodup hpk
  · exact (List.filter_sublist _).map _ |>.nodup hso
  · intro r hr
    exact hrest r (List.mem_of_mem_filter hr)

/-- The command `rename_scene` keeps the invariant of the table. -/
theorem rename_scene_inv (d : Db) (id : Int) (name : String) (hinv : SceneInv d) :
    ∃ d', (rename_scene (some d) id name).2 = some d' ∧ SceneInv d' := by
  obtain ⟨hpk, hso, hrest⟩ := hinv
  unfold rename_scene
  by_cases hn : name.isEmpty = true
  · exact ⟨d, by simp [hn], hpk, hso, hrest⟩
  · refine ⟨_, by simp only [hn]; rfl, ?_, ?_, ?_⟩
    · have : (d.scenes.map (fun r => if r.id = id then { r with name := some name } else r)).map
          (fun r => r.id) = d.scenes.map (fun r => r.id) := by
        rw [List.map_map]
        apply List.map_congr_left
        intro r _
        simp only [Function.comp]
        split_ifs <;> rfl
      simp only
      rw [this]; exact hpk
    · have : (d.scenes.map (fun r => if r.id = id then { r with name := some name } else r)).map
          (fun r => r.sort_order) = d.scenes.map (fun r => r.sort_order) := by
        rw [List.map_map]
        apply List.map_congr_left
        intro r _
        simp only [Function.comp]
        split_ifs <;> rfl
      simp only
      rw [this]; exact hso
    · intro r' hr'
      simp only [List.mem_map] at hr'
      obtain ⟨r, hr, rfl⟩ := hr'
      split_ifs
      · exact hrest r hr
      · exact hrest r hr

/-- The command `move_scene_up` keeps the invariant of the table. -/
theorem move_scene_up_inv (d : Db) (id : Int) (hinv : SceneInv d) :
    ∃ d', (move_scene_up (some d) id).2 = some d' ∧ SceneInv d' := by
  cases ho : scene_sort_order d id with
  | none => exact ⟨d, by simp [move_scene_up, ho], hinv⟩
  | some order =>
    cases hsel : select_lower d order with
    | none => exact ⟨d, by simp [move_scene_up, ho, hsel], hinv⟩
    | some other_id =>
      refine ⟨_, by rw [move_scene_up_eq d id order other_id ho hsel], ?_⟩
      obtain ⟨t, ht, hti, hto⟩ := mem_of_scene_sort_order d id order ho
      obtain ⟨o, hom, hoi, hlt, hmax⟩ := select_lower_some d order other_id hsel
      subst hti hoi hto
      have h1 := (hinv.2.2 o hom).1
      refine update_keeps_inv d t o (t.sort_order - 1) hinv ht hom (by omega) (by omega)
        (by omega) ?_
      intro r hr hrv
      have := hmax r hr (by omega)
      exact List.inj_on_of_nodup_map hinv.2.1 hr hom (by omega)

/-- The command `move_scene_down` keeps the invariant of the table. -/
theorem move_scene_down_inv (d : Db) (id : Int) (hinv : SceneInv d) :
    ∃ d', (move_scene_down (some d) id).2 = some d' ∧ SceneInv d' := by
  cases ho : scene_sort_order d id with
  | none => exact ⟨d, by simp [move_scene_down, ho], hinv⟩
  | some order =>
    cases hsel : select_higher d order with
    | none => exact ⟨d, by simp [move_scene_down, ho, hsel], hinv⟩
    | some other_id =>
      refine ⟨_, by rw [move_scene_down_eq d id order other_id ho hsel], ?_⟩
      obtain ⟨t, ht, hti, hto⟩ := mem_of_scene_sort_order d id order ho
      obtain ⟨o, hom, hoi, hlt, hmin⟩ := select_higher_some d order other_id hsel
      subst hti hoi hto
      have h1 := (hinv.2.2 t ht).1
      refine update_keeps_inv d t o (t.sort_order + 1) hinv ht hom (by omega) (by omega)
        (by omega) ?_
      intro r hr hrv
      have := hmin r hr (by omega)
      exact List.inj_on_of_nodup_map hinv.2.1 hr hom (by omega)

/-- Every sequence of scene commands keeps the invariant of the table. -/
theorem run_scene_ops_inv (ops : List SceneOp) (d : Db) (hinv : SceneInv d) :
    ∃ d', run_scene_ops (some d) ops = some d' ∧ SceneInv d' := by
  induction ops generalizing d with
  | nil => exact ⟨d, rfl, hinv⟩
  | cons op ops ih =>
    have hstep : ∃ d₁, apply_scene_op (some d) op = some d₁ ∧ SceneInv d₁ := by
      cases op with
      | create => exact create_scene_inv d hinv
      | delete id => exact delete_scene_inv d id hinv
      | rename id name => exact rename_scene_inv d id name hinv
      | move_up id => exact move_scene_up_inv d id hinv
      | move_down id => exact move_scene_down_inv d id hinv
    obtain ⟨d₁, h₁, hinv₁⟩ := hstep
    obtain ⟨d', h', hinv'⟩ := ih d₁ hinv₁
    refine ⟨d', ?_, hinv'⟩
    simp only [run_scene_ops, List.foldl_cons] at h' ⊢
    rw [h₁]; exact h'

/-- With pairwise distinct sort orders, the rows of `ORDER BY sort_order, id`
come in strictly increasing sort order. -/
theorem sorted_scenes_strict (l : List SceneRec)
    (hso : (l.map (fun r => r.sort_order)).Nodup) :
    (l.insertionSort scene_order).Pairwise (fun a b => a.sort_order < b.sort_order) := by
  have hs : (l.insertionSort scene_order).Pairwise scene_order :=
    List.sorted_insertionSort scene_order l
  have hn : ((l.insertionSort scene_order).map (fun r => r.sort_order)).Nodup :=
    ((List.perm_insertionSort scene_order l).map _).nodup_iff.2 hso
  have hn' : (l.insertionSort scene_order).Pairwise
      (fun a b => a.sort_order ≠ b.sort_order) := by
    rw [List.Nodup, List.pairwise_map] at hn
    exact hn
  refine (hs.and hn').imp ?_
  intro a b h
  obtain ⟨h₁, h₂⟩ := h
  unfold scene_order order_by SceneRec.key at h₁
  simp only at h₁
  omega

/-! ## Lemmas on the listing after a move -/

/-- A list in strictly increasing sort order that holds the rows of a table is
the result of `ORDER BY sort_order, id` on it. -/
theorem insertionSort_eq_of_strict (S L : List SceneRec) (hperm : L.Perm S)
    (hs : L.Pairwise (fun a b => a.sort_order < b.sort_order)) :
    S.insertionSort scene_order = L := by
  have hso : (S.map (fun r => r.sort_order)).Nodup := by
    have hn : (L.map (fun r => r.sort_order)).Nodup := by
      rw [List.Nodup, List.pairwise_map]
      exact hs.imp (fun h => ne_of_lt h)
    exact (hperm.map _).nodup_iff.1 hn
  have h1 := sorted_scenes_strict S hso
  haveI : IsAntisymm SceneRec (fun a b => a.sort_order < b.sort_order) :=
    ⟨fun a b h1 h2 => absurd h1 (by omega)⟩
  exact List.eq_of_perm_of_sorted ((List.perm_insertionSort scene_order S).trans hperm.symm)
    h1 hs

/-- The two `WHEN` branches of the `UPDATE` of a move can be exchanged when the
two ids differ. -/
theorem update_sort_orders_comm (d : Db) (a va b vb : Int) (h : a ≠ b) :
    update_sort_orders d a va b vb = update_sort_orders d b vb a va := by
  unfold update_sort_orders
  congr 1
  apply List.map_congr_left
  intro r _
  by_cases h1 : r.id = a
  · have h2 : r.id ≠ b := fun e => h (h1.symm.trans e)
    simp [h1, h2, h]
  · by_cases h2 : r.id = b
    · have h3 : b ≠ a := fun e => h e.symm
      simp [h2, h3]
    · simp [h1, h2]

/-- The listing after an `UPDATE` that gives two neighbours `x`, `y` of the
listing the values `vx`, `vy` with `vy` below `vx`, both between the sort orders
of the rows before and of the rows after: the two rows are exchanged. -/
theorem sorted_after_exchange (d : Db) (A B : List SceneRec) (x y : SceneRec) (vx vy : Int)
    (hpk : (d.scenes.map (fun r => r.id)).Nodup)
    (hL : d.scenes.insertionSort scene_order = A ++ x :: y :: B)
    (hA : ∀ a ∈ A, a.sort_order < vy) (hxy : vy < vx) (hB : ∀ b ∈ B, vx < b.sort_order)
    (hAs : A.Pairwise (fun a b => a.sort_order < b.sort_order))
    (hBs : B.Pairwise (fun a b => a.sort_order < b.sort_order)) :
    (update_sort_orders d y.id vy x.id vx).scenes.insertionSort scene_order
      = A ++ { y with sort_order := vy } :: { x with sort_order := vx } :: B := by
  have hperm := List.perm_insertionSort scene_order d.scenes
  rw [hL] at hperm
  have hpkL : ((A ++ x :: y :: B).map (fun r => r.id)).Nodup :=
    (hperm.map _).nodup_iff.2 hpk
  have hid : ∀ r ∈ A ++ x :: y :: B, ∀ r' ∈ A ++ x :: y :: B, r.id = r'.id → r = r' :=
    fun r hr r' hr' h => List.inj_on_of_nodup_map hpkL hr hr' h
  have hnd : (A ++ x :: y :: B).Nodup := List.Nodup.of_map _ hpkL
  rw [List.nodup_append] at hnd
  obtain ⟨-, hnd2, hdisj⟩ := hnd
  rw [List.nodup_cons] at hnd2
  obtain ⟨hx, hnd3⟩ := hnd2
  rw [List.nodup_cons] at hnd3
  obtain ⟨hy, -⟩ := hnd3
  have hxm : x ∈ A ++ x :: y :: B := by simp
  have hym : y ∈ A ++ x :: y :: B := by simp
  have hxy_id : x.id ≠ y.id := by
    intro e
    have := hid x hxm y hym e
    exact hx (by rw [this]; simp)
  have hfix : ∀ l : List SceneRec, (∀ r ∈ l, r ∈ A ++ x :: y :: B) → (∀ r ∈ l, r ≠ x) →
      (∀ r ∈ l, r ≠ y) →
      l.map (fun r => if r.id = y.id then { r with sort_order := vy }
        else if r.id = x.id then { r with sort_order := vx } else r) = l := by
    intro l hl hlx hly
    conv_rhs => rw [← List.map_id l]
    apply List.map_congr_left
    intro r hr
    have h1 : r.id ≠ y.id := fun e => hly r hr (hid r (hl r hr) y hym e)
    have h2 : r.id ≠ x.id := fun e => hlx r hr (hid r (hl r hr) x hxm e)
    simp [h1, h2]
  have hAfix := hfix A (fun r hr => by simp [hr])
    (fun r hr e => hdisj hr (by rw [e]; simp))
    (fun r hr e => hdisj hr (by rw [e]; simp))
  have hBfix := hfix B (fun r hr => by simp [hr])
    (fun r hr e => hx (by rw [← e]; simp [hr]))
    (fun r hr e => hy (by rw [← e]; exact hr))
  apply insertionSort_eq_of_strict
  · have hm := (hperm.map (fun r => if r.id = y.id then { r with sort_order := vy }
        else if r.id = x.id then { r with sort_order := vx } else r))
    simp only [List.map_append, List.map_cons, hAfix, hBfix, hxy_id, if_true, if_false]
      at hm
    simp only [update_sort_orders]
    refine List.Perm.trans ?_ hm
    exact List.Perm.append_left A (List.Perm.swap _ _ _)
  · rw [List.pairwise_append]
    refine ⟨hAs, ?_, ?_⟩
    · rw [List.pairwise_cons, List.pairwise_cons]
      refine ⟨?_, ?_, hBs⟩
      · intro b hb
        rcases List.mem_cons.1 hb with h | h
        · subst h; exact hxy
        · have := hB b h
          simp only
          omega
      · intro b hb
        exact hB b hb
    · intro a ha b hb
      have h1 := hA a ha
      rcases List.mem_cons.1 hb with h | h
      · subst h; exact h1
      · rcases List.mem_cons.1 h with h | h
        · subst h
          simp only
          omega
        · have := hB b h
          omega

/-- Two neighbours of the listing are the images of two neighbours of the
stored rows in `ORDER BY sort_order, id`, which lie strictly between the rows
before and the rows after. -/
theorem listing_split (d : Db) (pre post : List SceneRow) (a b : SceneRow)
    (hso : (d.scenes.map (fun r => r.sort_order)).Nodup)
    (h : list_scenes (some d) = pre ++ a :: b :: post) :
    ∃ (A B : List SceneRec) (ra rb : SceneRec),
      d.scenes.insertionSort scene_order = A ++ ra :: rb :: B ∧
      A.map scene_row = pre ∧ scene_row ra = a ∧ scene_row rb = b ∧
      B.map scene_row = post ∧
      A.Pairwise (fun a b => a.sort_order < b.sort_order) ∧
      B.Pairwise (fun a b => a.sort_order < b.sort_order) ∧
      (∀ x ∈ A, x.sort_order < ra.sort_order) ∧ ra.sort_order < rb.sort_order ∧
      (∀ x ∈ B, rb.sort_order < x.sort_order) ∧ ra ∈ d.scenes ∧ rb ∈ d.scenes := by
  simp only [list_scenes] at h
  obtain ⟨A, R, hL, hA, hR⟩ := List.map_eq_append_iff.1 h
  obtain ⟨ra, R1, hR1, hra, hR1m⟩ := List.map_eq_cons_iff.1 hR
  obtain ⟨rb, B, hR2, hrb, hBm⟩ := List.map_eq_cons_iff.1 hR1m
  subst hR1 hR2
  have hs := sorted_scenes_strict d.scenes hso
  have hperm := List.perm_insertionSort scene_order d.scenes
  rw [hL] at hs hperm
  rw [List.pairwise_append, List.pairwise_cons, List.pairwise_cons] at hs
  obtain ⟨hAs, ⟨hra1, hrb1, hBs⟩, hcross⟩ := hs
  refine ⟨A, B, ra, rb, hL, hA, hra, hrb, hBm, hAs, hBs, ?_, ?_, hrb1, ?_, ?_⟩
  · intro x hx
    exact hcross x hx ra (by simp)
  · exact hra1 rb (by simp)
  · exact hperm.mem_iff.1 (by simp)
  · exact hperm.mem_iff.1 (by simp)

/-! ## Lemmas on the accesses of the compositor -/

/-- A fold over the concatenation of the lists of a loop is the fold of the
folds. -/
theorem foldl_flatMap_eq {α β γ : Type} (f : γ → β → γ) (g : α → List β) (l : List α)
    (init : γ) :
    (l.flatMap g).foldl f init = l.foldl (fun acc a => (g a).foldl f acc) init := by
  induction l generalizing init with
  | nil => rfl
  | cons a l ih => simp [List.flatMap_cons, List.foldl_append, ih]

/-- The effect of `scale_rgba_to` is that of its byte copies, one after the
other. -/
theorem scale_rgba_to_eq_accesses (src : List Nat) (sw sh : Int) (dst : List Nat)
    (dw dh : Int) :
    scale_rgba_to src sw sh dst dw dh
      = (scale_accesses sw sh dw dh).foldl (fun b p => buf_set b p.1 (buf_get src p.2)) dst := by
  unfold scale_rgba_to scale_accesses
  simp only [foldl_flatMap_eq, List.foldl_cons, List.foldl_nil]

/-- Every byte copy of `scale_rgba_to` belongs to a pixel (x, y) of the
destination and a channel `c`. -/
theorem mem_scale_accesses (sw sh dw dh : Int) (p : Int × Int)
    (h : p ∈ scale_accesses sw sh dw dh) :
    ∃ (y x : Nat) (c : Int), y < dh.toNat ∧ x < dw.toNat ∧ 0 ≤ c ∧ c < 4 ∧
      p = (int32 (dst_index dw y x + c),
           int32 (src_index sw (src_coord sh dh y) (src_coord sw dw x) + c)) := by
  unfold scale_accesses at h
  simp only [List.mem_flatMap, List.mem_range, List.mem_cons, List.mem_singleton,
    List.not_mem_nil, or_false] at h
  obtain ⟨y, hy, x, hx, hp⟩ := h
  rcases hp with hp | hp | hp | hp
  · refine ⟨y, x, 0, hy, hx, by omega, by omega, ?_⟩
    rw [hp]
    simp only [dst_index, src_index, src_coord, int32_idem]
  · exact ⟨y, x, 1, hy, hx, by omega, by omega, by rw [hp]; rfl⟩
  · exact ⟨y, x, 2, hy, hx, by omega, by omega, by rw [hp]; rfl⟩
  · exact ⟨y, x, 3, hy, hx, by omega, by omega, by rw [hp]; rfl⟩

/-- The four byte indices of the pixels `b`, `b + 1`, ..., in order, are the
byte indices from `b * 4` on. -/
theorem quads_eq_range (b W : Nat) :
    (List.range W).flatMap (fun x => [(b + x) * 4, (b + x) * 4 + 1, (b + x) * 4 + 2,
        (b + x) * 4 + 3])
      = List.range' (b * 4) (W * 4) := by
  induction W with
  | zero => simp
  | succ W ih =>
    rw [List.range_succ, List.flatMap_append, ih]
    have e : (W + 1) * 4 = 4 + W * 4 := by ring
    rw [e, ← List.range'_append_1]
    have e2 : b * 4 + W * 4 = (b + W) * 4 := by ring
    rw [e2]
    simp [List.range']

/-- The byte indices of the pixels of the rows 0, 1, ..., in order, are the
byte indices from 0 on. -/
theorem rows_eq_range (H W : Nat) :
    (List.range H).flatMap (fun y => (List.range W).flatMap (fun x =>
        [(y * W + x) * 4, (y * W + x) * 4 + 1, (y * W + x) * 4 + 2, (y * W + x) * 4 + 3]))
      = List.range (H * W * 4) := by
  induction H with
  | zero => simp
  | succ H ih =>
    rw [List.range_succ, List.flatMap_append, ih]
    simp only [List.flatMap_cons, List.flatMap_nil, List.append_nil]
    rw [quads_eq_range, List.range_eq_range', List.range_eq_range']
    have e : (H + 1) * W * 4 = W * 4 + H * W * 4 := by ring
    have h := List.range'_append_1 0 (H * W * 4) (W * 4)
    simp only [Nat.zero_add] at h
    rw [e, ← h]

/-- The destination indices written by `scale_rgba_to`, in program order, are
0, 1, ..., `dw * dh * 4 - 1`, for a destination of at most 2^31 bytes. -/
theorem scale_accesses_fst (sw sh dw dh : Int) (hdw : 0 ≤ dw) (hdh : 0 ≤ dh)
    (hlim : dw * dh * 4 ≤ 2147483648) :
    (scale_accesses sw sh dw dh).map Prod.fst
      = (List.range (dw * dh * 4).toNat).map (fun i : Nat => (i : Int)) := by
  have hW : ((dw.toNat : Nat) : Int) = dw := Int.toNat_of_nonneg hdw
  have hH : ((dh.toNat : Nat) : Int) = dh := Int.toNat_of_nonneg hdh
  have hN : (dw * dh * 4).toNat = dh.toNat * dw.toNat * 4 := by
    have : dw * dh * 4 = ((dh.toNat * dw.toNat * 4 : Nat) : Int) := by
      push_cast
      rw [hW, hH]
      ring
    rw [this, Int.toNat_ofNat]
  rw [hN, ← rows_eq_range]
  unfold scale_accesses
  simp only [List.map_flatMap, List.map_cons, List.map_nil]
  apply List.flatMap_congr
  intro y hy
  apply List.flatMap_congr
  intro x hx
  rw [List.mem_range] at hy hx
  have hmul : ((y : Int) + 1) * dw ≤ dh * dw :=
    Int.mul_le_mul_of_nonneg_right (by omega) hdw
  have hexp : ((y : Int) + 1) * dw = (y : Int) * dw + dw := by ring
  have hcomm : dw * dh = dh * dw := Int.mul_comm _ _
  have hynn : 0 ≤ (y : Int) * dw := Int.mul_nonneg (by omega) hdw
  have hdi := dst_index_eq dw y x hdw (by omega)
  unfold dst_index at hdi
  rw [hdi, int32_eq (((y : Int) * dw + (x : Int)) * 4 + 1) (by omega) (by omega),
    int32_eq (((y : Int) * dw + (x : Int)) * 4 + 2) (by omega) (by omega),
    int32_eq (((y : Int) * dw + (x : Int)) * 4 + 3) (by omega) (by omega)]
  push_cast
  rw [hW]

/-! ## Frame resolution and used frame count: theorems -/

/-- C1: for a database whose layer ids are distinct (primary key), when some
layer of the scene covers the frame on its half-open interval
[start_frame, start_frame + frame_span), `get_image_at_frame` returns the image
path of a covering layer whose (start_frame, id) pair is greatest, and of every
such layer; when no layer covers the frame it returns the empty string. -/
theorem get_image_at_frame_greatest (d : Db) (scene_id frame : Int)
    (hpk : (d.layers.map (fun r => r.id)).Nodup) :
    ((∃ L ∈ list_layers (some d) scene_id,
        L.start_frame ≤ frame ∧ frame < L.start_frame + L.frame_span) →
      ∃ L ∈ list_layers (some d) scene_id,
        (L.start_frame ≤ frame ∧ frame < L.start_frame + L.frame_span) ∧
        (∀ M ∈ list_layers (some d) scene_id,
          M.start_frame ≤ frame ∧ frame < M.start_frame + M.frame_span →
          M.start_frame < L.start_frame ∨ (M.start_frame = L.start_frame ∧ M.id ≤ L.id)) ∧
        get_image_at_frame (some d) scene_id frame = L.image_path) ∧
    (∀ L ∈ list_layers (some d) scene_id,
      (L.start_frame ≤ frame ∧ frame < L.start_frame + L.frame_span) →
      (∀ M ∈ list_layers (some d) scene_id,
        M.start_frame ≤ frame ∧ frame < M.start_frame + M.frame_span →
        M.start_frame < L.start_frame ∨ (M.start_frame = L.start_frame ∧ M.id ≤ L.id)) →
      get_image_at_frame (some d) scene_id frame = L.image_path) ∧
    ((∀ L ∈ list_layers (some d) scene_id,
        ¬ (L.start_frame ≤ frame ∧ frame < L.start_frame + L.frame_span)) →
      get_image_at_frame (some d) scene_id frame = "") := by
  have hex : (∃ L ∈ list_layers (some d) scene_id, covers L frame = true) →
      ∃ L ∈ list_layers (some d) scene_id, covers L frame = true ∧
        (∀ M ∈ list_layers (some d) scene_id, covers M frame = true →
          order_by M.key L.key) ∧
        get_image_at_frame (some d) scene_id frame = L.image_path :=
    scan_greatest frame _ "" (list_layers_pairwise (some d) scene_id)
  refine ⟨?_, ?_, ?_⟩
  · rintro ⟨L, hL, hLc⟩
    obtain ⟨W, hW, hWc, hmax, hres⟩ := hex ⟨L, hL, (covers_iff L frame).2 hLc⟩
    exact ⟨W, hW, (covers_iff W frame).1 hWc,
      fun M hM hMc => hmax M hM ((covers_iff M frame).2 hMc), hres⟩
  · intro L hL hLc hLmax
    obtain ⟨W, hW, hWc, hmax, hres⟩ := hex ⟨L, hL, (covers_iff L frame).2 hLc⟩
    have h₁ : order_by L.key W.key := hmax L hL ((covers_iff L frame).2 hLc)
    have h₂ : order_by W.key L.key := hLmax W hW ((covers_iff W frame).1 hWc)
    have hkey : L.key = W.key := order_by_antisymm h₁ h₂
    have hid : L.id = W.id := congrArg Prod.snd hkey
    rw [hres, eq_of_id_eq (list_layers_nodup d scene_id hpk) hL hW hid]
  · intro hnone
    refine scan_none frame _ "" (fun L hL => ?_)
    have := hnone L hL
    rw [← covers_iff] at this
    simpa using this

/-- C2: when every layer of the scene has start_frame >= 0 and frame_span >= 1,
`get_scene_used_frame_count` is 0 for a scene without layers and otherwise the
greatest `start_frame + frame_span` among the scene's layers. -/
theorem used_frame_count_is_max (db : Option Db) (scene_id : Int)
    (h : ∀ L ∈ list_layers db scene_id, 0 ≤ L.start_frame ∧ 1 ≤ L.frame_span) :
    (list_layers db scene_id = [] → get_scene_used_frame_count db scene_id = 0) ∧
    (list_layers db scene_id ≠ [] →
      (∃ L ∈ list_layers db scene_id,
        get_scene_used_frame_count db scene_id = L.start_frame + L.frame_span) ∧
      ∀ L ∈ list_layers db scene_id,
        L.start_frame + L.frame_span ≤ get_scene_used_frame_count db scene_id) := by
  obtain ⟨_, h₂, h₃⟩ := used_scan (list_layers db scene_id) 0
  rw [← used_count_eq] at h₂ h₃
  refine ⟨fun he => by simp [get_scene_used_frame_count, he], fun hne => ⟨?_, h₂⟩⟩
  rcases h₃ with h0 | hex
  · obtain ⟨x, hx⟩ := List.exists_mem_of_ne_nil _ hne
    have hb := h x hx
    have hle := h₂ x hx
    rw [h0] at hle
    omega
  · exact hex

/-- Witness of C1 -/
theorem get_image_at_frame_greatest_witness :
    (db_overlap.layers.map (fun r => r.id)).Nodup ∧
      get_image_at_frame (some db_overlap) 1 7 = "B.png" :=
  ⟨by decide,
   (get_image_at_frame_greatest db_overlap 1 7 (by decide)).2.1
     ⟨2, "B.png", 5, 10⟩ (by decide) (by decide) (by decide)⟩

/-- Witness of C2 -/
theorem used_frame_count_is_max_witness :
    (∀ L ∈ list_layers (some db_overlap) 1, 0 ≤ L.start_frame ∧ 1 ≤ L.frame_span) ∧
      ∀ L ∈ list_layers (some db_overlap) 1,
        L.start_frame + L.frame_span ≤ get_scene_used_frame_count (some db_overlap) 1 :=
  ⟨by decide, ((used_frame_count_is_max (some db_overlap) 1 (by decide)).2 (by decide)).2⟩

/-! ## Export: theorems -/

/-- C3: for a project with at least one scene and a positive frame total, when
the temporary directory can be created and every frame write succeeds,
`render_project_to_video` calls `stbi_write_png` exactly total_frames times,
all successfully, under the frame indices 0, 1, ..., total_frames - 1 in this
order, total_frames being the sum of the used frame counts over `list_scenes`;
and frame `f` of a scene, `0 <= f < used_frames(scene)`, is written under the
index (sum of the used frame counts of the earlier scenes) + f from the image
`get_image_at_frame(scene, f)`. -/
theorem render_writes_every_frame (env : Env) (db : Option Db)
    (project_root output_path : String) (progress : Bool)
    (hroot : project_root.isEmpty = false) (hout : output_path.isEmpty = false)
    (hscenes : list_scenes db ≠ []) (htotal : 0 < total_frames db)
    (htmp : env.tmp ≠ TmpDir.blocked) (hall : ∀ k, env.write_ok k = true) :
    (writes (render_project_to_video env db project_root output_path progress).trace).length
        = (total_frames db).toNat ∧
      (writes (render_project_to_video env db project_root output_path progress).trace).map
          (fun w => w.1) = List.range (total_frames db).toNat ∧
      (∀ w ∈ writes (render_project_to_video env db project_root output_path progress).trace,
        w.2.2 = true) ∧
      (written_names (render_project_to_video env db project_root output_path progress).trace
        = (List.range (total_frames db).toNat).map frame_file_name) ∧
      ∀ (pre post : List SceneRow) (sc : SceneRow), list_scenes db = pre ++ sc :: post →
        ∀ f : Nat, (f : Int) < get_scene_used_frame_count db sc.id →
          (writes (render_project_to_video env db project_root output_path progress).trace)[
              ((scene_frame_counts db pre).sum).toNat + f]?
            = some (((scene_frame_counts db pre).sum).toNat + f,
                get_image_at_frame db sc.id f, true) := by
  rcases render_cases env db project_root output_path progress with
    ⟨hg, _⟩ | ⟨hb, _⟩ | ⟨_, _, hT, _, _, ht, _⟩
  · exfalso
    rcases hg with hg | hg | hg
    · cases db with
      | none => exact hscenes rfl
      | some d => simp [hroot, hout] at hg
    · exact hscenes hg
    · omega
  · exact absurd hb htmp
  · have hwr : writes (render_project_to_video env db project_root output_path progress).trace
        = writes (loop_state env db progress).trace := by
      rw [ht, trace_split, writes_append,
        (no_writes_of_not_loop _ (tail_not_loop progress _)).2, List.append_nil]
    obtain ⟨_, W, hW, hlen, hidx, hok⟩ := render_scenes_all_ok env db (total_frames db)
      progress hall ((list_scenes db).zip (scene_frame_counts db (list_scenes db)))
      { frame_idx := 0, written := [], calls := 0, entries := entries_before env.tmp
        trace := [Event.create_dir true] }
    rw [sum_toNat_counts] at hlen hidx
    have hW' : writes (loop_state env db progress).trace = W := by
      unfold loop_state; rw [hW]; simp [writes]
    have hrange : W.map (fun w => w.1) = List.range (total_frames db).toNat := by
      rw [hidx, List.range_eq_range']; rfl
    rw [written_names_eq_writes, hwr, hW']
    refine ⟨hlen, hrange, hok, ?_, ?_⟩
    · rw [List.filter_eq_self.2 hok, ← hrange, List.map_map]
      rfl
    · intro pre post sc hl f hf
      have hz : (list_scenes db).zip (scene_frame_counts db (list_scenes db))
          = pre.zip (scene_frame_counts db pre)
            ++ (sc, get_scene_used_frame_count db sc.id)
              :: post.zip (scene_frame_counts db post) := by
        unfold scene_frame_counts
        rw [zip_map_self, zip_map_self, zip_map_self, hl]
        simp
      have := render_scenes_at env db (total_frames db) progress hall
        (pre.zip (scene_frame_counts db pre)) (post.zip (scene_frame_counts db post))
        (sc, get_scene_used_frame_count db sc.id)
        { frame_idx := 0, written := [], calls := 0, entries := entries_before env.tmp
          trace := [Event.create_dir true] } f (by simp only; omega)
      rw [sum_toNat_counts, ← hz] at this
      rw [← hW']
      unfold loop_state
      simpa [writes] using this

/-- Witness of C3 : one scene with one layer covering [0,20) gives 20 frames,
and the frame of index 7 is taken from that layer's image. -/
theorem render_writes_every_frame_witness :
    (("/p".isEmpty = false ∧ "/p/out.mp4".isEmpty = false ∧
        list_scenes (some db_single) ≠ [] ∧ 0 < total_frames (some db_single) ∧
        env_ok.tmp ≠ TmpDir.blocked ∧ total_frames (some db_single) = 20) ∧
      list_scenes (some db_single) = [] ++ (⟨1, 1, "Scene 1"⟩ : SceneRow) :: [] ∧
      ((7 : Nat) : Int) < get_scene_used_frame_count (some db_single) 1) ∧
    (writes (render_project_to_video env_ok (some db_single) "/p" "/p/out.mp4" true).trace)[
        ((scene_frame_counts (some db_single) []).sum).toNat + 7]?
      = some (((scene_frame_counts (some db_single) []).sum).toNat + 7,
          get_image_at_frame (some db_single) 1 ((7 : Nat) : Int), true) :=
  ⟨by decide,
   (render_writes_every_frame env_ok (some db_single) "/p" "/p/out.mp4" true (by decide)
      (by decide) (by decide) (by decide) (by decide) (fun _ => rfl)).2.2.2.2
      [] [] ⟨1, 1, "Scene 1"⟩ (by decide) 7 (by decide)⟩

/-- C4, evaluated on the code: in a project of two scenes with one frame each,
when the first frame write fails, the export goes on to the second scene,
writes its frame under the index 0, calls the encoder and returns true. -/
theorem export_continues_after_failed_write :
    (render_project_to_video env_first_write_fails (some db_two_scenes) "/p" "/p/out.mp4"
        true).trace
      = [Event.create_dir true, Event.store 0 2, Event.write_png 0 "a.png" false,
          Event.store 0 2, Event.write_png 0 "b.png" true, Event.store_one,
          Event.run_encoder, Event.remove_file "frame_00000.png", Event.remove_dir] ∧
    (render_project_to_video env_first_write_fails (some db_two_scenes) "/p" "/p/out.mp4"
        true).ok = true := by
  decide

/-- C5: in every export whose trace contains the encoder call,
`render_project_to_video` returns true exactly when the value returned by
`std::system` for the encoder command is 0. -/
theorem render_ok_iff_encoder_zero (env : Env) (db : Option Db)
    (project_root output_path : String) (progress : Bool)
    (h : Event.run_encoder ∈
      (render_project_to_video env db project_root output_path progress).trace) :
    (render_project_to_video env db project_root output_path progress).ok = true ↔
      env.encoder_ret = 0 := by
  rcases render_cases env db project_root output_path progress with
    ⟨_, _, ht, _⟩ | ⟨_, _, ht, _⟩ | ⟨_, _, _, _, hok, _, _⟩
  · rw [ht] at h; simp at h
  · rw [ht] at h; simp at h
  · rw [hok]; simp

/-- Witness of C5 -/
theorem render_ok_iff_encoder_zero_witness :
    Event.run_encoder ∈
        (render_project_to_video env_ok (some db_two_scenes) "/p" "/p/out.mp4" true).trace ∧
      ((render_project_to_video env_ok (some db_two_scenes) "/p" "/p/out.mp4" true).ok = true ↔
        env_ok.encoder_ret = 0) :=
  ⟨by decide,
   render_ok_iff_encoder_zero env_ok (some db_two_scenes) "/p" "/p/out.mp4" true (by decide)⟩

/-- C6, as the code has it: in every export that got past the creation of the
temporary directory, the entries left in the directory on return are the
entries it held before the export that this export did not write, and the
directory is removed exactly when none is left; in particular a directory that
was absent or empty before the export is gone on return. -/
theorem cleanup_leaves_unwritten (env : Env) (db : Option Db)
    (project_root output_path : String) (progress : Bool)
    (h : Event.create_dir true ∈
      (render_project_to_video env db project_root output_path progress).trace) :
    (render_project_to_video env db project_root output_path progress).tmp
        = remove_dir ((entries_before env.tmp).filter (fun e => decide (e ∉ written_names
            (render_project_to_video env db project_root output_path progress).trace))) ∧
      (entries_before env.tmp = [] →
        (render_project_to_video env db project_root output_path progress).tmp
          = TmpDir.absent) := by
  rcases render_cases env db project_root output_path progress with
    ⟨_, _, ht, _⟩ | ⟨_, _, ht, _⟩ | ⟨_, _, hT, _, _, ht, htmp⟩
  · rw [ht] at h; simp at h
  · rw [ht] at h; simp at h
  · have hinv := loop_state_inv env db progress hT
    have hw : written_names
        (render_project_to_video env db project_root output_path progress).trace
          = (loop_state env db progress).written := by
      rw [ht, trace_split, written_names_append,
        (no_writes_of_not_loop _ (tail_not_loop progress _)).1, List.append_nil,
        ← hinv.written_eq]
    have key : (render_project_to_video env db project_root output_path progress).tmp
        = remove_dir ((entries_before env.tmp).filter (fun e => decide (e ∉ written_names
            (render_project_to_video env db project_root output_path progress).trace))) := by
      rw [htmp, hw, cleanup_entries_eq, hinv.entries_eq]
    refine ⟨key, fun he => ?_⟩
    rw [key, he]
    rfl

/-- Witness of C6 as amended -/
theorem cleanup_leaves_unwritten_witness :
    Event.create_dir true ∈
        (render_project_to_video env_ok (some db_two_scenes) "/p" "/p/out.mp4" true).trace ∧
      (render_project_to_video env_ok (some db_two_scenes) "/p" "/p/out.mp4" true).tmp
        = TmpDir.absent :=
  ⟨by decide,
   (cleanup_leaves_unwritten env_ok (some db_two_scenes) "/p" "/p/out.mp4" true
      (by decide)).2 rfl⟩

/-- Counterexample to C6: the export gets past the creation of the temporary
directory, which held a stale file, succeeds, and on return the directory is
still there with that file in it. -/
theorem stale_entry_survives :
    Event.create_dir true ∈
        (render_project_to_video env_stale_dir (some db_two_scenes) "/p" "/p/out.mp4"
          true).trace ∧
      (render_project_to_video env_stale_dir (some db_two_scenes) "/p" "/p/out.mp4"
          true).ok = true ∧
      (render_project_to_video env_stale_dir (some db_two_scenes) "/p" "/p/out.mp4"
          true).tmp = TmpDir.directory ["frame_00031.png"] := by
  decide

/-- C7: when the project has no scene, and when the used frame counts of its
scenes sum to 0, `render_project_to_video` returns false with an empty trace
(no directory creation, no frame write, no encoder call) and leaves the
temporary directory path as it was. -/
theorem render_fails_on_empty (env : Env) (db : Option Db)
    (project_root output_path : String) (progress : Bool)
    (h : list_scenes db = [] ∨ total_frames db = 0) :
    (render_project_to_video env db project_root output_path progress).ok = false ∧
      (render_project_to_video env db project_root output_path progress).trace = [] ∧
      (render_project_to_video env db project_root output_path progress).tmp = env.tmp := by
  rcases render_cases env db project_root output_path progress with
    ⟨_, hr⟩ | ⟨_, _, ht, _⟩ | ⟨_, hs, hT, _, _, _, _⟩
  · exact hr
  · exfalso
    have h₀ : ¬ ((db.isNone || project_root.isEmpty || output_path.isEmpty) = true) := by
      intro hg
      simp [render_project_to_video, hg] at ht
    rcases h with h | h
    · simp [render_project_to_video, h₀, h] at ht
    · have h' : (scene_frame_counts db (list_scenes db)).sum = 0 := h
      simp [render_project_to_video, h₀, h'] at ht
  · rcases h with h | h
    · exact absurd h hs
    · omega

/-- Witness of C7 -/
theorem render_fails_on_empty_witness :
    (list_scenes (some db_gap) ≠ [] ∧ total_frames (some db_gap) = 0) ∧
      (render_project_to_video env_ok (some db_gap) "/p" "/p/out.mp4" true).trace = [] :=
  ⟨by decide,
   (render_fails_on_empty env_ok (some db_gap) "/p" "/p/out.mp4" true
      (Or.inr (by decide))).2.1⟩

/-- Counterexample to C8: in an export of 2^24 + 1 frames the store of the
frame of index 2^24 is made inside the frame loop, and the value it writes, the
`float` quotient of 16777216 by 16777217, is 1. -/
theorem progress_reaches_one_in_loop :
    Event.store 16777216 16777217
      ∈ (render_project_to_video env_ok (some db_huge) "/p" "/p/out.mp4" true).trace ∧
    ((16777216 : Nat) : Int) < total_frames (some db_huge) ∧
    progress_value (Event.store 16777216 16777217) = some 1 := by
  refine ⟨?_, by decide, ?_⟩
  · have h := render_write_at env_ok (some db_huge) "/p" "/p/out.mp4" true (by decide)
      (by decide) (by decide) (by decide) (fun _ => rfl) [] [] ⟨1, 1, "Scene 1"⟩ (by decide)
      16777216 (by decide)
    have e₁ : ((scene_frame_counts (some db_huge) []).sum).toNat + 16777216 = 16777216 := by
      decide
    rw [e₁] at h
    have hm := List.mem_iff_getElem?.2 ⟨_, h⟩
    unfold writes at hm
    obtain ⟨e, he, hev⟩ := List.mem_filterMap.1 hm
    have ht : total_frames (some db_huge) = 16777217 := by decide
    cases e with
    | write_png i src ok =>
      simp only [Option.some.injEq, Prod.mk.injEq] at hev
      obtain ⟨rfl, -, -⟩ := hev
      have := store_before_write env_ok (some db_huge) "/p" "/p/out.mp4" 16777216 src ok he
      rw [ht] at this
      exact this
    | create_dir ok => simp at hev
    | store i t => simp at hev
    | store_one => simp at hev
    | run_encoder => simp at hev
    | remove_file n => simp at hev
    | remove_dir => simp at hev
  · simp only [progress_value]
    rw [progress_quotient_16777216]

/-- C8 (amended): in every export the values written to the progress sink form
a non-decreasing sequence; every store made inside the frame loop writes the
`float` quotient of `float(frame_idx)` by `float(total_frames)`, with
frame_idx < total_frames, a value in [0,1], and in [0,1) when total_frames is
at most 2^24 = 16777216; and when a sink is given and the frame loops are
reached, the store of 1.0 follows the loop events and no later event touches the
sink. -/
theorem progress_stores_monotone (env : Env) (db : Option Db)
    (project_root output_path : String) (progress : Bool) :
    (progress_values
        (render_project_to_video env db project_root output_path progress).trace).Pairwise
      (fun a b => a ≤ b) ∧
    (∀ i t, Event.store i t ∈
        (render_project_to_video env db project_root output_path progress).trace →
      t = total_frames db ∧ (i : Int) < total_frames db ∧
        progress_value (Event.store i t)
          = some (to_float (to_float (i : ℚ) / to_float (total_frames db : ℚ))) ∧
        0 ≤ progress_quotient i (total_frames db) ∧
        progress_quotient i (total_frames db) ≤ 1 ∧
        (total_frames db ≤ 16777216 → progress_quotient i (total_frames db) < 1)) ∧
    (progress = true →
      Event.create_dir true ∈
        (render_project_to_video env db project_root output_path progress).trace →
      ∃ loop rest,
        (render_project_to_video env db project_root output_path progress).trace
          = Event.create_dir true :: (loop ++ Event.store_one :: rest) ∧
        (∀ e ∈ loop, e.is_loop = true) ∧
        progress_values (Event.store_one :: rest) = [1] ∧
        ∀ e ∈ rest, e.is_loop = false ∧ progress_value e = none) := by
  rcases render_cases env db project_root output_path progress with
    ⟨_, _, ht, _⟩ | ⟨_, _, ht, _⟩ | ⟨_, _, hT, _, _, ht, _⟩
  · rw [ht]
    refine ⟨by simp [progress_values], fun i t h => by simp at h, fun _ h => by simp at h⟩
  · rw [ht]
    refine ⟨by simp [progress_values, progress_value], fun i t h => by simp at h,
      fun _ h => by simp at h⟩
  · have hinv := loop_state_inv env db progress hT
    have hTq : (0 : ℚ) < (total_frames db : ℚ) := by exact_mod_cast hT
    have hrest : ∀ e ∈ [Event.run_encoder]
        ++ cleanup_events (loop_state env db progress).written,
        e.is_loop = false ∧ progress_value e = none := by
      intro e he
      rcases List.mem_append.1 he with h | h
      · have : e = Event.run_encoder := by simpa using h
        subst this; exact ⟨rfl, rfl⟩
      · exact cleanup_events_not_loop _ e h
    have hrest_nil := progress_values_nil_of_none _ (fun e he => (hrest e he).2)
    rw [ht]
    refine ⟨?_, ?_, ?_⟩
    · cases progress with
      | false =>
        simp only [Bool.false_eq_true, if_false, List.append_assoc, progress_values_append,
          hrest_nil, List.append_nil]
        exact hinv.vals_sorted
      | true =>
        simp only [if_true, List.append_assoc, progress_values_append, hrest_nil,
          List.append_nil]
        rw [List.pairwise_append]
        refine ⟨hinv.vals_sorted, by simp [progress_values, progress_value], ?_⟩
        intro a ha b hb
        have hb1 : b = 1 := by simpa [progress_values, progress_value] using hb
        rw [hb1]
        exact (loop_values_le_one hT hinv a ha).2.1
    · intro i t hm
      have hm2 : Event.store i t ∈ (loop_state env db progress).trace := by
        rw [trace_split] at hm
        rcases List.mem_append.1 hm with h | h
        · exact h
        · have := tail_not_loop progress _ _ h
          simp [Event.is_loop] at this
      obtain ⟨rfl, hi⟩ := hinv.stores i t hm2
      have hi' : (i : Int) < total_frames db := by omega
      exact ⟨rfl, hi', rfl, progress_quotient_nonneg i _ hT,
        progress_quotient_le_one i _ hT (by omega),
        fun h24 => progress_quotient_lt_one i _ hi' h24⟩
    · intro hp _
      subst hp
      obtain ⟨evs, hevs, hl⟩ := hinv.shape
      refine ⟨evs, [Event.run_encoder]
        ++ cleanup_events (loop_state env db true).written, ?_, hl, ?_, hrest⟩
      · simp [hevs]
      · have : progress_values (Event.store_one :: ([Event.run_encoder]
            ++ cleanup_events (loop_state env db true).written))
            = progress_values [Event.store_one] ++ progress_values ([Event.run_encoder]
            ++ cleanup_events (loop_state env db true).written) := by
          rw [← progress_values_append]; rfl
        rw [this, hrest_nil]
        simp [progress_values, progress_value]

/-- Witness of C8 (amended) -/
theorem progress_stores_monotone_witness :
    (Event.store 1 2 ∈
        (render_project_to_video env_ok (some db_two_scenes) "/p" "/p/out.mp4" true).trace ∧
      Event.create_dir true ∈
        (render_project_to_video env_ok (some db_two_scenes) "/p" "/p/out.mp4" true).trace) ∧
    ((2 : Int) = total_frames (some db_two_scenes) ∧
      ((1 : Nat) : Int) < total_frames (some db_two_scenes) ∧
      progress_value (Event.store 1 2)
        = some (to_float (to_float ((1 : Nat) : ℚ)
            / to_float (total_frames (some db_two_scenes) : ℚ))) ∧
      0 ≤ progress_quotient 1 (total_frames (some db_two_scenes)) ∧
      progress_quotient 1 (total_frames (some db_two_scenes)) ≤ 1 ∧
      (total_frames (some db_two_scenes) ≤ 16777216 →
        progress_quotient 1 (total_frames (some db_two_scenes)) < 1)) :=
  ⟨by decide,
   (progress_stores_monotone env_ok (some db_two_scenes) "/p" "/p/out.mp4" true).2.1 1 2
     (by decide)⟩

/-! ## Scene reordering: theorems -/

/-- C9, as the code has it: for a scene table with a primary key and a target
scene of sort order `order`, whenever a scene of lower (resp. higher) sort order
exists, `move_scene_up` (resp. `move_scene_down`) picks a scene of the nearest
lower (resp. higher) sort order `n`, returns true, leaves the target with
`order - 1` (resp. `order + 1`) and the picked scene with `order`; the target
thus holds the picked scene's former sort order exactly when the two sort
orders differ by 1. -/
theorem move_scene_sets_orders (d : Db) (scene_id order : Int)
    (hpk : (d.scenes.map (fun r => r.id)).Nodup)
    (ho : scene_sort_order d scene_id = some order) :
    ((∃ r ∈ d.scenes, r.sort_order < order) →
      ∃ other_id n d',
        select_lower d order = some other_id ∧
        scene_sort_order d other_id = some n ∧ n < order ∧
        (∀ r ∈ d.scenes, r.sort_order < order → r.sort_order ≤ n) ∧
        move_scene_up (some d) scene_id = (true, some d') ∧
        scene_sort_order d' scene_id = some (order - 1) ∧
        scene_sort_order d' other_id = some order ∧
        (scene_sort_order d' scene_id = some n ↔ n = order - 1)) ∧
    ((∃ r ∈ d.scenes, r.sort_order > order) →
      ∃ other_id n d',
        select_higher d order = some other_id ∧
        scene_sort_order d other_id = some n ∧ n > order ∧
        (∀ r ∈ d.scenes, r.sort_order > order → n ≤ r.sort_order) ∧
        move_scene_down (some d) scene_id = (true, some d') ∧
        scene_sort_order d' scene_id = some (order + 1) ∧
        scene_sort_order d' other_id = some order ∧
        (scene_sort_order d' scene_id = some n ↔ n = order + 1)) := by
  constructor
  · intro hex
    obtain ⟨r0, hr0, hsel, hlt, hmax⟩ := select_lower_spec d order hex
    have hn := scene_sort_order_of_mem d hpk r0 hr0
    have hne : r0.id ≠ scene_id := by
      intro he
      rw [he, ho] at hn
      simp only [Option.some.injEq] at hn
      omega
    have h₁ : scene_sort_order (update_sort_orders d scene_id (order - 1) r0.id order)
        scene_id = some (order - 1) := by
      rw [scene_sort_order_update, ho]; simp
    refine ⟨r0.id, r0.sort_order, _, hsel, hn, hlt, hmax,
      move_scene_up_eq d scene_id order r0.id ho hsel, h₁, ?_, ?_⟩
    · rw [scene_sort_order_update, hn]; simp [hne]
    · rw [h₁]
      simp only [Option.some.injEq]
      exact eq_comm
  · intro hex
    obtain ⟨r0, hr0, hsel, hgt, hmin⟩ := select_higher_spec d order hex
    have hn := scene_sort_order_of_mem d hpk r0 hr0
    have hne : r0.id ≠ scene_id := by
      intro he
      rw [he, ho] at hn
      simp only [Option.some.injEq] at hn
      omega
    have h₁ : scene_sort_order (update_sort_orders d scene_id (order + 1) r0.id order)
        scene_id = some (order + 1) := by
      rw [scene_sort_order_update, ho]; simp
    refine ⟨r0.id, r0.sort_order, _, hsel, hn, hgt, hmin,
      move_scene_down_eq d scene_id order r0.id ho hsel, h₁, ?_, ?_⟩
    · rw [scene_sort_order_update, hn]; simp [hne]
    · rw [h₁]
      simp only [Option.some.injEq]
      exact eq_comm

/-- Witness of C9 as amended -/
theorem move_scene_sets_orders_witness :
    ((db_three.scenes.map (fun r => r.id)).Nodup ∧
      scene_sort_order db_three 2 = some 2 ∧
      (∃ r ∈ db_three.scenes, r.sort_order < 2)) ∧
    (move_scene_up (some db_three) 2).1 = true := by
  refine ⟨by decide, ?_⟩
  obtain ⟨_, _, _, _, _, _, _, hmove, _⟩ :=
    (move_scene_sets_orders db_three 2 2 (by decide) (by decide)).1 (by decide)
  rw [hmove]

/-- Counterexample to C9: with sort orders 1 and 3, moving up the scene of sort
order 3 picks the scene of sort order 1 and succeeds, the target then holds 2,
which is not the sort order 1 that the picked scene held. -/
theorem move_up_over_gap_is_no_swap :
    select_lower db_gap 3 = some 1 ∧
      scene_sort_order db_gap 1 = some 1 ∧
      scene_sort_order db_gap 3 = some 3 ∧
      move_scene_up (some db_gap) 3
        = (true, some { scenes := [⟨1, 1, 3, none⟩, ⟨3, 1, 2, none⟩], layers := [] }) ∧
      ((move_scene_up (some db_gap) 3).2.bind (fun d => scene_sort_order d 3)) ≠ some 1 := by
  decide

/-- C10, as the code has it: for a scene table with a primary key and pairwise
distinct sort orders, when the scene next to the target in the direction of the
first move holds the target's sort order minus 1 (resp. plus 1),
`move_scene_up` followed by `move_scene_down` on the same scene (resp.
`move_scene_down` followed by `move_scene_up`) both succeed and give the
original table back. -/
theorem move_there_and_back (d : Db) (scene_id order : Int)
    (hpk : (d.scenes.map (fun r => r.id)).Nodup)
    (hso : (d.scenes.map (fun r => r.sort_order)).Nodup)
    (ho : scene_sort_order d scene_id = some order) :
    ((∃ r ∈ d.scenes, r.sort_order = order - 1) →
      (move_scene_up (some d) scene_id).1 = true ∧
      move_scene_down (move_scene_up (some d) scene_id).2 scene_id = (true, some d)) ∧
    ((∃ r ∈ d.scenes, r.sort_order = order + 1) →
      (move_scene_down (some d) scene_id).1 = true ∧
      move_scene_up (move_scene_down (some d) scene_id).2 scene_id = (true, some d)) := by
  obtain ⟨rt, hrt, hrtid, hrto⟩ := mem_of_scene_sort_order d scene_id order ho
  have hinj : ∀ r ∈ d.scenes, ∀ r' ∈ d.scenes, r.sort_order = r'.sort_order → r = r' :=
    fun r hr r' hr' h => List.inj_on_of_nodup_map hso hr hr' h
  constructor
  · rintro ⟨rn, hrn, hrno⟩
    obtain ⟨r0, hr0, hsel, hlt, hmax⟩ := select_lower_spec d order ⟨rn, hrn, by omega⟩
    have hr0o : r0.sort_order = order - 1 := by
      have := hmax rn hrn (by omega); omega
    have hne : r0.id ≠ scene_id := by
      intro he
      have : r0 = rt := scene_eq_of_id_eq hpk hr0 hrt (he.trans hrtid.symm)
      rw [this] at hr0o; omega
    have hup := move_scene_up_eq d scene_id order r0.id ho hsel
    have ho1 : scene_sort_order (update_sort_orders d scene_id (order - 1) r0.id order)
        scene_id = some (order - 1) := by
      rw [scene_sort_order_update, ho]; simp
    obtain ⟨r0', hr0', hr0'id, hr0'o⟩ :=
      update_sort_orders_mem d scene_id (order - 1) r0.id order r0 hr0
    simp only [hne, if_false, if_true] at hr0'o
    obtain ⟨r1, hr1, hsel1, hgt1, hmin1⟩ :=
      select_higher_spec (update_sort_orders d scene_id (order - 1) r0.id order) (order - 1)
        ⟨r0', hr0', by omega⟩
    have hr1o : r1.sort_order = order := by
      have := hmin1 r0' hr0' (by omega); omega
    obtain ⟨r, hr, hrid, hro⟩ := mem_update_sort_orders d scene_id (order - 1) r0.id order r1 hr1
    have hr1id : r1.id = r0.id := by
      by_cases h₁ : r.id = scene_id
      · simp only [h₁, if_true] at hro; omega
      · by_cases h₂ : r.id = r0.id
        · rw [hrid, h₂]
        · simp only [h₁, h₂, if_false] at hro
          have : r = rt := hinj r hr rt hrt (by omega)
          exact absurd (this ▸ hrtid) h₁
    rw [hr1id] at hsel1
    have hdown := move_scene_down_eq _ scene_id (order - 1) r0.id ho1 hsel1
    rw [hup]
    refine ⟨rfl, ?_⟩
    simp only
    rw [hdown]
    have hback := update_round_trip d rt r0 hpk hrt hr0 (by rw [hrtid]; exact hne)
    rw [hrtid, hrto, hr0o] at hback
    rw [show order - 1 + 1 = order by omega, hback]
  · rintro ⟨rn, hrn, hrno⟩
    obtain ⟨r0, hr0, hsel, hgt, hmin⟩ := select_higher_spec d order ⟨rn, hrn, by omega⟩
    have hr0o : r0.sort_order = order + 1 := by
      have := hmin rn hrn (by omega); omega
    have hne : r0.id ≠ scene_id := by
      intro he
      have : r0 = rt := scene_eq_of_id_eq hpk hr0 hrt (he.trans hrtid.symm)
      rw [this] at hr0o; omega
    have hdown := move_scene_down_eq d scene_id order r0.id ho hsel
    have ho1 : scene_sort_order (update_sort_orders d scene_id (order + 1) r0.id order)
        scene_id = some (order + 1) := by
      rw [scene_sort_order_update, ho]; simp
    obtain ⟨r0', hr0', hr0'id, hr0'o⟩ :=
      update_sort_orders_mem d scene_id (order + 1) r0.id order r0 hr0
    simp only [hne, if_false, if_true] at hr0'o
    obtain ⟨r1, hr1, hsel1, hlt1, hmax1⟩ :=
      select_lower_spec (update_sort_orders d scene_id (order + 1) r0.id order) (order + 1)
        ⟨r0', hr0', by omega⟩
    have hr1o : r1.sort_order = order := by
      have := hmax1 r0' hr0' (by omega); omega
    obtain ⟨r, hr, hrid, hro⟩ := mem_update_sort_orders d scene_id (order + 1) r0.id order r1 hr1
    have hr1id : r1.id = r0.id := by
      by_cases h₁ : r.id = scene_id
      · simp only [h₁, if_true] at hro; omega
      · by_cases h₂ : r.id = r0.id
        · rw [hrid, h₂]
        · simp only [h₁, h₂, if_false] at hro
          have : r = rt := hinj r hr rt hrt (by omega)
          exact absurd (this ▸ hrtid) h₁
    rw [hr1id] at hsel1
    have hup := move_scene_up_eq _ scene_id (order + 1) r0.id ho1 hsel1
    rw [hdown]
    refine ⟨rfl, ?_⟩
    simp only
    rw [hup]
    have hback := update_round_trip d rt r0 hpk hrt hr0 (by rw [hrtid]; exact hne)
    rw [hrtid, hrto, hr0o] at hback
    rw [show order + 1 - 1 = order by omega, hback]

/-- Witness of C10 as amended -/
theorem move_there_and_back_witness :
    ((db_three.scenes.map (fun r => r.id)).Nodup ∧
      (db_three.scenes.map (fun r => r.sort_order)).Nodup ∧
      scene_sort_order db_three 2 = some 2 ∧
      (∃ r ∈ db_three.scenes, r.sort_order = 2 - 1)) ∧
    move_scene_down (move_scene_up (some db_three) 2).2 2 = (true, some db_three) :=
  ⟨by decide,
   ((move_there_and_back db_three 2 2 (by decide) (by decide) (by decide)).1
      (by decide)).2⟩

/-- Counterexample to C10: with sort orders 1 and 3, the scene of sort order 3
has a scene below it; moving it up and then down succeeds twice and leaves the
other scene with sort order 2 instead of 1. -/
theorem up_then_down_over_gap :
    (∃ r ∈ db_gap.scenes, r.sort_order < 3) ∧
      scene_sort_order db_gap 3 = some 3 ∧
      (move_scene_up (some db_gap) 3).1 = true ∧
      move_scene_down (move_scene_up (some db_gap) 3).2 3
        = (true, some { scenes := [⟨1, 1, 2, none⟩, ⟨3, 1, 3, none⟩], layers := [] }) ∧
      move_scene_down (move_scene_up (some db_gap) 3).2 3 ≠ (true, some db_gap) := by
  decide

/-- Equal sort orders defeat the round trip as well: with two scenes
of sort order 2 above a scene of sort order 1, moving one of them up and then
down leaves the other two scenes with exchanged sort orders. -/
theorem up_then_down_with_equal_orders :
    move_scene_down
        (move_scene_up (some { scenes := [⟨4, 1, 2, none⟩, ⟨1, 1, 1, none⟩, ⟨3, 1, 2, none⟩]
                               layers := [] }) 3).2 3
      = (true, some { scenes := [⟨4, 1, 1, none⟩, ⟨1, 1, 2, none⟩, ⟨3, 1, 2, none⟩]
                      layers := [] }) := by
  decide

/-- C11: `move_scene_up` on a scene for which no scene has a strictly lower
sort order, and `move_scene_down` on a scene for which no scene has a strictly
higher sort order, return false and leave the database, hence the sort order
of every scene, as it was. -/
theorem move_scene_fails_at_end (d : Db) (scene_id order : Int)
    (ho : scene_sort_order d scene_id = some order) :
    ((∀ r ∈ d.scenes, ¬ r.sort_order < order) →
      move_scene_up (some d) scene_id = (false, some d)) ∧
    ((∀ r ∈ d.scenes, ¬ r.sort_order > order) →
      move_scene_down (some d) scene_id = (false, some d)) := by
  constructor
  · intro h
    have hf : d.scenes.filter (fun r => decide (r.sort_order < order)) = [] := by
      rw [List.filter_eq_nil_iff]
      intro r hr
      simpa using h r hr
    simp [move_scene_up, ho, select_lower, hf]
  · intro h
    have hf : d.scenes.filter (fun r => decide (r.sort_order > order)) = [] := by
      rw [List.filter_eq_nil_iff]
      intro r hr
      simpa using h r hr
    simp [move_scene_down, ho, select_higher, hf]

/-- Witness of C11 -/
theorem move_scene_fails_at_end_witness :
    (scene_sort_order db_three 1 = some 1 ∧ ∀ r ∈ db_three.scenes, ¬ r.sort_order < 1) ∧
      move_scene_up (some db_three) 1 = (false, some db_three) :=
  ⟨by decide, (move_scene_fails_at_end db_three 1 1 (by decide)).1 (by decide)⟩

/-! ## Layer commands and editing steps: theorems -/

/-- C12: `add_layer_at_frame` with a negative frame or a span below 1,
`update_layer_start_frame` with a negative start frame and `update_layer_span`
with a span below 1 return false and leave the database as it was. -/
theorem layer_guards_reject (db : Option Db) (scene_id layer_id v frame_span : Int)
    (image_path : String) :
    ((v < 0 ∨ frame_span < 1) →
      add_layer_at_frame db scene_id v image_path frame_span = (false, db)) ∧
    (v < 0 → update_layer_start_frame db layer_id v = (false, db)) ∧
    (frame_span < 1 → update_layer_span db layer_id frame_span = (false, db)) := by
  cases db with
  | none => exact ⟨fun _ => rfl, fun _ => rfl, fun _ => rfl⟩
  | some d =>
    refine ⟨fun h => ?_, fun h => ?_, fun h => ?_⟩
    · simp [add_layer_at_frame, h]
    · simp [update_layer_start_frame, h]
    · simp [update_layer_span, h]

/-- Witness of C12 -/
theorem layer_guards_reject_witness :
    ((-1 : Int) < 0 ∧ (0 : Int) < 1) ∧
      add_layer_at_frame (some db_overlap) 1 (-1) "x.png" 0 = (false, some db_overlap) ∧
      update_layer_start_frame (some db_overlap) 2 (-1) = (false, some db_overlap) ∧
      update_layer_span (some db_overlap) 2 0 = (false, some db_overlap) :=
  ⟨by decide,
   (layer_guards_reject (some db_overlap) 1 2 (-1) 0 "x.png").1 (Or.inl (by decide)),
   (layer_guards_reject (some db_overlap) 1 2 (-1) 0 "x.png").2.1 (by decide),
   (layer_guards_reject (some db_overlap) 1 2 (-1) 0 "x.png").2.2 (by decide)⟩

/-- C13: for a layer of the scene with start_frame >= 0 and frame_span >= 1
and every mouse frame, the resize from the left stores a start
`new_start = max(0, min(frame, end - 1))` and a span `new_span` for the layer
with new_start + new_span = start_frame + frame_span, new_start >= 0 and
new_span >= 1; the same values go to the live statics. -/
theorem resize_left_keeps_end (d : Db) (scene_id live_start live_span : Int) (L : LayerRow)
    (frame : Int) (hL : L ∈ list_layers (some d) scene_id)
    (h0 : 0 ≤ L.start_frame) (h1 : 1 ≤ L.frame_span) :
    ∃ new_start new_span : Int,
      new_start = max 0 (min frame (L.start_frame + L.frame_span - 1)) ∧
      new_start + new_span = L.start_frame + L.frame_span ∧
      0 ≤ new_start ∧ 1 ≤ new_span ∧
      (resize_left ⟨live_start, live_span, some d⟩ L frame).live_start = new_start ∧
      (resize_left ⟨live_start, live_span, some d⟩ L frame).live_span = new_span ∧
      (∃ M ∈ list_layers (resize_left ⟨live_start, live_span, some d⟩ L frame).db scene_id,
        M.id = L.id ∧ M.image_path = L.image_path ∧
        M.start_frame = new_start ∧ M.frame_span = new_span) ∧
      ∀ M ∈ list_layers (resize_left ⟨live_start, live_span, some d⟩ L frame).db scene_id,
        M.id = L.id → M.start_frame = new_start ∧ M.frame_span = new_span := by
  have hspan : ¬ (L.start_frame + L.frame_span
      - max 0 (min frame (L.start_frame + L.frame_span - 1)) < 1) := by omega
  refine ⟨max 0 (min frame (L.start_frame + L.frame_span - 1)),
    L.start_frame + L.frame_span - max 0 (min frame (L.start_frame + L.frame_span - 1)),
    rfl, by omega, by omega, by omega, ?_⟩
  rw [resize_left_db d live_start live_span L frame h0 h1]
  refine ⟨rfl, rfl, ?_, ?_⟩
  · obtain ⟨r, hr, hs, hrow⟩ := mem_list_layers.1 hL
    refine ⟨_, (mem_list_layers_map d _ (fun r => by split_ifs <;> rfl) scene_id _).2
      ⟨r, hr, hs, rfl⟩, ?_⟩
    have hid : r.id = L.id := by rw [← hrow]; rfl
    have hp : r.image_path = L.image_path := by rw [← hrow]; rfl
    simp [layer_row, hid, hp, hspan]
  · intro M hM hMid
    obtain ⟨r, _, _, hrow⟩ :=
      (mem_list_layers_map d _ (fun r => by split_ifs <;> rfl) scene_id M).1 hM
    by_cases hid : r.id = L.id
    · rw [← hrow]
      simp [layer_row, hid, hspan]
    · exfalso
      apply hid
      rw [← hMid, ← hrow]
      simp [layer_row, hid]

/-- Witness of C13 : the layer B = [5,15) dragged by its left edge to frame 7
keeps its end frame 15. -/
theorem resize_left_keeps_end_witness :
    ((⟨2, "B.png", 5, 10⟩ : LayerRow) ∈ list_layers (some db_overlap) 1 ∧
      (0 : Int) ≤ 5 ∧ (1 : Int) ≤ 10) ∧
    (resize_left ⟨0, 1, some db_overlap⟩ ⟨2, "B.png", 5, 10⟩ 7).live_start
      + (resize_left ⟨0, 1, some db_overlap⟩ ⟨2, "B.png", 5, 10⟩ 7).live_span
      = (5 : Int) + 10 := by
  refine ⟨by decide, ?_⟩
  obtain ⟨_, _, _, hsum, _, _, hls, hlsp, _⟩ :=
    resize_left_keeps_end db_overlap 1 0 1 ⟨2, "B.png", 5, 10⟩ 7 (by decide) (by decide)
      (by decide)
  rw [hls, hlsp]
  exact hsum

/-- C14: for every layer of the scene, every frame total of the movie and every
mouse frame, the resize from the right either stores nothing, or stores for the
layer the span `max(1, frame - start_frame)`, which is >= 1 and for which
start_frame + span does not exceed the frame total; in both cases the start
frame of every stored layer is left as it was. -/
theorem resize_right_within_movie (d : Db) (scene_id live_start live_span : Int)
    (L : LayerRow) (total_frames frame : Int)
    (hpk : (d.layers.map (fun r => r.id)).Nodup)
    (hL : L ∈ list_layers (some d) scene_id) :
    (¬ (max 1 (frame - L.start_frame) ≤ total_frames - L.start_frame) →
      (resize_right ⟨live_start, live_span, some d⟩ L total_frames frame).db = some d) ∧
    (max 1 (frame - L.start_frame) ≤ total_frames - L.start_frame →
      ∀ M ∈ list_layers
          (resize_right ⟨live_start, live_span, some d⟩ L total_frames frame).db scene_id,
        M.id = L.id →
          M.start_frame = L.start_frame ∧
          M.frame_span = max 1 (frame - L.start_frame) ∧
          1 ≤ M.frame_span ∧ M.start_frame + M.frame_span ≤ total_frames) ∧
    (resize_right ⟨live_start, live_span, some d⟩ L total_frames frame).db.map
        (fun d' => d'.layers.map (fun r => (r.id, r.sort_order)))
      = some (d.layers.map (fun r => (r.id, r.sort_order))) := by
  have hspan : ¬ (max 1 (frame - L.start_frame) < 1) := by omega
  refine ⟨fun h => by simp [resize_right, h], fun h => ?_, ?_⟩
  · intro M hM hMid
    simp only [resize_right, h, if_true, update_layer_span, hspan, if_false] at hM
    obtain ⟨r, hr, hs, hrow⟩ :=
      (mem_list_layers_map d _ (fun r => by split_ifs <;> rfl) scene_id M).1 hM
    obtain ⟨r0, hr0, _, hrow0⟩ := mem_list_layers.1 hL
    have hrid : r.id = L.id := by
      rw [← hMid, ← hrow]
      split_ifs <;> rfl
    have hr0id : r0.id = L.id := by rw [← hrow0]; rfl
    have hrr : r = r0 := List.inj_on_of_nodup_map hpk hr hr0 (hrid.trans hr0id.symm)
    have hstart : M.start_frame = L.start_frame := by
      rw [← hrow, ← hrow0, hrr]
      split_ifs <;> rfl
    have hsp : M.frame_span = max 1 (frame - L.start_frame) := by
      rw [← hrow]
      simp [layer_row, hrid, hspan]
    refine ⟨hstart, hsp, by omega, by omega⟩
  · by_cases h : max 1 (frame - L.start_frame) ≤ total_frames - L.start_frame
    · simp only [resize_right, h, if_true, update_layer_span, hspan, if_false,
        Option.map_some', List.map_map, Option.some.injEq]
      apply List.map_congr_left
      intro r _
      simp only [Function.comp]
      split_ifs <;> rfl
    · simp [resize_right, h]

/-- Witness of C14 : in a movie of 12 frames the layer B = [5,15), dragged by
its right edge to the mouse frame given by `frame_from_mouse` for 9, is stored
with span 4. -/
theorem resize_right_within_movie_witness :
    ((db_overlap.layers.map (fun r => r.id)).Nodup ∧
      (⟨2, "B.png", 5, 10⟩ : LayerRow) ∈ list_layers (some db_overlap) 1 ∧
      max 1 (frame_from_mouse 12 9 - 5) ≤ (12 : Int) - 5 ∧
      (⟨2, "B.png", 5, 4⟩ : LayerRow) ∈ list_layers
        (resize_right ⟨0, 1, some db_overlap⟩ ⟨2, "B.png", 5, 10⟩ 12
          (frame_from_mouse 12 9)).db 1) ∧
    ((5 : Int) = 5 ∧ (4 : Int) = max 1 (frame_from_mouse 12 9 - 5) ∧
      (1 : Int) ≤ 4 ∧ (5 : Int) + 4 ≤ 12) :=
  ⟨by decide,
   (resize_right_within_movie db_overlap 1 0 1 ⟨2, "B.png", 5, 10⟩ 12 (frame_from_mouse 12 9)
      (by decide) (by decide)).2.1 (by decide) ⟨2, "B.png", 5, 4⟩ (by decide) rfl⟩

/-- C15: with a non-empty clipboard path, a clipboard span >= 1 and a selected
layer of the scene with start_frame >= 0, paste inserts into the scene one new
layer carrying the clipboard's path and span at the start frame
selected.start_frame + selected.frame_span when that frame is below the frame
total of the movie, and leaves the database as it was when that frame is at or
beyond the frame total. -/
theorem paste_after_selected (d : Db) (scene_id selected_layer_id total_frames : Int)
    (clipboard_path : String) (clipboard_frame_span : Int) (sel : LayerRow)
    (hpk : (d.layers.map (fun r => r.id)).Nodup)
    (hsel : sel ∈ list_layers (some d) scene_id) (hid : sel.id = selected_layer_id)
    (hclip : clipboard_path.isEmpty = false) (hspan : 1 ≤ clipboard_frame_span)
    (h0 : 0 ≤ sel.start_frame) :
    (sel.start_frame + sel.frame_span < total_frames →
      paste (some d) scene_id selected_layer_id total_frames clipboard_path
          clipboard_frame_span
        = some { d with layers := d.layers ++
            [{ id := next_layer_id d, scene_id := scene_id, image_path := clipboard_path
               sort_order := sel.start_frame + sel.frame_span
               frame_span := some clipboard_frame_span }] } ∧
      (⟨next_layer_id d, clipboard_path, sel.start_frame + sel.frame_span,
          clipboard_frame_span⟩ : LayerRow) ∈
        list_layers (paste (some d) scene_id selected_layer_id total_frames clipboard_path
          clipboard_frame_span) scene_id) ∧
    (total_frames ≤ sel.start_frame + sel.frame_span →
      paste (some d) scene_id selected_layer_id total_frames clipboard_path
          clipboard_frame_span = some d) := by
  have hfind : (list_layers (some d) scene_id).find?
      (fun L => decide (L.id = selected_layer_id)) = some sel := by
    rw [← hid]
    exact find_layer_by_id _ (list_layers_nodup d scene_id hpk) sel hsel
  have hs1 := list_layers_span_pos (some d) scene_id sel hsel
  constructor
  · intro hlt
    have hg : ¬ (sel.start_frame + sel.frame_span < 0 ∨ clipboard_frame_span < 1) := by omega
    have heq : paste (some d) scene_id selected_layer_id total_frames clipboard_path
          clipboard_frame_span
        = some { d with layers := d.layers ++
            [{ id := next_layer_id d, scene_id := scene_id, image_path := clipboard_path
               sort_order := sel.start_frame + sel.frame_span
               frame_span := some clipboard_frame_span }] } := by
      simp only [paste, hclip, hfind, hlt, if_true, add_layer_at_frame, hg, if_false,
        Bool.false_eq_true]
    refine ⟨heq, ?_⟩
    rw [heq, mem_list_layers_append]
    right
    refine ⟨rfl, ?_⟩
    have : ¬ clipboard_frame_span < 1 := by omega
    simp [layer_row, this]
  · intro hge
    have hlt : ¬ (sel.start_frame + sel.frame_span < total_frames) := by omega
    simp only [paste, hclip, hfind, hlt, if_false, Bool.false_eq_true]

/-- Witness of C15 : with the layer B = [5,15) selected and a clipboard
("x.png", 4), paste adds a layer of "x.png" over [15,19) in a movie of 100
frames and nothing in a movie of 15 frames. -/
theorem paste_after_selected_witness :
    ((db_overlap.layers.map (fun r => r.id)).Nodup ∧
      (⟨2, "B.png", 5, 10⟩ : LayerRow) ∈ list_layers (some db_overlap) 1 ∧
      "x.png".isEmpty = false ∧ (1 : Int) ≤ 4 ∧ (0 : Int) ≤ 5 ∧
      (5 : Int) + 10 < 100 ∧ (15 : Int) ≤ 5 + 10) ∧
    (⟨3, "x.png", 15, 4⟩ : LayerRow) ∈
        list_layers (paste (some db_overlap) 1 2 100 "x.png" 4) 1 ∧
    paste (some db_overlap) 1 2 15 "x.png" 4 = some db_overlap :=
  ⟨by decide,
   ((paste_after_selected db_overlap 1 2 100 "x.png" 4 ⟨2, "B.png", 5, 10⟩ (by decide)
      (by decide) rfl (by decide) (by decide) (by decide)).1 (by decide)).2,
   (paste_after_selected db_overlap 1 2 15 "x.png" 4 ⟨2, "B.png", 5, 10⟩ (by decide)
      (by decide) rfl (by decide) (by decide) (by decide)).2 (by decide)⟩

/-- C19: an `add_layer_at_frame` that returns true does not decrease
`get_scene_used_frame_count` of any scene, the scene it adds to included, and
`delete_layer` does not increase it. -/
theorem used_frames_monotone (d : Db) (scene_id frame_index frame_span layer_id : Int)
    (image_path : String) :
    ((add_layer_at_frame (some d) scene_id frame_index image_path frame_span).1 = true →
      ∀ s, get_scene_used_frame_count (some d) s ≤ get_scene_used_frame_count
        (add_layer_at_frame (some d) scene_id frame_index image_path frame_span).2 s) ∧
    ((delete_layer (some d) layer_id).1 = true ∧
      ∀ s, get_scene_used_frame_count (delete_layer (some d) layer_id).2 s
        ≤ get_scene_used_frame_count (some d) s) := by
  constructor
  · intro hok s
    by_cases hg : frame_index < 0 ∨ frame_span < 1
    · simp [add_layer_at_frame, hg] at hok
    · simp only [add_layer_at_frame, hg, if_false]
      rw [used_count_eq, used_count_eq]
      apply used_fold_mono
      intro L hL
      exact (mem_list_layers_append d _ s L).2 (Or.inl hL)
  · refine ⟨rfl, fun s => ?_⟩
    simp only [delete_layer]
    rw [used_count_eq, used_count_eq]
    apply used_fold_mono
    intro L hL
    obtain ⟨r, hr, hs, hrow⟩ := mem_list_layers.1 hL
    exact mem_list_layers.2 ⟨r, (List.mem_filter.1 hr).1, hs, hrow⟩

/-- Witness of C19 : adding a layer over [20,25) raises the used frame count of
the scene from 15 to 25, deleting layer B lowers it to 10. -/
theorem used_frames_monotone_witness :
    ((add_layer_at_frame (some db_overlap) 1 20 "x.png" 5).1 = true ∧
      get_scene_used_frame_count (some db_overlap) 1 = 15 ∧
      get_scene_used_frame_count (add_layer_at_frame (some db_overlap) 1 20 "x.png" 5).2 1
        = 25 ∧
      get_scene_used_frame_count (delete_layer (some db_overlap) 2).2 1 = 10) ∧
    get_scene_used_frame_count (some db_overlap) 1 ≤ get_scene_used_frame_count
      (add_layer_at_frame (some db_overlap) 1 20 "x.png" 5).2 1 :=
  ⟨by decide, (used_frames_monotone db_overlap 1 20 5 2 "x.png").1 (by decide) 1⟩

/-! ## Media rename: theorems -/

/-- Counterexample to C20: the file is renamed and the statement
`UPDATE media` runs, then the statement `UPDATE layers` fails; `rename_media`
returns false, with the media row holding the new path and the two layers still
holding the old one. -/
theorem rename_media_partial_update :
    (rename_media fs_media true true false (some db_media) "/p" "media/a.png" "c.png").ok
      = false ∧
    (rename_media fs_media true true false (some db_media) "/p" "media/a.png" "c.png").db
      = some { scenes := [⟨1, 1, 1, none⟩]
               layers := [⟨1, 1, "media/a.png", 0, some 5⟩, ⟨2, 1, "media/b.png", 5, some 5⟩,
                          ⟨3, 1, "media/a.png", 10, some 5⟩]
               media := [⟨1, "media/c.png"⟩, ⟨2, "media/b.png"⟩] } ∧
    (rename_media fs_media true true false (some db_media) "/p" "media/a.png" "c.png").db
      ≠ some db_media ∧
    (rename_media fs_media true true false (some db_media) "/p" "media/a.png" "c.png").fs
      ≠ fs_media := by
  decide

/-- C20 (amended): the outcomes of `rename_media`.  When it returns true, the
`path` of every media row and the `image_path` of every layer that held the old
relative path hold the new one, all other rows being as they were.  When an
argument check fails, or the old file is missing, the new name exists already or
`fs::rename` fails, it returns false and the database and the files are as they
were.  When the file has been renamed and the statement `UPDATE media` fails,
it returns false with the file renamed and the database as it was; when that
statement runs and the statement `UPDATE layers` fails, it returns false with
the file renamed, the media rows updated and the layers as they were.  When
nothing fails it returns true. -/
theorem rename_media_outcomes (fs : MediaFs)
    (rename_ok update_media_ok update_layers_ok : Bool) (d : Db)
    (project_root old_rel_path new_filename : String) :
    ((rename_media fs rename_ok update_media_ok update_layers_ok (some d) project_root
        old_rel_path new_filename).ok = true →
      (rename_media fs rename_ok update_media_ok update_layers_ok (some d) project_root
        old_rel_path new_filename).db
        = some { d with
            media := d.media.map (fun m =>
              if m.path = old_rel_path then { m with path := "media/" ++ new_filename }
              else m)
            layers := d.layers.map (fun r =>
              if r.image_path = old_rel_path then
                { r with image_path := "media/" ++ new_filename }
              else r) }) ∧
    (((project_root.isEmpty || old_rel_path.isEmpty || new_filename.isEmpty) = true ∨
        "media/".toList.isPrefixOf old_rel_path.toList = false ∨
        ("media/" ++ new_filename ≠ old_rel_path ∧
          (old_rel_path ∉ fs.files ∨ "media/" ++ new_filename ∈ fs.files ∨
            "media/" ++ new_filename ∈ fs.others ∨ rename_ok = false))) →
      (rename_media fs rename_ok update_media_ok update_layers_ok (some d) project_root
        old_rel_path new_filename).ok = false ∧
      (rename_media fs rename_ok update_media_ok update_layers_ok (some d) project_root
        old_rel_path new_filename).db = some d ∧
      (rename_media fs rename_ok update_media_ok update_layers_ok (some d) project_root
        old_rel_path new_filename).fs = fs) ∧
    ((project_root.isEmpty || old_rel_path.isEmpty || new_filename.isEmpty) = false →
      "media/".toList.isPrefixOf old_rel_path.toList = true →
      "media/" ++ new_filename ≠ old_rel_path →
      old_rel_path ∈ fs.files → "media/" ++ new_filename ∉ fs.files →
      "media/" ++ new_filename ∉ fs.others → rename_ok = true →
      (rename_media fs rename_ok update_media_ok update_layers_ok (some d) project_root
          old_rel_path new_filename).fs
        = { fs with files := fs.files.map (fun p =>
              if p = old_rel_path then "media/" ++ new_filename else p) } ∧
      (update_media_ok = false →
        (rename_media fs rename_ok update_media_ok update_layers_ok (some d) project_root
          old_rel_path new_filename).ok = false ∧
        (rename_media fs rename_ok update_media_ok update_layers_ok (some d) project_root
          old_rel_path new_filename).db = some d) ∧
      (update_media_ok = true → update_layers_ok = false →
        (rename_media fs rename_ok update_media_ok update_layers_ok (some d) project_root
          old_rel_path new_filename).ok = false ∧
        (rename_media fs rename_ok update_media_ok update_layers_ok (some d) project_root
          old_rel_path new_filename).db
          = some { d with
              media := d.media.map (fun m =>
                if m.path = old_rel_path then { m with path := "media/" ++ new_filename }
                else m) }) ∧
      (update_media_ok = true → update_layers_ok = true →
        (rename_media fs rename_ok update_media_ok update_layers_ok (some d) project_root
          old_rel_path new_filename).ok = true)) := by
  have hid : (some { d with
        media := d.media.map (fun m =>
          if m.path = old_rel_path then { m with path := old_rel_path } else m)
        layers := d.layers.map (fun r =>
          if r.image_path = old_rel_path then { r with image_path := old_rel_path }
          else r) } : Option Db) = some d := by
    have h₁ : d.media.map (fun m =>
        if m.path = old_rel_path then { m with path := old_rel_path } else m) = d.media := by
      conv_rhs => rw [← List.map_id d.media]
      apply List.map_congr_left
      intro m _
      by_cases h : m.path = old_rel_path
      · cases m; simp_all
      · simp [h]
    have h₂ : d.layers.map (fun r =>
        if r.image_path = old_rel_path then { r with image_path := old_rel_path }
        else r) = d.layers := by
      conv_rhs => rw [← List.map_id d.layers]
      apply List.map_congr_left
      intro r _
      by_cases h : r.image_path = old_rel_path
      · cases r; simp_all
      · simp [h]
    rw [h₁, h₂]
  by_cases hg : (project_root.isEmpty || old_rel_path.isEmpty || new_filename.isEmpty) = true
  · refine ⟨fun h => ?_, fun _ => ?_, fun hg' => ?_⟩
    · simp [rename_media, hg] at h
    · simp [rename_media, hg]
    · rw [hg] at hg'; exact absurd hg' (by decide)
  · by_cases hp0 : "media/".toList.isPrefixOf old_rel_path.toList = true
    · have hp := hp0
      simp at hp
      by_cases he : "media/" ++ new_filename = old_rel_path
      · refine ⟨fun _ => ?_, fun h => ?_, fun _ _ hne => absurd he hne⟩
        · rw [he, hid]
          simp [rename_media, hg, hp, he]
        · rcases h with h | h | h
          · exact absurd h hg
          · rw [hp0] at h; exact absurd h (by decide)
          · exact absurd he h.1
      · by_cases h₁ : old_rel_path ∈ fs.files
        · by_cases h₂ : "media/" ++ new_filename ∈ fs.files ∨
              "media/" ++ new_filename ∈ fs.others
          · refine ⟨fun h => ?_, fun _ => ?_, fun _ _ _ _ h3 h4 => ?_⟩
            · simp [rename_media, hg, hp, he, h₁, h₂] at h
            · simp [rename_media, hg, hp, he, h₁, h₂]
            · rcases h₂ with h₂ | h₂
              · exact absurd h₂ h3
              · exact absurd h₂ h4
          · cases rename_ok with
            | false =>
              refine ⟨fun h => ?_, fun _ => ?_, fun _ _ _ _ _ _ h5 => ?_⟩
              · simp [rename_media, hg, hp, he, h₁, h₂] at h
              · simp [rename_media, hg, hp, he, h₁, h₂]
              · exact absurd h5 (by decide)
            | true =>
              refine ⟨fun h => ?_, fun hx => ?_, fun _ _ _ _ _ _ _ => ?_⟩
              · cases update_media_ok <;> cases update_layers_ok <;>
                  simp [rename_media, hg, hp, he, h₁, h₂] at h ⊢
              · rcases hx with hx | hx | hx
                · exact absurd hx hg
                · rw [hp0] at hx; exact absurd hx (by decide)
                · rcases hx.2 with hx | hx | hx | hx
                  · exact absurd h₁ hx
                  · exact absurd (Or.inl hx) h₂
                  · exact absurd (Or.inr hx) h₂
                  · exact absurd hx (by decide)
              · cases update_media_ok <;> cases update_layers_ok <;>
                  simp [rename_media, hg, hp, he, h₁, h₂]
        · refine ⟨fun h => ?_, fun _ => ?_, fun _ _ _ h2 => absurd h2 h₁⟩
          · simp [rename_media, hg, hp, he, h₁] at h
          · simp [rename_media, hg, hp, he, h₁]
    · have hp := hp0
      simp at hp
      refine ⟨fun h => ?_, fun _ => ?_, fun _ hq => absurd hq hp0⟩
      · simp [rename_media, hg, hp] at h
      · simp [rename_media, hg, hp]

/-- Witness of C20 (amended) : renaming `media/a.png`, referenced by two
layers, to `c.png` updates both layers and the media row; renaming it to the
existing `b.png` is refused and changes nothing. -/
theorem rename_media_outcomes_witness :
    ((rename_media fs_media true true true (some db_media) "/p" "media/a.png" "c.png").ok
        = true ∧
      "media/" ++ "b.png" ≠ "media/a.png" ∧ "media/" ++ "b.png" ∈ fs_media.files) ∧
    (rename_media fs_media true true true (some db_media) "/p" "media/a.png" "c.png").db
      = some { scenes := [⟨1, 1, 1, none⟩]
               layers := [⟨1, 1, "media/c.png", 0, some 5⟩, ⟨2, 1, "media/b.png", 5, some 5⟩,
                          ⟨3, 1, "media/c.png", 10, some 5⟩]
               media := [⟨1, "media/c.png"⟩, ⟨2, "media/b.png"⟩] } ∧
    ((rename_media fs_media true true true (some db_media) "/p" "media/a.png" "b.png").ok
        = false ∧
      (rename_media fs_media true true true (some db_media) "/p" "media/a.png" "b.png").db
        = some db_media ∧
      (rename_media fs_media true true true (some db_media) "/p" "media/a.png" "b.png").fs
        = fs_media) :=
  ⟨by decide,
   ((rename_media_outcomes fs_media true true true db_media "/p" "media/a.png" "c.png").1
      (by decide)).trans (by decide),
   (rename_media_outcomes fs_media true true true db_media "/p" "media/a.png" "b.png").2.1
      (Or.inr (Or.inr ⟨by decide, Or.inr (Or.inl (by decide))⟩))⟩

/-! ## Compositor and frame buffer: theorems -/

/-- In the range of `int`: for a source of `sw` by `sh` pixels and a
destination of `dw` by `dh` pixels, all at least 1, with buffers of at most 2^31
bytes and products `(dw - 1) * (sw - 1)` and `(dh - 1) * (sh - 1)` below 2^31,
`scale_rgba_to` leaves in each of the 4 bytes of the destination pixel (x, y)
the byte of the same channel of the source pixel (sx, sy), where
sx = floor(x*(sw-1)/(dw-1)) if dw > 1 and 0 otherwise, and
sy = floor(y*(sh-1)/(dh-1)) if dh > 1 and 0 otherwise; that pixel lies in the
source. -/
theorem scale_rgba_to_pixel_in_range (src dst : List Nat) (sw sh dw dh : Int)
    (hsw : 1 ≤ sw) (hsh : 1 ≤ sh) (hdw : 1 ≤ dw) (hdh : 1 ≤ dh)
    (hsrc : (src.length : Int) = sw * sh * 4) (hdst : (dst.length : Int) = dw * dh * 4)
    (hslim : sw * sh * 4 ≤ 2147483648) (hdlim : dw * dh * 4 ≤ 2147483648)
    (hpx : (dw - 1) * (sw - 1) < 2147483648) (hpy : (dh - 1) * (sh - 1) < 2147483648)
    (x y : Nat) (hx : (x : Int) < dw) (hy : (y : Int) < dh) (c : Int) (hc0 : 0 ≤ c)
    (hc4 : c < 4) :
    buf_get (scale_rgba_to src sw sh dst dw dh) (((y : Int) * dw + (x : Int)) * 4 + c)
      = buf_get src
          (((if dh > 1 then ((y : Int) * (sh - 1)) / (dh - 1) else 0) * sw
            + (if dw > 1 then ((x : Int) * (sw - 1)) / (dw - 1) else 0)) * 4 + c) ∧
    (0 ≤ (if dw > 1 then ((x : Int) * (sw - 1)) / (dw - 1) else 0) ∧
      (if dw > 1 then ((x : Int) * (sw - 1)) / (dw - 1) else 0) < sw) ∧
    (0 ≤ (if dh > 1 then ((y : Int) * (sh - 1)) / (dh - 1) else 0) ∧
      (if dh > 1 then ((y : Int) * (sh - 1)) / (dh - 1) else 0) < sh) ∧
    ((((if dh > 1 then ((y : Int) * (sh - 1)) / (dh - 1) else 0) * sw
        + (if dw > 1 then ((x : Int) * (sw - 1)) / (dw - 1) else 0)) * 4 + c)
      < (src.length : Int)) := by
  have hw31 : sw ≤ 2147483648 := by
    have : sw * 1 ≤ sw * sh := Int.mul_le_mul_of_nonneg_left hsh (by omega)
    omega
  have hh31 : sh ≤ 2147483648 := by
    have : 1 * sh ≤ sw * sh := Int.mul_le_mul_of_nonneg_right hsw (by omega)
    omega
  have hdw31 : dw ≤ 2147483648 := by
    have : dw * 1 ≤ dw * dh := Int.mul_le_mul_of_nonneg_left hdh (by omega)
    omega
  have hdh31 : dh ≤ 2147483648 := by
    have : 1 * dh ≤ dw * dh := Int.mul_le_mul_of_nonneg_right hdw (by omega)
    omega
  have hxp : (x : Int) * (sw - 1) < 2147483648 :=
    lt_of_le_of_lt (Int.mul_le_mul_of_nonneg_right (by omega) (by omega)) hpx
  have hyp : (y : Int) * (sh - 1) < 2147483648 :=
    lt_of_le_of_lt (Int.mul_le_mul_of_nonneg_right (by omega) (by omega)) hpy
  obtain ⟨ex, hx0, hx1⟩ := src_coord_eq sw dw x hsw hx hw31 hdw31 hxp
  obtain ⟨ey, hy0, hy1⟩ := src_coord_eq sh dh y hsh hy hh31 hdh31 hyp
  have hb := scale_byte src sw sh dst dw dh (by omega) (by omega) hdst hdlim x y hx hy c
    hc0 hc4
  obtain ⟨hidx, -, hlt⟩ := src_index_eq sw sh (src_coord sh dh y) (src_coord sw dw x) c
    hx0 hx1 hy0 hy1 hslim hc0 hc4
  rw [hidx, ex, ey] at hb
  rw [ex, ey] at hlt
  rw [ex] at hx0 hx1
  rw [ey] at hy0 hy1
  exact ⟨hb, ⟨hx0, hx1⟩, ⟨hy0, hy1⟩, by rw [hsrc]; exact hlt⟩

/-- C16 (code bug): for a source of 1200000 by 1 pixels and a destination of
1920 by 1080 pixels the product `x * (sw - 1)` of the destination column 1919
does not fit `int`.  The source column computed is -1038128, where
floor(x*(sw-1)/(dw-1)) is 1199999, and the first byte of the destination pixel
(1919, 0) is the byte read at the source index -4152512, before the source
buffer. -/
theorem wide_source_pixel_is_off (src : List Nat) :
    src_coord 1200000 1920 1919 = -1038128 ∧
    (if (1920 : Int) > 1 then (((1919 : Nat) : Int) * (1200000 - 1)) / (1920 - 1) else 0)
      = 1199999 ∧
    buf_get (scale_rgba_to src 1200000 1 (List.replicate 8294400 0) 1920 1080)
        ((((0 : Nat) : Int) * 1920 + ((1919 : Nat) : Int)) * 4 + 0)
      = buf_get src (-4152512) := by
  refine ⟨by decide, by decide, ?_⟩
  have hb := scale_byte src 1200000 1 (List.replicate 8294400 0) 1920 1080 (by decide)
    (by decide) (by rw [List.length_replicate]; decide) (by decide) 1919 0 (by decide)
    (by decide) 0 (by decide) (by decide)
  have e : int32 (src_index 1200000 (src_coord 1 1080 0) (src_coord 1200000 1920 1919) + 0)
      = -4152512 := by decide
  rw [e] at hb
  exact hb

/-- Counterexample to C17: for a source of 46342 by 1 pixels of value 255 and a
destination of the same size, the product `x * (w - 1)` of the column 46341 does
not fit `int`, the source column computed is -46340 and the result differs from
the source. -/
theorem same_size_46342_differs :
    src_coord 46342 46342 46341 = -46340 ∧
    scale_rgba_to (List.replicate 185368 255) 46342 1 (List.replicate 185368 0) 46342 1
      ≠ List.replicate 185368 255 := by
  refine ⟨by decide, fun h => ?_⟩
  have hb := scale_byte (List.replicate 185368 255) 46342 1 (List.replicate 185368 0)
    46342 1 (by decide) (by decide) (by rw [List.length_replicate]; decide) (by decide)
    46341 0 (by decide) (by decide) 0 (by decide) (by decide)
  have e : int32 (src_index 46342 (src_coord 1 1 0) (src_coord 46342 46342 46341) + 0)
      = -185360 := by decide
  rw [e, h] at hb
  have h₁ : buf_get (List.replicate 185368 255)
      ((((0 : Nat) : Int) * 46342 + ((46341 : Nat) : Int)) * 4 + 0) = 255 := by
    have : (((0 : Nat) : Int) * 46342 + ((46341 : Nat) : Int)) * 4 + 0
        = ((185364 : Nat) : Int) := by decide
    rw [this, buf_get_eq_getElem _ _ (by rw [List.length_replicate]; decide)]
    simp only [List.getElem_replicate]
  have h₂ : buf_get (List.replicate 185368 255) (-185360) = 0 := by
    unfold buf_get
    rw [if_pos (by decide)]
  rw [h₁, h₂] at hb
  exact absurd hb (by decide)

/-- C17 (amended): for a source image of `w` by `h` pixels, `w` and `h` at
least 1, of at most 2^31 bytes and with `(w - 1)^2` and `(h - 1)^2` below 2^31
(so that the `int` arithmetic of the code is exact; this holds up to 7680 by
4320), `scale_rgba_to` into a destination buffer of the same size leaves the
destination equal to the source, byte for byte. -/
theorem scale_rgba_to_same_size (src dst : List Nat) (w h : Int) (hw : 1 ≤ w) (hh : 1 ≤ h)
    (hlim : w * h * 4 ≤ 2147483648) (hpw : (w - 1) * (w - 1) < 2147483648)
    (hph : (h - 1) * (h - 1) < 2147483648)
    (hsrc : (src.length : Int) = w * h * 4) (hdst : (dst.length : Int) = w * h * 4) :
    scale_rgba_to src w h dst w h = src := by
  have hw31 : w ≤ 2147483648 := by
    have : w * 1 ≤ w * h := Int.mul_le_mul_of_nonneg_left hh (by omega)
    omega
  have hh31 : h ≤ 2147483648 := by
    have : 1 * h ≤ w * h := Int.mul_le_mul_of_nonneg_right hw (by omega)
    omega
  have hlen : (scale_rgba_to src w h dst w h).length = src.length := by
    rw [scale_rgba_to_length]
    have : (dst.length : Int) = (src.length : Int) := by rw [hsrc, hdst]
    exact_mod_cast this
  apply List.ext_getElem hlen
  intro i h₁ h₂
  rw [← buf_get_eq_getElem _ i h₁, ← buf_get_eq_getElem _ i h₂]
  obtain ⟨x, y, c, hx, hy, hc0, hc4, hi⟩ :=
    byte_index_split w h hw hh i (by rw [← hsrc]; exact_mod_cast h₂)
  have hxp : (x : Int) * (w - 1) < 2147483648 :=
    lt_of_le_of_lt (Int.mul_le_mul_of_nonneg_right (by omega) (by omega)) hpw
  have hyp : (y : Int) * (h - 1) < 2147483648 :=
    lt_of_le_of_lt (Int.mul_le_mul_of_nonneg_right (by omega) (by omega)) hph
  have ex := src_coord_same w x hw hx hw31 hxp
  have ey := src_coord_same h y hh hy hh31 hyp
  have hidx := (src_index_eq w h (y : Int) (x : Int) c (by omega) hx (by omega) hy hlim
    hc0 hc4).1
  rw [hi, scale_byte src w h dst w h (by omega) (by omega) hdst hlim x y hx hy c hc0 hc4,
    ex, ey, hidx]

/-- Witness of C17 (amended) -/
theorem scale_rgba_to_same_size_witness :
    ((1 : Int) ≤ 2 ∧ (2 : Int) * 2 * 4 ≤ 2147483648 ∧
      ((2 : Int) - 1) * (2 - 1) < 2147483648 ∧ (img_2x2.length : Int) = 2 * 2 * 4 ∧
      (((List.replicate 16 0 : List Nat).length : Nat) : Int) = 2 * 2 * 4) ∧
    scale_rgba_to img_2x2 2 2 (List.replicate 16 0) 2 2 = img_2x2 :=
  ⟨by decide,
   scale_rgba_to_same_size img_2x2 (List.replicate 16 0) 2 2 (by decide) (by decide)
     (by decide) (by decide) (by decide) (by decide) (by decide)⟩

/-- C18: at an output resolution `out_w` by `out_h` (non-negative `int`
values), for every sequence of frames of an export and every frame of it whose
resolved image is empty, or whose image does not decode, or decodes with a
non-positive width or height, `scale_rgba_to` is not called and the buffer
handed to the frame write is `out_w * out_h * 4` zero bytes, whatever the
frames before left in the buffer. -/
theorem missing_image_frame_is_black (out_w out_h : Int)
    (hw0 : 0 ≤ out_w) (hw : out_w < 2 ^ 31) (hh0 : 0 ≤ out_h) (hh : out_h < 2 ^ 31)
    (frames : List (String × Loaded)) (k : Nat) (rel : String) (loaded : Loaded)
    (hk : frames[k]? = some (rel, loaded))
    (hmiss : rel.isEmpty = true ∨ loaded.img = none ∨ loaded.iw ≤ 0 ∨ loaded.ih ≤ 0) :
    (export_fills out_w out_h frames)[k]?
      = some { resampled := false, buf := List.replicate (out_w * out_h * 4).toNat 0 } := by
  unfold export_fills
  rw [frame_fills_missing out_w out_h frames _ k rel loaded hk hmiss]
  simp only [out_buf_init, List.length_replicate]
  rw [out_buf_size_eq out_w out_h hw0 hw hh0 hh]

/-- Witness of C18 : at resolution 1 by 1, the frame without image that follows
a frame filled from an image is written as 4 zero bytes. -/
theorem missing_image_frame_is_black_witness :
    (((0 : Int) ≤ 1 ∧ (1 : Int) < 2 ^ 31 ∧
        frames_image_then_none[1]? = some ("", { img := none, iw := 0, ih := 0 }) ∧
        "".isEmpty = true) ∧
      (export_fills 1 1 frames_image_then_none)[0]?
        = some { resampled := true, buf := [9, 8, 7, 6] }) ∧
    (export_fills 1 1 frames_image_then_none)[1]?
      = some { resampled := false, buf := List.replicate ((1 : Int) * 1 * 4).toNat 0 } :=
  ⟨⟨⟨by decide, by decide, rfl, by decide⟩, by decide⟩,
   missing_image_frame_is_black 1 1 (by decide) (by decide) (by decide) (by decide)
     frames_image_then_none 1 "" { img := none, iw := 0, ih := 0 } rfl (Or.inl (by decide))⟩

/-! ## Thumbnail cache: theorems -/

/-- C21: after the Delete key handler has deleted the selected media entry
(no layer selected, `delete_media` returning true), and after the OK button of
the rename popup has renamed it (`rename_media` returning true for the trimmed,
non-empty name), the thumbnail cache has no entry under the key
`project path + "/" + old relative path`; after `close_project` the cache is
empty. -/
theorem thumbnail_cache_invalidated (fs : MediaFs)
    (rename_ok update_media_ok update_layers_ok : Bool) (app : App) (buf : String) :
    (app.selected_layer_id = 0 → app.selected_media_path.isEmpty = false →
      (delete_media app.db app.selected_media_path).1 = true →
      ∀ e ∈ (on_delete_key app).cache,
        e.1 ≠ app.path ++ "/" ++ app.selected_media_path) ∧
    ((trim_name buf).isEmpty = false →
      (rename_media fs rename_ok update_media_ok update_layers_ok app.db app.path
        app.selected_media_path (trim_name buf)).ok = true →
      ∀ e ∈ (on_rename_ok fs rename_ok update_media_ok update_layers_ok app buf).1.cache,
        e.1 ≠ app.path ++ "/" ++ app.selected_media_path) ∧
    (close_project app).cache = [] := by
  refine ⟨fun h₁ h₂ h₃ e he => ?_, fun h₁ h₂ e he => ?_, rfl⟩
  · simp only [on_delete_key, h₁, h₂, h₃, ne_eq, not_true_eq_false, if_false,
      Bool.false_eq_true, not_false_eq_true, if_true, cache_erase, List.mem_filter,
      decide_eq_true_eq] at he
    exact he.2
  · simp only [on_rename_ok, h₁, h₂, if_true, if_false, Bool.false_eq_true, cache_erase,
      List.mem_filter, decide_eq_true_eq, ne_eq] at he
    exact he.2

/-- Witness of C21 : deleting the selected `media/a.png` drops its thumbnail and
keeps the other one. -/
theorem thumbnail_cache_invalidated_witness :
    (app_media.selected_layer_id = 0 ∧ app_media.selected_media_path.isEmpty = false ∧
      (delete_media app_media.db app_media.selected_media_path).1 = true ∧
      (on_delete_key app_media).cache = [("/p/media/b.png", ⟨2, 80, 60⟩)] ∧
      (trim_name "c.png \n").isEmpty = false ∧
      (rename_media fs_media true true true app_media.db app_media.path
        app_media.selected_media_path (trim_name "c.png \n")).ok = true ∧
      (on_rename_ok fs_media true true true app_media "c.png \n").1.cache
        = [("/p/media/b.png", ⟨2, 80, 60⟩)]) ∧
    (∀ e ∈ (on_delete_key app_media).cache,
      e.1 ≠ app_media.path ++ "/" ++ app_media.selected_media_path) ∧
    (∀ e ∈ (on_rename_ok fs_media true true true app_media "c.png \n").1.cache,
      e.1 ≠ app_media.path ++ "/" ++ app_media.selected_media_path) :=
  ⟨by decide,
   (thumbnail_cache_invalidated fs_media true true true app_media "c.png \n").1 (by decide) (by decide)
     (by decide),
   (thumbnail_cache_invalidated fs_media true true true app_media "c.png \n").2.1 (by decide)
     (by decide)⟩

/-! ## Recent projects: theorems -/

/-- C22: for the recent list `r` that `load_recent_projects` reads and every
project path `p`, `push_recent_project` writes `p` followed by the entries of `r`
other than `p` in their order, cut to 10 entries: the written list starts with
`p`, contains `p` once, has at most 10 entries and has no duplicates when `r`
has none. -/
theorem push_recent_project_spec (file_lines : List String) (p : String) :
    push_recent_project file_lines p
        = (p :: (load_recent_projects file_lines).filter (fun q => q ≠ p)).take 10 ∧
      (push_recent_project file_lines p).head? = some p ∧
      (push_recent_project file_lines p).count p = 1 ∧
      (push_recent_project file_lines p).length ≤ 10 ∧
      ((load_recent_projects file_lines).Nodup → (push_recent_project file_lines p).Nodup) := by
  have heq : push_recent_project file_lines p
      = (p :: (load_recent_projects file_lines).filter (fun q => q ≠ p)).take 10 := by
    simp only [push_recent_project, kMaxRecentProjects]
    split_ifs with h
    · rfl
    · rw [List.take_of_length_le (by omega)]
  have hnot : p ∉ (load_recent_projects file_lines).filter (fun q => decide (q ≠ p)) := by
    simp [List.mem_filter]
  refine ⟨heq, ?_, ?_, ?_, ?_⟩
  · rw [heq]; rfl
  · rw [heq]
    show List.count p (p :: List.take 9 _) = 1
    rw [List.count_cons_self]
    have : p ∉ List.take 9
        ((load_recent_projects file_lines).filter (fun q => decide (q ≠ p))) :=
      fun hm => hnot (List.mem_of_mem_take hm)
    rw [List.count_eq_zero_of_not_mem this]
  · rw [heq]
    exact (List.length_take_le _ _)
  · intro hnd
    rw [heq]
    apply List.Nodup.sublist (List.take_sublist _ _)
    exact List.nodup_cons.2 ⟨hnot, hnd.filter _⟩

/-- Witness of C22 : pushing a path that is already third in a list of 10 moves
it to the front and keeps the list at 10 entries without duplicates. -/
theorem push_recent_project_spec_witness :
    ((load_recent_projects ["/a", "/b", "/c", "/d", "/e", "/f", "/g", "/h", "/i", "/j"]).Nodup ∧
      push_recent_project ["/a", "/b", "/c", "/d", "/e", "/f", "/g", "/h", "/i", "/j"] "/c"
        = ["/c", "/a", "/b", "/d", "/e", "/f", "/g", "/h", "/i", "/j"] ∧
      push_recent_project ["/a", "/b", "/c", "/d", "/e", "/f", "/g", "/h", "/i", "/j"] "/k"
        = ["/k", "/a", "/b", "/c", "/d", "/e", "/f", "/g", "/h", "/i"]) ∧
    (push_recent_project ["/a", "/b", "/c", "/d", "/e", "/f", "/g", "/h", "/i", "/j"]
      "/c").Nodup :=
  ⟨by decide,
   (push_recent_project_spec ["/a", "/b", "/c", "/d", "/e", "/f", "/g", "/h", "/i", "/j"]
      "/c").2.2.2.2 (by decide)⟩

/-! ## Media import naming: theorems -/

/-- C23: for every source name `stem + ext` and every list of names present in
the media directory, the collision loop of `add_media_file` stops within
`present.length + 2` tests of its condition; it picks `stem + ext` when that
name is free and otherwise `stem_N + ext` for the least N >= 1 whose name is
free; the name picked is not present. -/
theorem media_dest_name_spec (present : List String) (stem ext : String) (fuel : Nat)
    (hfuel : present.length + 2 ≤ fuel) :
    ∃ name, media_dest_name present stem ext fuel = some name ∧ name ∉ present ∧
      (stem ++ ext ∉ present → name = stem ++ ext) ∧
      (stem ++ ext ∈ present →
        ∃ N, 1 ≤ N ∧ name = numbered_name stem ext N ∧
          ∀ M, 1 ≤ M → M < N → numbered_name stem ext M ∈ present) := by
  obtain ⟨k0, hk₁, hk₂, hk₃⟩ := exists_free_number present stem ext
  have hc0 : candidate stem ext k0 = numbered_name stem ext k0 := by
    have : k0 ≠ 0 := by omega
    simp [candidate, this]
  obtain ⟨k, _, hfree, hbelow, hloop⟩ := collision_loop_first_free present stem ext fuel 0
    ⟨k0, by omega, by omega, by rw [hc0]; exact hk₃⟩
  have hcand0 : candidate stem ext 0 = stem ++ ext := by simp [candidate]
  refine ⟨candidate stem ext k, ?_, hfree, ?_, ?_⟩
  · unfold media_dest_name
    rw [← hcand0]
    exact hloop
  · intro h0
    by_cases hk : k = 0
    · rw [hk, hcand0]
    · exact absurd (hbelow 0 (le_refl _) (by omega)) (by rw [hcand0]; exact h0)
  · intro h0
    have hk : k ≠ 0 := by
      intro hk
      rw [hk, hcand0] at hfree
      exact hfree h0
    refine ⟨k, by omega, by simp [candidate, hk], ?_⟩
    intro M hM₁ hM₂
    have := hbelow M (by omega) hM₂
    have hM : M ≠ 0 := by omega
    simpa [candidate, hM] using this

/-- Witness of C23 : with `a.png`, `a_1.png` and `a_3.png` present, a source
`a.png` is stored as `a_2.png`, a name that is not present. -/
theorem media_dest_name_spec_witness :
    ((["a.png", "a_1.png", "a_3.png"] : List String).length + 2 ≤ 5 ∧
      media_dest_name ["a.png", "a_1.png", "a_3.png"] "a" ".png" 5 = some "a_2.png") ∧
    "a_2.png" ∉ (["a.png", "a_1.png", "a_3.png"] : List String) := by
  refine ⟨by decide, ?_⟩
  obtain ⟨name, h₁, h₂, _⟩ :=
    media_dest_name_spec ["a.png", "a_1.png", "a_3.png"] "a" ".png" 5 (by decide)
  have h₃ : media_dest_name ["a.png", "a_1.png", "a_3.png"] "a" ".png" 5 = some "a_2.png" := by
    decide
  rw [h₃] at h₁
  rw [Option.some.inj h₁]
  exact h₂

/-! ## Frame file names: theorems -/

/-- C25, as the code has it: for every frame index i the frame file is named
`frame_`, then a string of decimal digits that denotes i and is padded with
zeros on the left to 5 digits (exactly 5 digits for i < 100000, the plain
decimal numeral of i, longer than 5 digits, for i >= 100000), then `.png`; and
distinct frame indices give distinct file names. -/
theorem frame_file_name_spec (i : Nat) :
    (∃ digits : List Char,
      frame_file_name i = "frame_" ++ String.mk digits ++ ".png" ∧
      (∀ c ∈ digits, ∃ k, k < 10 ∧ c = Nat.digitChar k) ∧
      decimal_value digits = i ∧
      5 ≤ digits.length ∧
      (i < 100000 → digits.length = 5) ∧
      (100000 ≤ i → digits = Nat.toDigits 10 i ∧ 5 < digits.length)) ∧
    ∀ j, frame_file_name i = frame_file_name j → i = j := by
  refine ⟨⟨pad5 i, rfl, pad5_digits i, decimal_value_pad5 i, ?_, ?_, ?_⟩,
    fun j h => frame_file_name_injective i j h⟩
  · simp only [pad5, List.length_append, List.length_replicate]; omega
  · intro h
    have := toDigits_length_le i h
    simp only [pad5, List.length_append, List.length_replicate]; omega
  · intro h
    have hlen := toDigits_length_gt i h
    have hz : 5 - (Nat.toDigits 10 i).length = 0 := by omega
    refine ⟨by simp [pad5, hz], ?_⟩
    simp only [pad5, List.length_append, List.length_replicate]; omega

/-- Counterexample to C25: an export of 100001 frames writes the frame of index
100000, whose file is named with a number of 6 digits. -/
theorem frame_100000_has_six_digits :
    (writes (render_project_to_video env_ok (some db_long) "/p" "/p/out.mp4" true).trace)[
        100000]? = some (100000, "a.png", true) ∧
      frame_file_name 100000 = "frame_100000.png" ∧
      (pad5 100000).length = 6 := by
  refine ⟨?_, by decide, by decide⟩
  have h := render_write_at env_ok (some db_long) "/p" "/p/out.mp4" true (by decide)
    (by decide) (by decide) (by decide) (fun _ => rfl) [] [] ⟨1, 1, "Scene 1"⟩ (by decide)
    100000 (by decide)
  have e₁ : ((scene_frame_counts (some db_long) []).sum).toNat + 100000 = 100000 := by decide
  have e₂ : get_image_at_frame (some db_long) 1 ((100000 : Nat) : Int) = "a.png" := by decide
  rw [e₁, e₂] at h
  exact h

/-- Witness of C25 as amended : frame 7 gives `frame_00007.png`, a name that
no other frame index shares. -/
theorem frame_file_name_spec_witness :
    frame_file_name 7 = "frame_00007.png" ∧
      (frame_file_name 7 = frame_file_name 8 → 7 = 8) :=
  ⟨by decide, (frame_file_name_spec 7).2 8⟩

/-! ## Encoder command: theorems -/

/-- C26 (code bug): a second export is started while the first is still
running.  The steps are: the render button is pressed and a file is picked (the
first worker starts); the worker opens the database, stores a progress of 0 for
the first frame, and after the frame loops stores the progress 1, before the
encoder runs; in the next pass of `draw_ui` the value 1 reads as "not
rendering", so a press of the button starts a second worker.  Two workers are
then in flight, and the thread object of the first one is destroyed joinable. -/
theorem second_export_starts_during_encoding :
    ∃ s : RenderUi,
      ui_run ui_init
        [Action.ui_frame true true true,
         Action.worker 0 WorkerStep.open_ok,
         Action.worker 0 (WorkerStep.store_progress 0),
         Action.worker 0 WorkerStep.store_one,
         Action.ui_frame true true true] = some s ∧
      s.workers = [WorkerPc.encoding, WorkerPc.started] ∧
      in_flight s = 2 ∧ s.aborted = true :=
  ⟨{ progress := 0, done := 0, thread := true,
     workers := [WorkerPc.encoding, WorkerPc.started], aborted := true },
   by decide, rfl, by decide, rfl⟩

/-! ## Scene names: theorems -/

/-- C27 (counterexample): a scene created by `create_scene` after a move and a
delete has the id 3 and is listed with the name "Scene 2", though no name was
ever set by the user. -/
theorem created_scene_named_by_order :
    list_scenes (run_scene_ops (some db_empty)
        [SceneOp.create, SceneOp.create, SceneOp.move_up 2, SceneOp.delete 1,
         SceneOp.create])
      = [{ id := 2, sort_order := 1, name := "Scene 2" },
         { id := 3, sort_order := 2, name := "Scene 2" }] := by
  decide

/-- C27 (amended): a scene whose stored name is NULL is listed by
`list_scenes` with the name "Scene " followed by its id; a scene just created by
`create_scene` is stored with the name "Scene " followed by its sort order, which
is one more than the greatest sort order of the timeline before the call (1 when
there is none), and is listed with that name. -/
theorem scene_default_names (d : Db) :
    (∀ r ∈ d.scenes, r.name = none →
      ({ id := r.id, sort_order := r.sort_order, name := "Scene " ++ toString r.id }
        : SceneRow) ∈ list_scenes (some d)) ∧
    create_scene (some d) = (true, (create_scene (some d)).2) ∧
    ({ id := next_scene_id d, sort_order := next_sort_order d
       name := "Scene " ++ toString (next_sort_order d) } : SceneRow)
      ∈ list_scenes (create_scene (some d)).2 := by
  refine ⟨?_, rfl, ?_⟩
  · intro r hr hn
    simp only [list_scenes, List.mem_map]
    refine ⟨r, (List.perm_insertionSort scene_order d.scenes).mem_iff.2 hr, ?_⟩
    simp [scene_row, hn]
  · simp only [create_scene, list_scenes, List.mem_map]
    refine ⟨{ id := next_scene_id d, timeline_id := 1, sort_order := next_sort_order d
              name := some ("Scene " ++ toString (next_sort_order d)) },
      (List.perm_insertionSort scene_order _).mem_iff.2 (by simp), ?_⟩
    simp [scene_row]

/-- Witness of C27 : the scene of id 2 without a stored name is listed as
"Scene 2", and the scene created next, of id 3 and sort order 2, is listed as
"Scene 2" as well. -/
theorem scene_default_names_witness :
    (({ id := 2, sort_order := 1, name := "Scene 2" } : SceneRow)
        ∈ list_scenes (some db_renumbered)) ∧
    create_scene (some db_renumbered) = (true, (create_scene (some db_renumbered)).2) ∧
    (({ id := 3, sort_order := 2, name := "Scene 2" } : SceneRow)
        ∈ list_scenes (create_scene (some db_renumbered)).2) :=
  ⟨(scene_default_names db_renumbered).1 ⟨2, 1, 1, none⟩ (by decide) rfl,
   (scene_default_names db_renumbered).2.1,
   (scene_default_names db_renumbered).2.2⟩

/-! ## Scene table invariant: theorems -/

/-- C30: from a project with no scenes, every sequence of calls of
`create_scene`, `delete_scene`, `rename_scene`, `move_scene_up` and
`move_scene_down` leaves a database in which the sort orders of the scenes are
pairwise distinct and each at least 1; the rows of `list_scenes` then come in
strictly increasing sort order, so their order is fixed by the sort order
alone. -/
theorem scene_orders_distinct (d0 : Db) (h0 : d0.scenes = []) (ops : List SceneOp) :
    (run_scene_ops (some d0) ops).isSome = true ∧
    ((stored_scenes (run_scene_ops (some d0) ops)).map (fun r => r.sort_order)).Nodup ∧
    (∀ r ∈ stored_scenes (run_scene_ops (some d0) ops), 1 ≤ r.sort_order) ∧
    (list_scenes (run_scene_ops (some d0) ops)).Pairwise
      (fun a b => a.sort_order < b.sort_order) := by
  have hinv0 : SceneInv d0 := by
    refine ⟨?_, ?_, ?_⟩ <;> simp [h0]
  obtain ⟨d, hd, hpk, hso, hrest⟩ := run_scene_ops_inv ops d0 hinv0
  rw [hd]
  refine ⟨rfl, hso, fun r hr => (hrest r hr).1, ?_⟩
  simp only [list_scenes]
  rw [List.pairwise_map]
  exact sorted_scenes_strict d.scenes hso

/-- Witness of C30 : two scenes are created, the second is moved up, the first
is deleted and a third is created; the sort orders left are distinct and the
listing is in increasing sort order. -/
theorem scene_orders_distinct_witness :
    db_empty.scenes = [] ∧
    ((stored_scenes (run_scene_ops (some db_empty)
        [SceneOp.create, SceneOp.create, SceneOp.move_up 2, SceneOp.delete 1,
         SceneOp.create])).map (fun r => r.sort_order)).Nodup ∧
    (list_scenes (run_scene_ops (some db_empty)
        [SceneOp.create, SceneOp.create, SceneOp.move_up 2, SceneOp.delete 1,
         SceneOp.create])).Pairwise (fun a b => a.sort_order < b.sort_order) :=
  ⟨rfl,
   (scene_orders_distinct db_empty rfl
      [SceneOp.create, SceneOp.create, SceneOp.move_up 2, SceneOp.delete 1,
       SceneOp.create]).2.1,
   (scene_orders_distinct db_empty rfl
      [SceneOp.create, SceneOp.create, SceneOp.move_up 2, SceneOp.delete 1,
       SceneOp.create]).2.2.2⟩

/-! ## Listing after a move: theorems -/

/-- C29: in a table whose ids are a key and whose sort orders are pairwise
distinct, let `t` be a row of `list_scenes` with the row `o` right before it
(resp. right after it).  Then `move_scene_up` (resp. `move_scene_down`) on `t`
succeeds, the listing afterwards is the listing before with `t` and `o`
exchanged, `t` carrying its sort order minus 1 (resp. plus 1) and `o` the sort
order that `t` had, and every stored row other than these two is still stored
with the same id, name and sort order. -/
theorem move_scene_exchanges_neighbours (d : Db) (pre post : List SceneRow) (o t : SceneRow)
    (hpk : (d.scenes.map (fun r => r.id)).Nodup)
    (hso : (d.scenes.map (fun r => r.sort_order)).Nodup) :
    (list_scenes (some d) = pre ++ o :: t :: post →
      (move_scene_up (some d) t.id).1 = true ∧
      list_scenes (move_scene_up (some d) t.id).2
        = pre ++ { t with sort_order := t.sort_order - 1 }
            :: { o with sort_order := t.sort_order } :: post ∧
      ∀ r ∈ d.scenes, r.id ≠ t.id → r.id ≠ o.id →
        r ∈ stored_scenes (move_scene_up (some d) t.id).2) ∧
    (list_scenes (some d) = pre ++ t :: o :: post →
      (move_scene_down (some d) t.id).1 = true ∧
      list_scenes (move_scene_down (some d) t.id).2
        = pre ++ { o with sort_order := t.sort_order }
            :: { t with sort_order := t.sort_order + 1 } :: post ∧
      ∀ r ∈ d.scenes, r.id ≠ t.id → r.id ≠ o.id →
        r ∈ stored_scenes (move_scene_down (some d) t.id).2) := by
  have hid : ∀ r ∈ d.scenes, ∀ r' ∈ d.scenes, r.sort_order = r'.sort_order → r = r' :=
    fun r hr r' hr' h => List.inj_on_of_nodup_map hso hr hr' h
  have hkeep : ∀ (a va b vb : Int), ∀ r ∈ d.scenes, r.id ≠ a → r.id ≠ b →
      r ∈ (update_sort_orders d a va b vb).scenes := by
    intro a va b vb r hr h1 h2
    simp only [update_sort_orders, List.mem_map]
    exact ⟨r, hr, by simp [h1, h2]⟩
  constructor
  · intro h
    obtain ⟨A, B, ro, rt, hL, hA, hro, hrt, hB, hAs, hBs, hAlt, hlt, hBlt, hrom, hrtm⟩ :=
      listing_split d pre post o t hso h
    subst hA hro hrt hB
    have hperm := List.perm_insertionSort scene_order d.scenes
    rw [hL] at hperm
    have ho := scene_sort_order_of_mem d hpk rt hrtm
    obtain ⟨r0, hr0, hsel, hr0lt, hmax⟩ :=
      select_lower_spec d rt.sort_order ⟨ro, hrom, hlt⟩
    have hr0eq : r0 = ro := by
      apply hid r0 hr0 ro hrom
      have h1 := hmax ro hrom hlt
      have hm : r0 ∈ A ++ ro :: rt :: B := hperm.mem_iff.2 hr0
      rcases List.mem_append.1 hm with hm | hm
      · have := hAlt r0 hm
        omega
      · rcases List.mem_cons.1 hm with hm | hm
        · rw [hm]
        · rcases List.mem_cons.1 hm with hm | hm
          · rw [hm] at hr0lt; omega
          · have := hBlt r0 hm
            omega
    subst hr0eq
    have hmove := move_scene_up_eq d rt.id rt.sort_order r0.id ho hsel
    have hsorted := sorted_after_exchange d A B r0 rt rt.sort_order (rt.sort_order - 1) hpk hL
      (fun a ha => by have := hAlt a ha; omega) (by omega) hBlt hAs hBs
    have e1 : (scene_row rt).id = rt.id := rfl
    have e2 : (scene_row rt).sort_order = rt.sort_order := rfl
    have e3 : (scene_row r0).id = r0.id := rfl
    rw [e1, e2, e3, hmove]
    refine ⟨rfl, ?_, ?_⟩
    · simp only [list_scenes, hsorted, List.map_append, List.map_cons]
      rfl
    · intro r hr h1 h2
      exact hkeep _ _ _ _ r hr h1 h2
  · intro h
    obtain ⟨A, B, rt, ro, hL, hA, hrt, hro, hB, hAs, hBs, hAlt, hlt, hBlt, hrtm, hrom⟩ :=
      listing_split d pre post t o hso h
    subst hA hro hrt hB
    have hperm := List.perm_insertionSort scene_order d.scenes
    rw [hL] at hperm
    have ho := scene_sort_order_of_mem d hpk rt hrtm
    obtain ⟨r0, hr0, hsel, hr0lt, hmin⟩ :=
      select_higher_spec d rt.sort_order ⟨ro, hrom, hlt⟩
    have hr0eq : r0 = ro := by
      apply hid r0 hr0 ro hrom
      have h1 := hmin ro hrom hlt
      have hm : r0 ∈ A ++ rt :: ro :: B := hperm.mem_iff.2 hr0
      rcases List.mem_append.1 hm with hm | hm
      · have := hAlt r0 hm
        omega
      · rcases List.mem_cons.1 hm with hm | hm
        · rw [hm] at hr0lt; omega
        · rcases List.mem_cons.1 hm with hm | hm
          · rw [hm]
          · have := hBlt r0 hm
            omega
    subst hr0eq
    have hne : rt.id ≠ r0.id := by
      intro e
      have := scene_eq_of_id_eq hpk hrtm hr0 e
      rw [this] at hlt
      omega
    have hmove := move_scene_down_eq d rt.id rt.sort_order r0.id ho hsel
    rw [update_sort_orders_comm d rt.id (rt.sort_order + 1) r0.id rt.sort_order hne] at hmove
    have hsorted := sorted_after_exchange d A B rt r0 (rt.sort_order + 1) rt.sort_order hpk hL
      hAlt (by omega) (fun b hb => by have := hBlt b hb; omega) hAs hBs
    have e1 : (scene_row rt).id = rt.id := rfl
    have e2 : (scene_row rt).sort_order = rt.sort_order := rfl
    have e3 : (scene_row r0).id = r0.id := rfl
    rw [e1, e2, e3, hmove]
    refine ⟨rfl, ?_, ?_⟩
    · simp only [list_scenes, hsorted, List.map_append, List.map_cons]
      rfl
    · intro r hr h1 h2
      exact hkeep _ _ _ _ r hr h2 h1

/-- Witness of C29 : in the project with the scenes 1 and 3 of sort orders 1
and 3, moving scene 3 up gives the listing 3, 1 with the sort orders 2 and 3. -/
theorem move_scene_exchanges_neighbours_witness :
    ((db_gap.scenes.map (fun r => r.id)).Nodup ∧
      (db_gap.scenes.map (fun r => r.sort_order)).Nodup ∧
      list_scenes (some db_gap)
        = [] ++ ({ id := 1, sort_order := 1, name := "Scene 1" } : SceneRow)
            :: { id := 3, sort_order := 3, name := "Scene 3" } :: []) ∧
    list_scenes (move_scene_up (some db_gap) 3).2
      = [{ id := 3, sort_order := 2, name := "Scene 3" },
         { id := 1, sort_order := 3, name := "Scene 1" }] :=
  ⟨by decide,
   ((move_scene_exchanges_neighbours db_gap [] []
      { id := 1, sort_order := 1, name := "Scene 1" }
      { id := 3, sort_order := 3, name := "Scene 3" } (by decide) (by decide)).1
      (by decide)).2.1⟩

/-! ## Accesses of the compositor: theorems -/

/-- In the range of `int`: for a source of `sw` by `sh` pixels and a
destination of `dw` by `dh` pixels, all at least 1, with buffers of at most 2^31
bytes and products `(dw - 1) * (sw - 1)` and `(dh - 1) * (sh - 1)` below 2^31,
the effect of `scale_rgba_to` is that of its byte copies; every source index
read lies in [0, sw*sh*4) and every destination index written in [0, dw*dh*4);
the destination indices written are, in program order, 0, 1, ..., dw*dh*4 - 1,
so each index of that range is written exactly once; and for two destination
buffers of dw*dh*4 bytes the results are the same. -/
theorem scale_rgba_to_accesses_in_range (src : List Nat) (sw sh dw dh : Int)
    (hsw : 1 ≤ sw) (hsh : 1 ≤ sh) (hdw : 1 ≤ dw) (hdh : 1 ≤ dh)
    (hslim : sw * sh * 4 ≤ 2147483648) (hdlim : dw * dh * 4 ≤ 2147483648)
    (hpx : (dw - 1) * (sw - 1) < 2147483648) (hpy : (dh - 1) * (sh - 1) < 2147483648) :
    (∀ dst : List Nat, scale_rgba_to src sw sh dst dw dh
      = (scale_accesses sw sh dw dh).foldl
          (fun b p => buf_set b p.1 (buf_get src p.2)) dst) ∧
    (∀ p ∈ scale_accesses sw sh dw dh,
      (0 ≤ p.2 ∧ p.2 < sw * sh * 4) ∧ (0 ≤ p.1 ∧ p.1 < dw * dh * 4)) ∧
    (scale_accesses sw sh dw dh).map Prod.fst
      = (List.range (dw * dh * 4).toNat).map (fun i : Nat => (i : Int)) ∧
    (∀ i : Int, 0 ≤ i → i < dw * dh * 4 →
      ((scale_accesses sw sh dw dh).map Prod.fst).count i = 1) ∧
    (∀ dst dst' : List Nat, (dst.length : Int) = dw * dh * 4 →
      (dst'.length : Int) = dw * dh * 4 →
      scale_rgba_to src sw sh dst dw dh = scale_rgba_to src sw sh dst' dw dh) := by
  have hw31 : sw ≤ 2147483648 := by
    have : sw * 1 ≤ sw * sh := Int.mul_le_mul_of_nonneg_left hsh (by omega)
    omega
  have hh31 : sh ≤ 2147483648 := by
    have : 1 * sh ≤ sw * sh := Int.mul_le_mul_of_nonneg_right hsw (by omega)
    omega
  have hdw31 : dw ≤ 2147483648 := by
    have : dw * 1 ≤ dw * dh := Int.mul_le_mul_of_nonneg_left hdh (by omega)
    omega
  have hdh31 : dh ≤ 2147483648 := by
    have : 1 * dh ≤ dw * dh := Int.mul_le_mul_of_nonneg_right hdw (by omega)
    omega
  have hfst := scale_accesses_fst sw sh dw dh (by omega) (by omega) hdlim
  refine ⟨fun dst => scale_rgba_to_eq_accesses src sw sh dst dw dh, ?_, hfst, ?_, ?_⟩
  · intro p hp
    constructor
    · obtain ⟨y, x, c, hy, hx, hc0, hc4, rfl⟩ := mem_scale_accesses sw sh dw dh p hp
      have hxp : (x : Int) * (sw - 1) < 2147483648 :=
        lt_of_le_of_lt (Int.mul_le_mul_of_nonneg_right (by omega) (by omega)) hpx
      have hyp : (y : Int) * (sh - 1) < 2147483648 :=
        lt_of_le_of_lt (Int.mul_le_mul_of_nonneg_right (by omega) (by omega)) hpy
      obtain ⟨-, hx0, hx1⟩ := src_coord_eq sw dw x hsw (by omega) hw31 hdw31 hxp
      obtain ⟨-, hy0, hy1⟩ := src_coord_eq sh dh y hsh (by omega) hh31 hdh31 hyp
      obtain ⟨hidx, h0, h1⟩ := src_index_eq sw sh (src_coord sh dh y) (src_coord sw dw x) c
        hx0 hx1 hy0 hy1 hslim hc0 hc4
      simp only
      rw [hidx]
      exact ⟨h0, h1⟩
    · have hm : p.1 ∈ (scale_accesses sw sh dw dh).map Prod.fst :=
        List.mem_map.2 ⟨p, hp, rfl⟩
      rw [hfst] at hm
      obtain ⟨i, hi, hip⟩ := List.mem_map.1 hm
      rw [List.mem_range] at hi
      rw [← hip]
      constructor
      · omega
      · omega
  · intro i hi0 hi1
    rw [hfst]
    apply List.count_eq_one_of_mem
    · exact (List.nodup_range _).map (fun a b h => by exact_mod_cast h)
    · exact List.mem_map.2 ⟨i.toNat, List.mem_range.2 (by omega), by omega⟩
  · intro dst dst' hdst hdst'
    have hlen : (scale_rgba_to src sw sh dst dw dh).length
        = (scale_rgba_to src sw sh dst' dw dh).length := by
      rw [scale_rgba_to_length, scale_rgba_to_length]
      have : (dst.length : Int) = (dst'.length : Int) := by rw [hdst, hdst']
      exact_mod_cast this
    apply List.ext_getElem hlen
    intro i h₁ h₂
    rw [← buf_get_eq_getElem _ i h₁, ← buf_get_eq_getElem _ i h₂]
    rw [scale_rgba_to_length] at h₁
    obtain ⟨x, y, c, hx, hy, hc0, hc4, hi⟩ :=
      byte_index_split dw dh hdw hdh i (by rw [← hdst]; exact_mod_cast h₁)
    rw [hi, scale_byte src sw sh dst dw dh (by omega) (by omega) hdst hdlim x y hx hy c hc0
        hc4,
      scale_byte src sw sh dst' dw dh (by omega) (by omega) hdst' hdlim x y hx hy c hc0 hc4]

/-- C28 (code bug): for a source of 1200000 by 1 pixels and a destination of
1920 by 1080 pixels, the byte copy of the first channel of the destination
pixel (1919, 0) writes the destination index 7676 and reads the source index
-4152512, which lies outside [0, sw*sh*4) = [0, 4800000). -/
theorem wide_source_index_negative :
    ((7676 : Int), (-4152512 : Int)) ∈ scale_accesses 1200000 1 1920 1080 ∧
    ¬ ((0 : Int) ≤ -4152512 ∧ (-4152512 : Int) < 1200000 * 1 * 4) := by
  refine ⟨?_, by decide⟩
  unfold scale_accesses
  simp only [List.mem_flatMap, List.mem_range]
  exact ⟨0, by decide, 1919, by decide, by decide⟩

end Chya

